import Mathlib

/-! # Serialization of MobilityDB temporal values

A shallow embedding of `mobilitydb_tserialized.c` / `mobilitydb_tserialized.h`.

Memory is modelled as lists of bytes (natural numbers below 256), machine
integers as `Nat` / `Int` with explicit wrap-around, and the object representation
of the producing process (64-bit, little-endian: the encoder copies the low bytes
of a `Datum`) is made explicit through `le_bytes` / `le_value`.  A `double` is its
64-bit pattern: the code only copies doubles.  Every function that can abort
returns `Except Err`; a pointer that may be null is an `Option`.

The functions of `mobilitydb_tserialized.c` keep their names.  What they use from
PostgreSQL, PostGIS and MEOS (types, constants, macros, allocator, constructors)
is not part of the sources and is modelled next to its first use, each with a doc
comment that says so.
-/

set_option autoImplicit false

namespace TSer

/-! ## Tags -/

/-- Modelled from the spec: the enumeration `meosType` of MEOS is not in the sources.
Temporal type tags (stored in a `uint8`): the six base types the codec switches on
(Integer, Float, Boolean, Text, Euclidean Point, Geodetic Point) are spelled out;
`T_OTHER` stands for every other tag value. -/
inductive meosType where
  | T_TINT
  | T_TFLOAT
  | T_TBOOL
  | T_TTEXT
  | T_TGEOMPOINT
  | T_TGEOGPOINT
  | T_OTHER (code : Nat)
  deriving DecidableEq, Repr

/-- Modelled from the spec: the enumeration `tempSubtype` of MEOS is not in the
sources.  Shape tags (stored in a `uint8`): Instant, Sequence, Sequence-Set;
`ANYOTHER` stands for every tag value that is none of the three. -/
inductive tempSubtype where
  | TINSTANT
  | TSEQUENCE
  | TSEQUENCESET
  | ANYOTHER (code : Nat)
  deriving DecidableEq, Repr

/-- Outcomes other than a normal return.  The first two are the errors the program
raises with `elog(ERROR, ...)`, the next two those of the allocator and of the
catalogue it calls.  The last two are not errors: they mark executions that C
leaves undefined (an access outside the modelled object, a cast to a struct the
object is not). -/
inductive Err where
  | unknown_temporal_type (temptype : meosType)
  | unknown_temporal_subtype (subtype : tempSubtype)
  | invalid_alloc_size (size : Nat)
  | not_a_temporal_type (temptype : meosType)
  | out_of_bounds
  | invalid_cast
  deriving DecidableEq, Repr

/-! ## Machine integers and object representations -/

/-- The `w` little-endian bytes of `n` (the object representation of a `w`-byte
integer holding `n mod 2^(8w)`). -/
def le_bytes : Nat → Nat → List Nat
  | 0, _ => []
  | w + 1, n => n % 256 :: le_bytes w (n / 256)

/-- The unsigned integer spelled by little-endian bytes. -/
def le_value : List Nat → Nat
  | [] => 0
  | b :: bs => b + 256 * le_value bs

/-- Reinterpretation of a 32-bit pattern as `int32`. -/
def to_int32 (n : Nat) : Int :=
  if n % 2 ^ 32 < 2 ^ 31 then ((n % 2 ^ 32 : Nat) : Int) else ((n % 2 ^ 32 : Nat) : Int) - 2 ^ 32

/-- Reinterpretation of a 64-bit pattern as `int64`. -/
def to_int64 (n : Nat) : Int :=
  if n % 2 ^ 64 < 2 ^ 63 then ((n % 2 ^ 64 : Nat) : Int) else ((n % 2 ^ 64 : Nat) : Int) - 2 ^ 64

/-- Conversion of a signed integer to `size_t` (also: its 64-bit pattern). -/
def to_size_t (i : Int) : Nat := (i % 2 ^ 64).toNat

/-- Conversion of a signed integer to its 32-bit pattern. -/
def to_uint32 (i : Int) : Nat := (i % 2 ^ 32).toNat

/-- Wrap-around of `size_t` arithmetic. -/
def size_t_wrap (n : Nat) : Nat := n % 2 ^ 64

/-- The size of the header of `TSERIALIZED`: `vl_len_` (4), `temptype` (1),
`subtype` (1), `flags` (2); `data` is a flexible array member. -/
def sizeof_TSERIALIZED : Nat := 8

/-- The size of a `TimestampTz`, an `int64`. -/
def sizeof_TimestampTz : Nat := 8

def sizeof_int32 : Nat := 4
def sizeof_double : Nat := 8
def sizeof_bool : Nat := 1

/-- The size of a `TInstant *`. -/
def sizeof_pointer : Nat := 8

/-- Modelled from the spec: the allocator is an external collaborator.  Largest
request `palloc` accepts (`MaxAllocSize` of PostgreSQL, 1 GB - 1). -/
def MaxAllocSize : Nat := 0x3fffffff

/-! ## Memory -/

/-- Read `n` bytes at offset `off` of an object. -/
def mem_read (mem : List Nat) (off n : Nat) : Except Err (List Nat) :=
  if off + n ≤ mem.length then .ok ((mem.drop off).take n) else .error .out_of_bounds

/-- Overwrite the bytes at offset `off` of an object with `src`. -/
def mem_write (mem : List Nat) (off : Nat) (src : List Nat) : Except Err (List Nat) :=
  if off + src.length ≤ mem.length then
    .ok (mem.take off ++ src ++ mem.drop (off + src.length))
  else .error .out_of_bounds

/-- The call `memcpy(dst + off, src, n)`. -/
def memcpy (dst : List Nat) (off : Nat) (src : List Nat) (n : Nat) : Except Err (List Nat) := do
  let bytes ← mem_read src 0 n
  mem_write dst off bytes

/-- Modelled from the spec: the allocator is an external collaborator.  The call
`palloc0(size)`: `size` zero bytes, or the allocator's error for a request above
`MaxAllocSize`. -/
def palloc0 (size : Nat) : Except Err (List Nat) :=
  if size > MaxAllocSize then .error (.invalid_alloc_size size) else .ok (List.replicate size 0)

/-- Modelled from the spec: the allocator is an external collaborator.  The call
`palloc(size)` as far as the program depends on it: it succeeds or raises. -/
def palloc (size : Nat) : Except Err Unit :=
  if size > MaxAllocSize then .error (.invalid_alloc_size size) else .ok ()

/-- Modelled from the spec: the macro `SET_VARSIZE` of PostgreSQL is not in the
sources.  The header word that `SET_VARSIZE(ptr, len)` stores in a 4-byte varlena
header on a little-endian machine: the length shifted left by two bits. -/
def varsize_header (len : Nat) : Nat := len * 4 % 2 ^ 32

/-- Modelled from the spec: the macro `VARSIZE` of PostgreSQL is not in the sources.
The total length a 4-byte varlena header word declares: its upper thirty bits. -/
def header_varsize (hdr : Nat) : Nat := hdr / 4 % 2 ^ 30

/-- The macro `VARSIZE(ptr)` on the bytes at `ptr`. -/
def VARSIZE (mem : List Nat) : Except Err Nat := do
  let hdr ← mem_read mem 0 4
  pure (header_varsize (le_value hdr))

def read_int32 (mem : List Nat) (off : Nat) : Except Err Int := do
  let bytes ← mem_read mem off 4
  pure (to_int32 (le_value bytes))

def read_int64 (mem : List Nat) (off : Nat) : Except Err Int := do
  let bytes ← mem_read mem off 8
  pure (to_int64 (le_value bytes))

/-- Read of a `double`: its 64-bit pattern. -/
def read_double (mem : List Nat) (off : Nat) : Except Err Nat := do
  let bytes ← mem_read mem off 8
  pure (le_value bytes)

/-- Read of a `bool`. -/
def read_bool (mem : List Nat) (off : Nat) : Except Err Bool := do
  let bytes ← mem_read mem off 1
  pure (le_value bytes != 0)

/-! ## Flags -/

/-- Modelled from the spec: the flag macros of MEOS are not in the sources.  The
has-Z flag of a temporal flag set (bit 5). -/
def MEOS_FLAGS_GET_Z (flags : Nat) : Bool := (flags &&& 0x0020) >>> 5 != 0

/-- Modelled from the spec: the flag macros of MEOS are not in the sources.  The
is-geodetic flag of a temporal flag set (bit 7). -/
def MEOS_FLAGS_GET_GEODETIC (flags : Nat) : Bool := (flags &&& 0x0080) >>> 7 != 0

/-- Modelled from the spec: the flag macros of MEOS are not in the sources.  The
interpolation mode of a temporal flag set (bits 2 and 3). -/
def MEOS_FLAGS_GET_INTERP (flags : Nat) : Nat := (flags &&& 0x000C) >>> 2

/-- Modelled from the spec: the flag macros of PostGIS are not in the sources.  Set or
clear the Z bit (bit 0) of the flag byte of a geometry. -/
def FLAGS_SET_Z (flags : Nat) (value : Bool) : Nat :=
  if value then flags ||| 0x01 else flags &&& 0xFE

/-- Modelled from the spec: the flag macros of PostGIS are not in the sources.  Set or
clear the geodetic bit (bit 3) of the flag byte of a geometry. -/
def FLAGS_SET_GEODETIC (flags : Nat) (value : Bool) : Nat :=
  if value then flags ||| 0x08 else flags &&& 0xF7

/-! ## The in-memory temporal model (input of the encoder) -/

/-- Modelled from the spec: the struct `TInstant` of MEOS is not in the sources.
`flags` is the bit pattern of the `int16`, `t` the timestamp, `value` the bytes of
the object from `&value` to its end (an 8-byte `Datum` for pass-by-value base
types, the varlena itself otherwise). -/
structure TInstant where
  temptype : meosType
  subtype : tempSubtype
  flags : Nat
  t : Int
  value : List Nat
  deriving DecidableEq, Repr

/-- Modelled from the spec: the struct `TSequence` of MEOS is not in the sources.
`count` is its `int32` count field, `lower_inc` / `upper_inc` are the bounds of its
period, `instants` the instants that `TSEQUENCE_INST_N` reaches. -/
structure TSequence where
  temptype : meosType
  subtype : tempSubtype
  flags : Nat
  count : Int
  lower_inc : Bool
  upper_inc : Bool
  instants : List TInstant
  deriving DecidableEq, Repr

/-- Modelled from the spec: the struct `TSequenceSet` of MEOS is not in the sources. -/
structure TSequenceSet where
  temptype : meosType
  subtype : tempSubtype
  flags : Nat
  count : Int
  sequences : List TSequence
  deriving DecidableEq, Repr

/-- The object a `Temporal *` points to. -/
inductive Temporal where
  | instant (inst : TInstant)
  | sequence (seq : TSequence)
  | sequenceset (ss : TSequenceSet)
  deriving DecidableEq, Repr

def Temporal.temptype : Temporal → meosType
  | .instant i => i.temptype
  | .sequence s => s.temptype
  | .sequenceset ss => ss.temptype

def Temporal.subtype : Temporal → tempSubtype
  | .instant i => i.subtype
  | .sequence s => s.subtype
  | .sequenceset ss => ss.subtype

def Temporal.flags : Temporal → Nat
  | .instant i => i.flags
  | .sequence s => s.flags
  | .sequenceset ss => ss.flags

/-- The cast `(TInstant *) temp`. -/
def Temporal.asTInstant : Temporal → Except Err TInstant
  | .instant i => .ok i
  | _ => .error .invalid_cast

/-- The cast `(TSequence *) temp`. -/
def Temporal.asTSequence : Temporal → Except Err TSequence
  | .sequence s => .ok s
  | _ => .error .invalid_cast

/-- The cast `(TSequenceSet *) temp`. -/
def Temporal.asTSequenceSet : Temporal → Except Err TSequenceSet
  | .sequenceset ss => .ok ss
  | _ => .error .invalid_cast

/-- Modelled from the spec: the macro `TSEQUENCE_INST_N` of MEOS is not in the
sources.  The `i`-th sample of the sequence; an index past the samples leaves the
object. -/
def TSEQUENCE_INST_N (seq : TSequence) (i : Nat) : Except Err TInstant :=
  match seq.instants[i]? with
  | some inst => .ok inst
  | none => .error .out_of_bounds

/-- Modelled from the spec: the catalogue of MEOS is not in the sources.  The lookup
`basetype_varlength(temptype_basetype(temptype))`: text, geometry and geography
are variable-length, the scalars are not, and a tag that is no temporal type is an
error of the catalogue. -/
def temptype_basetype_varlength : meosType → Except Err Bool
  | .T_TINT => .ok false
  | .T_TFLOAT => .ok false
  | .T_TBOOL => .ok false
  | .T_TTEXT => .ok true
  | .T_TGEOMPOINT => .ok true
  | .T_TGEOGPOINT => .ok true
  | .T_OTHER c => .error (.not_a_temporal_type (.T_OTHER c))

/-- Modelled from the spec: the macro `GS_POINT_PTR` of MEOS is not in the sources.
The address of the ordinates of a point geometry: they follow the 8-byte header,
the type and the point count (the layout `geopoint_make_fast` writes). -/
def GS_POINT_PTR (gs : List Nat) : List Nat := gs.drop 16

/-! ## The encoded buffer -/

/-- A `TSERIALIZED` in memory: `vl_len_` is the varlena header word, `flags` the
bit pattern of the `int16`, `data` the bytes that follow the 8-byte header. -/
structure TSERIALIZED where
  vl_len_ : Nat
  temptype : meosType
  subtype : tempSubtype
  flags : Nat
  data : List Nat
  deriving DecidableEq, Repr

/-- Result of `palloc0(size)` seen as a `TSERIALIZED`. -/
def palloc0_TSERIALIZED (size : Nat) : Except Err TSERIALIZED := do
  let mem ← palloc0 size
  if size < sizeof_TSERIALIZED then .error .out_of_bounds
  else pure { vl_len_ := 0, temptype := .T_OTHER 0, subtype := .ANYOTHER 0, flags := 0,
              data := mem.drop sizeof_TSERIALIZED }

def SET_VARSIZE (ts : TSERIALIZED) (len : Nat) : TSERIALIZED :=
  { ts with vl_len_ := varsize_header len }

/-- The length the envelope declares (`VARSIZE(ts)`). -/
def TSERIALIZED.varsize (ts : TSERIALIZED) : Nat := header_varsize ts.vl_len_

/-- The number of bytes the buffer occupies: header and data. -/
def TSERIALIZED.physical_size (ts : TSERIALIZED) : Nat := sizeof_TSERIALIZED + ts.data.length

/-! ## Encoder -/

def tserialized_value_size (temp : TInstant) : Except Err Nat :=
  match temp.temptype with
  | .T_TINT => pure sizeof_int32
  | .T_TFLOAT => pure sizeof_double
  | .T_TBOOL => pure sizeof_bool
  | .T_TTEXT => pure (sizeof_double * (2 + (if MEOS_FLAGS_GET_Z temp.flags then 1 else 0)))
  | .T_TGEOMPOINT => pure (sizeof_double * (2 + (if MEOS_FLAGS_GET_Z temp.flags then 1 else 0)))
  | .T_TGEOGPOINT => VARSIZE temp.value
  | .T_OTHER c => throw (.unknown_temporal_type (.T_OTHER c))

def tinstant_to_tserialized (temp : TInstant) : Except Err TSERIALIZED := do
  let size := sizeof_TSERIALIZED + sizeof_TimestampTz
  let v_size ← tserialized_value_size temp
  let size := size_t_wrap (size + v_size)
  let result ← palloc0_TSERIALIZED size
  let result := SET_VARSIZE result size
  let result := { result with temptype := temp.temptype }
  let result := { result with subtype := temp.subtype }
  let result := { result with flags := temp.flags }
  let data ← memcpy result.data 0 (le_bytes 8 (to_size_t temp.t)) sizeof_TimestampTz
  let data ←
    (if temp.temptype = .T_TGEOMPOINT then
      memcpy data sizeof_TimestampTz (GS_POINT_PTR temp.value) v_size
    else
      memcpy data sizeof_TimestampTz temp.value v_size)
  pure { result with data := data }

/-- The first loop of `tsequence_to_tserialized`: `n` iterations are left, `i` is
the loop counter. -/
def tsequence_size_loop (temp : TSequence) : Nat → Nat → Nat → Except Err Nat
  | 0, _, size => pure size
  | n + 1, i, size => do
    let inst ← TSEQUENCE_INST_N temp i
    let len ← VARSIZE inst.value
    tsequence_size_loop temp n (i + 1) (size_t_wrap (size + len))

/-- The variables the second loop of `tsequence_to_tserialized` updates. -/
structure WriteState where
  data : List Nat
  t_offset : Nat
  v_offset : Nat
  v_size : Nat
  deriving DecidableEq, Repr

/-- The second loop of `tsequence_to_tserialized`: `n` iterations are left, `i` is
the loop counter. -/
def tsequence_write_loop (temp : TSequence) (is_varlength : Bool) :
    Nat → Nat → WriteState → Except Err WriteState
  | 0, _, st => pure st
  | n + 1, i, st => do
    let inst ← TSEQUENCE_INST_N temp i
    let v_size ← (if is_varlength then VARSIZE inst.value else pure st.v_size)
    let data ← memcpy st.data st.t_offset (le_bytes 8 (to_size_t inst.t)) sizeof_TimestampTz
    let data ←
      (if temp.temptype = .T_TGEOMPOINT then
        memcpy data st.v_offset (GS_POINT_PTR inst.value) v_size
      else
        memcpy data st.v_offset inst.value v_size)
    tsequence_write_loop temp is_varlength n (i + 1)
      { data := data, t_offset := size_t_wrap (st.t_offset + sizeof_TimestampTz),
        v_offset := size_t_wrap (st.v_offset + v_size), v_size := v_size }

/-- The body of `tsequence_to_tserialized` up to the end of its second loop: the
buffer with its header set and the final state of the loop variables. -/
def tsequence_to_tserialized_run (temp : TSequence) : Except Err (TSERIALIZED × WriteState) := do
  let size := size_t_wrap (sizeof_TSERIALIZED + sizeof_int32
    + size_t_wrap (to_size_t temp.count * sizeof_TimestampTz))
  let inst ← TSEQUENCE_INST_N temp 0
  let v_size ← tserialized_value_size inst
  let t_offset := sizeof_int32
  let v_offset := size_t_wrap (sizeof_int32 + size_t_wrap (to_size_t temp.count * sizeof_TimestampTz))
  let is_varlength ← temptype_basetype_varlength temp.temptype
  let is_varlength := if temp.temptype = .T_TGEOMPOINT then false else is_varlength
  let size ←
    (if is_varlength then
      tsequence_size_loop temp temp.count.toNat 0 size
    else
      pure (size_t_wrap (size + size_t_wrap (to_size_t temp.count * v_size))))
  let result ← palloc0_TSERIALIZED size
  let result := SET_VARSIZE result size
  let result := { result with temptype := temp.temptype }
  let result := { result with subtype := temp.subtype }
  let result := { result with flags := temp.flags }
  let data ← memcpy result.data 0 (le_bytes 4 (to_uint32 temp.count)) sizeof_int32
  let st ← tsequence_write_loop temp is_varlength temp.count.toNat 0
    { data := data, t_offset := t_offset, v_offset := v_offset, v_size := v_size }
  pure ({ result with data := st.data }, st)

def tsequence_to_tserialized (temp : TSequence) : Except Err TSERIALIZED := do
  let r ← tsequence_to_tserialized_run temp
  pure r.1

/-- The function returns its `result`, which is still the null pointer (`none`). -/
def tsequenceset_to_tserialized (temp : TSequenceSet) : Except Err (Option TSERIALIZED) :=
  let result : Option TSERIALIZED := none
  match temp.temptype with
  | .T_TINT => pure result
  | .T_TFLOAT => pure result
  | .T_TBOOL => pure result
  | .T_TTEXT => pure result
  | .T_TGEOMPOINT => pure result
  | .T_TGEOGPOINT => pure result
  | .T_OTHER c => throw (.unknown_temporal_type (.T_OTHER c))

def temporal_to_tserialized (temp : Temporal) : Except Err (Option TSERIALIZED) :=
  match temp.subtype with
  | .TINSTANT => do
    let inst ← temp.asTInstant
    let result ← tinstant_to_tserialized inst
    pure (some result)
  | .TSEQUENCE => do
    let seq ← temp.asTSequence
    let result ← tsequence_to_tserialized seq
    pure (some result)
  | .TSEQUENCESET => do
    let ss ← temp.asTSequenceSet
    tsequenceset_to_tserialized ss
  | .ANYOTHER c => throw (.unknown_temporal_subtype (.ANYOTHER c))

/-! ## Point encoding -/

/-- The function `geopoint_make_fast`: `x`, `y`, `z` are the 64-bit patterns of the
doubles, the result is the byte image of the `GSERIALIZED` (size word at 0,
`srid` at 4..6, `gflags` at 7, data from 8). -/
def geopoint_make_fast (x y z : Nat) (hasz geodetic : Bool) (srid : Int) :
    Except Err (List Nat) := do
  let size := 16 + sizeof_double * (if hasz then 3 else 2)
  let type := 1
  let npoints := 1
  let g ← palloc0 size
  let g ← mem_write g 0 (le_bytes 4 (varsize_header size))
  let gflags := 0x40
  let gflags := FLAGS_SET_Z gflags hasz
  let gflags := FLAGS_SET_GEODETIC gflags geodetic
  let g ← mem_write g 7 [gflags % 256]
  let g ← mem_write g 4 [((to_uint32 srid &&& 0x001F0000) >>> 16) % 256]
  let g ← mem_write g 5 [((to_uint32 srid &&& 0x0000FF00) >>> 8) % 256]
  let g ← mem_write g 6 [(to_uint32 srid &&& 0x000000FF) % 256]
  let ptr := 8
  let g ← memcpy g ptr (le_bytes 4 type) 4
  let ptr := ptr + 4
  let g ← memcpy g ptr (le_bytes 4 npoints) 4
  let ptr := ptr + 4
  let g ← memcpy g ptr (le_bytes 8 x) sizeof_double
  let ptr := ptr + sizeof_double
  let g ← memcpy g ptr (le_bytes 8 y) sizeof_double
  let ptr := ptr + sizeof_double
  if hasz then memcpy g ptr (le_bytes 8 z) sizeof_double else pure g

/-! ## Values handed to the external temporal model (output of the decoder) -/

/-- Modelled from the spec: the type `Datum` of PostgreSQL is not in the sources.
A 64-bit word for pass-by-value base types, or a pointer, modelled by the bytes
found from the pointed address on. -/
inductive Datum where
  | word (w : Nat)
  | pointer (mem : List Nat)
  deriving DecidableEq, Repr

/-- Modelled from the spec: the conversion is PostgreSQL's.  The `int32` converted to
the 64-bit word (sign-extended). -/
def Int32GetDatum (x : Int) : Datum := .word (to_size_t x)

/-- Modelled from the spec: the conversion is PostgreSQL's.  The bit pattern of the
`double` as the 64-bit word. -/
def Float8GetDatum (bits : Nat) : Datum := .word bits

/-- Modelled from the spec: the conversion is PostgreSQL's.  The word 1 or 0. -/
def BoolGetDatum (b : Bool) : Datum := .word (if b then 1 else 0)

/-- Modelled from the spec: the conversion is PostgreSQL's. -/
def PointerGetDatum (mem : List Nat) : Datum := .pointer mem

/-- Modelled from the spec: the constructor `tinstant_make` of MEOS is not in the
sources.  The instant it builds from `(value, temptype, t)`, recorded by the
arguments of the call. -/
structure MadeInstant where
  value : Datum
  temptype : meosType
  t : Int
  deriving DecidableEq, Repr

def tinstant_make (value : Datum) (temptype : meosType) (t : Int) : MadeInstant :=
  { value := value, temptype := temptype, t := t }

/-- Modelled from the spec: the constructor `tsequence_make_free` of MEOS is not in
the sources.  The sequence it builds from
`(instants, count, lower_inc, upper_inc, interp, normalize)`, recorded by the
arguments of the call. -/
structure MadeSequence where
  instants : List MadeInstant
  count : Int
  lower_inc : Bool
  upper_inc : Bool
  interp : Nat
  normalize : Bool
  deriving DecidableEq, Repr

def tsequence_make_free (instants : List MadeInstant) (count : Int) (lower_inc upper_inc : Bool)
    (interp : Nat) (normalize : Bool) : MadeSequence :=
  { instants := instants, count := count, lower_inc := lower_inc, upper_inc := upper_inc,
    interp := interp, normalize := normalize }

/-- The object behind the `Temporal *` a decoder returns. -/
inductive MadeTemporal where
  | instant (inst : MadeInstant)
  | sequence (seq : MadeSequence)
  deriving DecidableEq, Repr

/-! ## Decoder -/

/-- The bytes `VARSIZE(&value)` reads when `value` is a local `Datum` holding the
address `addr`: the low four bytes of the address itself. -/
def VARSIZE_of_local_pointer (addr : Nat) : Nat := header_varsize (addr % 2 ^ 32)

def tserialized_to_tinstant (ts : TSERIALIZED) : Except Err MadeInstant := do
  let t ← read_int64 ts.data 0
  let srid : Int := 0
  let hasz := MEOS_FLAGS_GET_Z ts.flags
  let value ←
    (match ts.temptype with
    | .T_TINT => do
      let x ← read_int32 ts.data sizeof_TimestampTz
      pure (Int32GetDatum x)
    | .T_TFLOAT => do
      let x ← read_double ts.data sizeof_TimestampTz
      pure (Float8GetDatum x)
    | .T_TBOOL => do
      let x ← read_bool ts.data sizeof_TimestampTz
      pure (BoolGetDatum x)
    | .T_TTEXT => pure (PointerGetDatum (ts.data.drop sizeof_TimestampTz))
    | .T_TGEOMPOINT => do
      let p := sizeof_TimestampTz
      let x ← read_double ts.data p
      let y ← read_double ts.data (p + 8)
      let z ← (if hasz then read_double ts.data (p + 16) else pure 0)
      let g ← geopoint_make_fast x y z hasz (MEOS_FLAGS_GET_GEODETIC ts.flags) srid
      pure (PointerGetDatum g)
    | .T_TGEOGPOINT => pure (PointerGetDatum (ts.data.drop sizeof_TimestampTz))
    | .T_OTHER c => throw (.unknown_temporal_type (.T_OTHER c)))
  pure (tinstant_make value ts.temptype t)

/-- The variables the loop of `tserialized_to_tsequence` updates; `instants` holds
the entries of the array filled so far. -/
structure ReadState where
  instants : List MadeInstant
  t_offset : Nat
  v_offset : Nat
  deriving DecidableEq, Repr

/-- The loop of `tserialized_to_tsequence`: `n` iterations are left, `i` is the
loop counter, `ts_addr` the address held by the pointer `ts`. -/
def tserialized_read_loop (ts_addr : Nat) (ts : TSERIALIZED) (hasz : Bool) :
    Nat → Nat → ReadState → Except Err ReadState
  | 0, _, st => pure st
  | n + 1, i, st => do
    let srid : Int := 0
    let t ← read_int64 ts.data st.t_offset
    let (value, v_offset) ←
      (match ts.temptype with
      | .T_TINT => do
        let x ← read_int32 ts.data st.v_offset
        pure (Int32GetDatum x, size_t_wrap (st.v_offset + sizeof_int32))
      | .T_TFLOAT => do
        let x ← read_double ts.data st.v_offset
        pure (Float8GetDatum x, size_t_wrap (st.v_offset + sizeof_double))
      | .T_TBOOL => do
        let x ← read_bool ts.data st.v_offset
        pure (BoolGetDatum x, size_t_wrap (st.v_offset + sizeof_bool))
      | .T_TTEXT => do
        let value := PointerGetDatum (ts.data.drop st.v_offset)
        let len ← VARSIZE (ts.data.drop st.v_offset)
        pure (value, size_t_wrap (st.v_offset + len))
      | .T_TGEOMPOINT => do
        let p := st.v_offset
        let x ← read_double ts.data p
        let y ← read_double ts.data (p + 8)
        let z ← (if hasz then read_double ts.data (p + 16) else pure 0)
        let g ← geopoint_make_fast x y z hasz (MEOS_FLAGS_GET_GEODETIC ts.flags) srid
        pure (PointerGetDatum g,
          size_t_wrap (st.v_offset + sizeof_double * (if hasz then 3 else 2)))
      | .T_TGEOGPOINT => do
        let value := PointerGetDatum (ts.data.drop st.v_offset)
        let len := VARSIZE_of_local_pointer
          (size_t_wrap (ts_addr + sizeof_TSERIALIZED + st.v_offset))
        pure (value, size_t_wrap (st.v_offset + len))
      | .T_OTHER c => throw (.unknown_temporal_type (.T_OTHER c)))
    tserialized_read_loop ts_addr ts hasz n (i + 1)
      { instants := st.instants ++ [tinstant_make value ts.temptype t],
        t_offset := size_t_wrap (st.t_offset + sizeof_TimestampTz),
        v_offset := v_offset }

/-- The body of `tserialized_to_tsequence` up to the end of its loop: the count
read and the final state of the loop variables. -/
def tserialized_to_tsequence_run (ts_addr : Nat) (ts : TSERIALIZED) :
    Except Err (Int × ReadState) := do
  let count ← read_int32 ts.data 0
  palloc (size_t_wrap (sizeof_pointer * to_size_t count))
  let t_offset := sizeof_int32
  let v_offset := size_t_wrap (sizeof_int32 + size_t_wrap (to_size_t count * sizeof_TimestampTz))
  let hasz := MEOS_FLAGS_GET_Z ts.flags
  let st ← tserialized_read_loop ts_addr ts hasz count.toNat 0
    { instants := [], t_offset := t_offset, v_offset := v_offset }
  pure (count, st)

def tserialized_to_tsequence (ts_addr : Nat) (ts : TSERIALIZED) : Except Err MadeSequence := do
  let (count, st) ← tserialized_to_tsequence_run ts_addr ts
  pure (tsequence_make_free st.instants count true true (MEOS_FLAGS_GET_INTERP ts.flags) false)

/-- The function `tserialized_to_temporal`; `none` is the null pointer. -/
def tserialized_to_temporal (ts_addr : Nat) (ts : TSERIALIZED) :
    Except Err (Option MadeTemporal) :=
  let result : Option MadeTemporal := none
  match ts.subtype with
  | .TINSTANT => do
    let inst ← tserialized_to_tinstant ts
    pure (some (.instant inst))
  | .TSEQUENCE => do
    let seq ← tserialized_to_tsequence ts_addr ts
    pure (some (.sequence seq))
  | .TSEQUENCESET => pure result
  | .ANYOTHER c => throw (.unknown_temporal_subtype (.ANYOTHER c))

def tserialized_num_instants (ts : TSERIALIZED) : Except Err Int :=
  match ts.subtype with
  | .TINSTANT => pure 1
  | _ => read_int32 ts.data 0

/-! ## Vocabulary of the statements -/

/-- The range of an `int64` (a `TimestampTz`). -/
def int64_range (t : Int) : Prop := -(2 : Int) ^ 63 ≤ t ∧ t < 2 ^ 63

instance (t : Int) : Decidable (int64_range t) := by
  unfold int64_range; infer_instance

/-- Every element of the list is a byte. -/
def is_bytes (l : List Nat) : Prop := ∀ b ∈ l, b < 256

instance (l : List Nat) : Decidable (is_bytes l) := by
  unfold is_bytes; infer_instance

/-- The eight bytes a timestamp occupies in memory. -/
def timestamp_bytes (t : Int) : List Nat := le_bytes 8 (to_size_t t)

/-- The timestamps of the samples, eight bytes each, in sample order. -/
def timestamps_block : List TInstant → List Nat
  | [] => []
  | inst :: rest => timestamp_bytes inst.t ++ timestamps_block rest

/-- The bytes at the address the encoder copies a sample's value from: the
ordinates of the point for a Euclidean point, the bytes at `&value` otherwise. -/
def value_source (temptype : meosType) (inst : TInstant) : List Nat :=
  if temptype = .T_TGEOMPOINT then GS_POINT_PTR inst.value else inst.value

/-- The first `width inst` bytes of each sample's value source, in sample order. -/
def values_block (temptype : meosType) (width : TInstant → Nat) : List TInstant → List Nat
  | [] => []
  | inst :: rest =>
    (value_source temptype inst).take (width inst) ++ values_block temptype width rest

/-- The sum of the widths of the samples. -/
def widths_sum (width : TInstant → Nat) : List TInstant → Nat
  | [] => 0
  | inst :: rest => width inst + widths_sum width rest

/-- The length a varlena value declares in its own header. -/
def declared_length (value : List Nat) : Nat := header_varsize (le_value (value.take 4))

/-- The width the sequence encoder gives to the value of `inst` in a sequence of
type `temptype` whose first sample has flags `first_flags`. -/
def seq_value_width (temptype : meosType) (first_flags : Nat) (inst : TInstant) : Nat :=
  match temptype with
  | .T_TINT => 4
  | .T_TFLOAT => 8
  | .T_TBOOL => 1
  | .T_TTEXT => declared_length inst.value
  | .T_TGEOMPOINT => 8 * (2 + (if MEOS_FLAGS_GET_Z first_flags then 1 else 0))
  | .T_TGEOGPOINT => declared_length inst.value
  | .T_OTHER _ => 0

/-- The sequence encoder sizes each value by its own declared length: Text and
Geodetic Point. -/
def seq_is_varlength (temptype : meosType) : Bool :=
  match temptype with
  | .T_TTEXT => true
  | .T_TGEOGPOINT => true
  | _ => false

/-- The width the instant encoder gives to the value of `inst`. -/
def inst_value_width (inst : TInstant) : Nat :=
  match inst.temptype with
  | .T_TINT => 4
  | .T_TFLOAT => 8
  | .T_TBOOL => 1
  | .T_TTEXT => 8 * (2 + (if MEOS_FLAGS_GET_Z inst.flags then 1 else 0))
  | .T_TGEOMPOINT => 8 * (2 + (if MEOS_FLAGS_GET_Z inst.flags then 1 else 0))
  | .T_TGEOGPOINT => declared_length inst.value
  | .T_OTHER _ => 0

/-- The temporal type is one of the six the codec recognises. -/
def recognised (temptype : meosType) : Prop :=
  match temptype with
  | .T_OTHER _ => False
  | _ => True

instance (temptype : meosType) : Decidable (recognised temptype) := by
  unfold recognised; cases temptype <;> infer_instance

/-- The temporal type is Integer, Float or Boolean. -/
def fixed_scalar (temptype : meosType) : Prop :=
  temptype = .T_TINT ∨ temptype = .T_TFLOAT ∨ temptype = .T_TBOOL

instance (temptype : meosType) : Decidable (fixed_scalar temptype) := by
  unfold fixed_scalar; infer_instance

/-- Width of a fixed-width scalar: Integer 4, Float 8, Boolean 1. -/
def scalar_width (temptype : meosType) : Nat :=
  match temptype with
  | .T_TINT => 4
  | .T_TFLOAT => 8
  | .T_TBOOL => 1
  | _ => 0

/-- The first `w` bytes of a value as the external model holds it: the low bytes
of the word of a pass-by-value datum, the pointed bytes of a pointer. -/
def Datum.bytes (w : Nat) : Datum → List Nat
  | .word d => le_bytes w d
  | .pointer mem => mem.take w

/-- The datum the decoders build from the bytes of a fixed-width scalar. -/
def scalar_datum (temptype : meosType) (bytes : List Nat) : Datum :=
  match temptype with
  | .T_TINT => Int32GetDatum (to_int32 (le_value bytes))
  | .T_TFLOAT => Float8GetDatum (le_value bytes)
  | .T_TBOOL => BoolGetDatum (le_value bytes != 0)
  | _ => .word 0

/-- The instant the decoders build from a timestamp's eight bytes and a scalar's bytes. -/
def scalar_instant (temptype : meosType) (tbytes vbytes : List Nat) : MadeInstant :=
  tinstant_make (scalar_datum temptype vbytes) temptype (to_int64 (le_value tbytes))

/-- A sample that holds a scalar of type `temptype` the way the external model
stores it: a timestamp in range, and at `&value` at least the scalar's bytes, which
for a Boolean are those of `false` or `true`. -/
def scalar_sample (temptype : meosType) (inst : TInstant) : Prop :=
  int64_range inst.t ∧ scalar_width temptype ≤ inst.value.length
    ∧ is_bytes (inst.value.take (scalar_width temptype))
    ∧ (temptype = .T_TBOOL → inst.value.take 1 = [0] ∨ inst.value.take 1 = [1])

instance (temptype : meosType) (inst : TInstant) : Decidable (scalar_sample temptype inst) := by
  unfold scalar_sample; infer_instance

/-- What the round trip compares of a sample: timestamp, base type, value bytes. -/
def sample_view (inst : TInstant) : Int × meosType × List Nat :=
  (inst.t, inst.temptype, inst.value.take (scalar_width inst.temptype))

/-- What the round trip compares of a decoded sample. -/
def made_view (w : Nat) (m : MadeInstant) : Int × meosType × List Nat :=
  (m.t, m.temptype, m.value.bytes w)

/-- The flags of the first sample of a sequence (the ones `tserialized_value_size`
is called with). -/
def first_flags (seq : TSequence) : Nat :=
  match seq.instants with
  | [] => 0
  | first :: _ => first.flags

/-- An Instant, or a non-empty Sequence, of base type Integer, Float or Boolean as
the external model stores it: the shape tag matches the object, a sequence's count
field is its number of samples, every sample carries the sequence's base type and
holds a scalar of it, and the encoding fits in one allocation (which the sequence
itself, being larger, already does). -/
def scalar_temporal : Temporal → Prop
  | .instant inst =>
    inst.subtype = .TINSTANT ∧ fixed_scalar inst.temptype ∧ scalar_sample inst.temptype inst
  | .sequence seq =>
    seq.subtype = .TSEQUENCE ∧ fixed_scalar seq.temptype ∧ seq.instants ≠ []
      ∧ seq.count = (seq.instants.length : Int)
      ∧ (∀ inst ∈ seq.instants, inst.temptype = seq.temptype ∧ scalar_sample seq.temptype inst)
      ∧ 12 + (8 + scalar_width seq.temptype) * seq.instants.length ≤ MaxAllocSize
  | .sequenceset _ => False

instance (v : Temporal) : Decidable (scalar_temporal v) := by
  cases v <;> unfold scalar_temporal <;> infer_instance

/-- The decoded value has the shape of `v` and, sample by sample and in order, the
timestamp, base type and value bytes of `v`; a decoded sequence has the count of
`v` and is built with the interpolation mode of the flags of `v`. -/
def same_samples (v : Temporal) (m : MadeTemporal) : Prop :=
  match v, m with
  | .instant inst, .instant mi => made_view (scalar_width inst.temptype) mi = sample_view inst
  | .sequence seq, .sequence ms =>
    ms.instants.map (made_view (scalar_width seq.temptype)) = seq.instants.map sample_view
      ∧ ms.instants.length = seq.instants.length
      ∧ ms.count = seq.count
      ∧ ms.interp = MEOS_FLAGS_GET_INTERP seq.flags
  | _, _ => False

/-- An Instant, or a non-empty Sequence, of a recognised base type that the encoder
can read and allocate for: the shape tag matches the object, a sequence's count
field is its number of samples, its samples carry its base type, every value the
encoder copies lies within the object it is copied from, and the encoding fits in
one allocation. -/
def encodable : Temporal → Prop
  | .instant inst =>
    inst.subtype = .TINSTANT ∧ recognised inst.temptype
      ∧ (inst.temptype = .T_TGEOGPOINT → 4 ≤ inst.value.length)
      ∧ inst_value_width inst ≤ (value_source inst.temptype inst).length
      ∧ 16 + inst_value_width inst ≤ MaxAllocSize
  | .sequence seq =>
    seq.subtype = .TSEQUENCE ∧ recognised seq.temptype ∧ seq.instants ≠ []
      ∧ seq.count = (seq.instants.length : Int)
      ∧ (∀ inst ∈ seq.instants, inst.temptype = seq.temptype)
      ∧ (seq_is_varlength seq.temptype = true → ∀ inst ∈ seq.instants, 4 ≤ inst.value.length)
      ∧ (∀ inst ∈ seq.instants, seq_value_width seq.temptype (first_flags seq) inst
          ≤ (value_source seq.temptype inst).length)
      ∧ 12 + 8 * seq.instants.length
          + widths_sum (seq_value_width seq.temptype (first_flags seq)) seq.instants
          ≤ MaxAllocSize
  | .sequenceset _ => False

instance (v : Temporal) : Decidable (encodable v) := by
  cases v <;> unfold encodable <;> infer_instance

/-- The number of samples of an Instant or a Sequence. -/
def sample_count : Temporal → Int
  | .instant _ => 1
  | .sequence seq => (seq.instants.length : Int)
  | .sequenceset _ => 0

/-- The buffer with its last `k` bytes removed; the envelope still declares the
original length. -/
def truncate_buffer (k : Nat) (b : TSERIALIZED) : TSERIALIZED :=
  { b with data := b.data.take (b.data.length - k) }

/-- The buffer as a decoder finds it through its pointer when the bytes `tail`,
which are not part of the buffer, come next in memory. -/
def followed_by (b : TSERIALIZED) (tail : List Nat) : TSERIALIZED :=
  { b with data := b.data ++ tail }

/-- The number of body bytes that hold the samples of an Instant or a Sequence of
fixed-width scalars (the body without a sequence's count field). -/
def samples_size : Temporal → Nat
  | .instant inst => 8 + scalar_width inst.temptype
  | .sequence seq => (8 + scalar_width seq.temptype) * seq.instants.length
  | .sequenceset _ => 0

/-- The width of the raw ordinates of a point under the flag set `flags`:
(2 + hasZ) * 8. -/
def point_width (flags : Nat) : Nat := (2 + (if MEOS_FLAGS_GET_Z flags then 1 else 0)) * 8

/-- The raw ordinates of the point a Euclidean Point sample holds. -/
def ordinates (inst : TInstant) : List Nat :=
  (GS_POINT_PTR inst.value).take (point_width inst.flags)

/-- The flag byte `geopoint_make_fast` writes for the flag set `flags` of the
envelope: the version bit, the Z bit and the geodetic bit. -/
def point_flag_byte (flags : Nat) : Nat :=
  0x40 + (if MEOS_FLAGS_GET_Z flags then 1 else 0)
    + (if MEOS_FLAGS_GET_GEODETIC flags then 8 else 0)

/-- A Euclidean Point sample as the external model stores it: a timestamp in range
and, at `&value`, a point geometry whose ordinates (2 or 3 doubles, as the has-Z
flag of the sample says) follow its 16 bytes of header, type and point count.  The
SRID bytes of the geometry are not constrained. -/
def point_sample (inst : TInstant) : Prop :=
  inst.temptype = .T_TGEOMPOINT ∧ int64_range inst.t
    ∧ point_width inst.flags ≤ (GS_POINT_PTR inst.value).length
    ∧ is_bytes (ordinates inst)

instance (inst : TInstant) : Decidable (point_sample inst) := by
  unfold point_sample; infer_instance

/-- The varlena a pointer datum points to: as many of the pointed bytes as their
own header declares. -/
def Datum.varlena : Datum → List Nat
  | .word _ => []
  | .pointer mem => mem.take (declared_length mem)

/-- The length a sample's varlena value declares in its own header. -/
def declared_width (inst : TInstant) : Nat := declared_length inst.value

/-- A Text sample as the external model stores it: a timestamp in range and, at
`&value`, a text whose declared length counts its own 4-byte header and lies
within the sample. -/
def stored_text (inst : TInstant) : Prop :=
  inst.temptype = .T_TTEXT ∧ int64_range inst.t
    ∧ 4 ≤ declared_length inst.value ∧ declared_length inst.value ≤ inst.value.length

instance (inst : TInstant) : Decidable (stored_text inst) := by
  unfold stored_text; infer_instance

/-- A non-empty Text Sequence as the external model stores it, whose encoding fits
in one allocation. -/
def stored_text_sequence (seq : TSequence) : Prop :=
  seq.subtype = .TSEQUENCE ∧ seq.temptype = .T_TTEXT ∧ seq.instants ≠ []
    ∧ seq.count = (seq.instants.length : Int)
    ∧ (∀ inst ∈ seq.instants, stored_text inst)
    ∧ 12 + 8 * seq.instants.length + widths_sum declared_width seq.instants ≤ MaxAllocSize

instance (seq : TSequence) : Decidable (stored_text_sequence seq) := by
  unfold stored_text_sequence; infer_instance

/-- The body offset of the `i`-th value of a sequence whose values have their
declared widths: 4 + 8 N + (L_0 + ... + L_(i-1)). -/
def declared_offset (seq : TSequence) (i : Nat) : Nat :=
  4 + 8 * seq.instants.length + widths_sum declared_width (seq.instants.take i)

/-- The instants the sequence decoder builds for Text samples when its value cursor
starts at `off`: each value is the pointer to the cursor, which then moves on by the
length the sample's text declares. -/
def text_instants_at (data : List Nat) : Nat → List TInstant → List MadeInstant
  | _, [] => []
  | off, inst :: rest =>
    tinstant_make (PointerGetDatum (data.drop off)) .T_TTEXT inst.t
      :: text_instants_at data (off + declared_width inst) rest

/-- An Instant, or a non-empty Sequence, of base type Euclidean Point as the
external model stores it: the shape tag matches the object, a sequence's count
field is its number of samples, every sample holds a point and shares the has-Z
flag of the sequence, and the encoding fits in one allocation. -/
def point_temporal : Temporal → Prop
  | .instant inst => inst.subtype = .TINSTANT ∧ point_sample inst
  | .sequence seq =>
    seq.subtype = .TSEQUENCE ∧ seq.temptype = .T_TGEOMPOINT ∧ seq.instants ≠ []
      ∧ seq.count = (seq.instants.length : Int)
      ∧ (∀ inst ∈ seq.instants,
          point_sample inst ∧ MEOS_FLAGS_GET_Z inst.flags = MEOS_FLAGS_GET_Z seq.flags)
      ∧ 12 + (8 + point_width seq.flags) * seq.instants.length ≤ MaxAllocSize
  | .sequenceset _ => False

instance (v : Temporal) : Decidable (point_temporal v) := by
  cases v <;> unfold point_temporal <;> infer_instance

/-! ## Concrete values -/

/-- A Float instant: value 3.5 (bit pattern `0x400C000000000000`) at timestamp 1000000. -/
def float_instant : TInstant :=
  { temptype := .T_TFLOAT, subtype := .TINSTANT, flags := 0, t := 1000000,
    value := [0, 0, 0, 0, 0, 0, 0x0C, 0x40] }

/-- An Integer sample: `value` at timestamp `t`, the datum sign-extended to eight bytes. -/
def int_sample (t : Int) (value : Int) : TInstant :=
  { temptype := .T_TINT, subtype := .TINSTANT, flags := 0, t := t,
    value := le_bytes 8 (to_size_t value) }

/-- The Integer sequence `[(100,5),(200,7),(300,9)]` with step interpolation
(interpolation bits `2`), lower bound inclusive, upper bound exclusive. -/
def int_sequence : TSequence :=
  { temptype := .T_TINT, subtype := .TSEQUENCE, flags := 0x0008, count := 3,
    lower_inc := true, upper_inc := false,
    instants := [int_sample 100 5, int_sample 200 7, int_sample 300 9] }

/-- A Text sample: the varlena `text` (its own 4-byte header included, padded as
the instant stores it) at timestamp `t`. -/
def text_sample (t : Int) (text : List Nat) : TInstant :=
  { temptype := .T_TTEXT, subtype := .TINSTANT, flags := 0, t := t, value := text }

/-- The Text sequence `[(10,"ab"),(20,"hello")]`: the texts declare 6 and 9 bytes
(header words 24 and 36) and are padded to 8 and 16 bytes. -/
def text_sequence : TSequence :=
  { temptype := .T_TTEXT, subtype := .TSEQUENCE, flags := 0x0008, count := 2,
    lower_inc := true, upper_inc := true,
    instants := [text_sample 10 [24, 0, 0, 0, 97, 98, 0, 0],
      text_sample 20 [36, 0, 0, 0, 104, 101, 108, 108, 111, 0, 0, 0, 0, 0, 0, 0]] }

/-- A Sequence-Set of base type Integer holding the sequence `int_sequence`. -/
def int_sequence_set : TSequenceSet :=
  { temptype := .T_TINT, subtype := .TSEQUENCESET, flags := 0x0008, count := 1,
    sequences := [int_sequence] }

/-- A buffer whose envelope is tagged Sequence-Set (base type Integer, no body). -/
def sequence_set_buffer : TSERIALIZED :=
  { vl_len_ := varsize_header 8, temptype := .T_TINT, subtype := .TSEQUENCESET, flags := 0,
    data := [] }

/-- A 12-byte buffer tagged Sequence whose base type tag is none of the recognised
ones and whose count field is 0. -/
def empty_unknown_sequence_buffer : TSERIALIZED :=
  { vl_len_ := varsize_header 12, temptype := .T_OTHER 0, subtype := .TSEQUENCE, flags := 0,
    data := [0, 0, 0, 0] }

/-- The temporal value is an Instant, or a Sequence with a first sample, whose
base type tag (for a Sequence: that of its samples) is the unrecognised `T_OTHER c`. -/
def unknown_base_type (v : Temporal) (c : Nat) : Prop :=
  match v with
  | .instant inst => inst.subtype = .TINSTANT ∧ inst.temptype = .T_OTHER c
  | .sequence seq =>
    seq.subtype = .TSEQUENCE
      ∧ ∃ first rest, seq.instants = first :: rest ∧ first.temptype = .T_OTHER c
  | .sequenceset _ => False

/-- The encoding of `int_sequence`: 48 bytes, of which 40 are the body. -/
def int_sequence_buffer : TSERIALIZED :=
  { vl_len_ := varsize_header 48, temptype := .T_TINT, subtype := .TSEQUENCE, flags := 0x0008,
    data := [3, 0, 0, 0,
      100, 0, 0, 0, 0, 0, 0, 0, 200, 0, 0, 0, 0, 0, 0, 0, 44, 1, 0, 0, 0, 0, 0, 0,
      5, 0, 0, 0, 7, 0, 0, 0, 9, 0, 0, 0] }

/-- The point geometry `(1.0, 2.0, 3.0)` with SRID 4326 as PostGIS serialises it:
size word (40), SRID bytes, flag byte (version and Z), type 1, one point, three
doubles. -/
def point_xyz_4326 : List Nat :=
  [160, 0, 0, 0, 0, 16, 230, 65, 1, 0, 0, 0, 1, 0, 0, 0,
    0, 0, 0, 0, 0, 0, 0xF0, 0x3F, 0, 0, 0, 0, 0, 0, 0, 0x40, 0, 0, 0, 0, 0, 0, 0x08, 0x40]

/-- A 3D Euclidean Point instant: `(1.0, 2.0, 3.0)`, SRID 4326, at timestamp 7,
has-Z flag set. -/
def point_instant : TInstant :=
  { temptype := .T_TGEOMPOINT, subtype := .TINSTANT, flags := 0x0020, t := 7,
    value := point_xyz_4326 }

/-- A Text instant whose text declares 20 bytes (header word 80, then the sixteen
characters of `hello, temporal!`), padded to 24 bytes, at timestamp 5. -/
def long_text_instant : TInstant :=
  text_sample 5 [80, 0, 0, 0, 104, 101, 108, 108, 111, 44, 32, 116, 101, 109, 112, 111, 114, 97,
    108, 33, 0, 0, 0, 0]

/-- A Geodetic Point sample: the blob `point_xyz_4326` (which declares 40 bytes) at
timestamp `t`. -/
def geog_sample (t : Int) : TInstant :=
  { temptype := .T_TGEOGPOINT, subtype := .TINSTANT, flags := 0x00A0, t := t,
    value := point_xyz_4326 }

/-- A Geodetic Point sequence of two samples, at timestamps 1 and 2. -/
def geog_sequence : TSequence :=
  { temptype := .T_TGEOGPOINT, subtype := .TSEQUENCE, flags := 0x00A8, count := 2,
    lower_inc := true, upper_inc := true, instants := [geog_sample 1, geog_sample 2] }

/-- The encoding of `geog_sequence`: a body of 4 + 16 + 40 + 40 bytes, the blobs
lying at body offsets 20 and 60. -/
def geog_sequence_buffer : TSERIALIZED :=
  { vl_len_ := varsize_header 108, temptype := .T_TGEOGPOINT, subtype := .TSEQUENCE,
    flags := 0x00A8,
    data := [2, 0, 0, 0] ++ ([1, 0, 0, 0, 0, 0, 0, 0] ++ [2, 0, 0, 0, 0, 0, 0, 0])
      ++ (point_xyz_4326 ++ point_xyz_4326) }

/-- A Euclidean Point sequence of two 3D samples, at timestamps 1 and 2. -/
def point_sequence : TSequence :=
  { temptype := .T_TGEOMPOINT, subtype := .TSEQUENCE, flags := 0x0028, count := 2,
    lower_inc := true, upper_inc := true,
    instants := [{ point_instant with t := 1 }, { point_instant with t := 2 }] }

/-! ## Bytes and integers -/

theorem le_bytes_length (w n : Nat) : (le_bytes w n).length = w := by
  induction w generalizing n with
  | zero => rfl
  | succ w ih => simp [le_bytes, ih]

theorem le_value_le_bytes (w n : Nat) : le_value (le_bytes w n) = n % 256 ^ w := by
  induction w generalizing n with
  | zero => simp [le_bytes, le_value, Nat.mod_one]
  | succ w ih =>
    simp only [le_bytes, le_value, ih]
    rw [pow_succ, Nat.mul_comm (256 ^ w) 256, Nat.mod_mul]

theorem le_bytes_le_value (l : List Nat) (h : is_bytes l) :
    le_bytes l.length (le_value l) = l := by
  induction l with
  | nil => rfl
  | cons b bs ih =>
    have hb : b < 256 := h b (List.mem_cons_self _ _)
    have hbs : is_bytes bs := fun x hx => h x (List.mem_cons_of_mem _ hx)
    simp only [List.length_cons, le_bytes, le_value]
    have h1 : (b + 256 * le_value bs) % 256 = b := by omega
    have h2 : (b + 256 * le_value bs) / 256 = le_value bs := by omega
    rw [h1, h2, ih hbs]

theorem is_bytes_le_bytes (w n : Nat) : is_bytes (le_bytes w n) := by
  induction w generalizing n with
  | zero => intro b hb; simp [le_bytes] at hb
  | succ w ih =>
    intro b hb
    simp only [le_bytes, List.mem_cons] at hb
    rcases hb with hb | hb
    · omega
    · exact ih _ b hb

theorem is_bytes_take (l : List Nat) (n : Nat) (h : is_bytes l) : is_bytes (l.take n) :=
  fun b hb => h b (List.mem_of_mem_take hb)

theorem to_int64_to_size_t (t : Int) (h : int64_range t) : to_int64 (to_size_t t) = t := by
  unfold int64_range at h
  unfold to_int64 to_size_t
  have h1 : (0 : Int) ≤ t % 2 ^ 64 := Int.emod_nonneg _ (by norm_num)
  have h2 : t % 2 ^ 64 < 2 ^ 64 := Int.emod_lt_of_pos _ (by norm_num)
  have h3 : ((t % 2 ^ 64).toNat : Int) = t % 2 ^ 64 := Int.toNat_of_nonneg h1
  have h4 : (t % 2 ^ 64).toNat < 2 ^ 64 := by omega
  rw [Nat.mod_eq_of_lt h4]
  split
  · omega
  · omega

theorem to_size_t_lt (t : Int) : to_size_t t < 2 ^ 64 := by
  unfold to_size_t
  have h1 : (0 : Int) ≤ t % 2 ^ 64 := Int.emod_nonneg _ (by norm_num)
  have h2 : t % 2 ^ 64 < 2 ^ 64 := Int.emod_lt_of_pos _ (by norm_num)
  omega

theorem to_int32_to_uint32 (c : Int) (h : -(2 : Int) ^ 31 ≤ c ∧ c < 2 ^ 31) :
    to_int32 (to_uint32 c) = c := by
  unfold to_int32 to_uint32
  have h1 : (0 : Int) ≤ c % 2 ^ 32 := Int.emod_nonneg _ (by norm_num)
  have h2 : c % 2 ^ 32 < 2 ^ 32 := Int.emod_lt_of_pos _ (by norm_num)
  have h4 : (c % 2 ^ 32).toNat < 2 ^ 32 := by omega
  rw [Nat.mod_eq_of_lt h4]
  split
  · omega
  · omega

theorem to_uint32_lt (c : Int) : to_uint32 c < 2 ^ 32 := by
  unfold to_uint32
  have h1 : (0 : Int) ≤ c % 2 ^ 32 := Int.emod_nonneg _ (by norm_num)
  have h2 : c % 2 ^ 32 < 2 ^ 32 := Int.emod_lt_of_pos _ (by norm_num)
  omega

theorem to_size_t_natCast (n : Nat) (h : n < 2 ^ 64) : to_size_t (n : Int) = n := by
  unfold to_size_t
  omega

theorem to_uint32_natCast (n : Nat) (h : n < 2 ^ 32) : to_uint32 (n : Int) = n := by
  unfold to_uint32
  omega

theorem header_varsize_varsize_header (len : Nat) (h : len ≤ MaxAllocSize) :
    header_varsize (varsize_header len) = len := by
  unfold MaxAllocSize at h
  unfold header_varsize varsize_header
  omega

/-! ## Memory -/

theorem mem_read_ok (mem : List Nat) (off n : Nat) (h : off + n ≤ mem.length) :
    mem_read mem off n = .ok ((mem.drop off).take n) := by
  simp [mem_read, h]

theorem mem_read_oob (mem : List Nat) (off n : Nat) (h : mem.length < off + n) :
    mem_read mem off n = .error .out_of_bounds := by
  have : ¬ off + n ≤ mem.length := by omega
  simp [mem_read, this]

theorem mem_read_length (mem : List Nat) (off n : Nat) (bytes : List Nat)
    (h : mem_read mem off n = .ok bytes) : bytes.length = n := by
  unfold mem_read at h
  split at h
  · injection h with h
    subst h
    simp
    omega
  · cases h

theorem mem_read_mid (a b c : List Nat) :
    mem_read (a ++ b ++ c) a.length b.length = .ok b := by
  rw [mem_read_ok _ _ _ (by simp)]
  simp [List.append_assoc]

theorem mem_read_mid_of (a b c : List Nat) (off n : Nat) (ho : off = a.length)
    (hn : n = b.length) : mem_read (a ++ b ++ c) off n = .ok b := by
  subst ho hn
  exact mem_read_mid a b c

theorem mem_write_mid (a z c src : List Nat) (h : src.length ≤ z.length) :
    mem_write (a ++ z ++ c) a.length src = .ok (a ++ src ++ z.drop src.length ++ c) := by
  unfold mem_write
  have hlen : a.length + src.length ≤ (a ++ z ++ c).length := by simp; omega
  rw [if_pos hlen]
  congr 1
  have h1 : (a ++ z ++ c).take a.length = a := by
    rw [List.append_assoc, List.take_left]
  have h2 : (a ++ z ++ c).drop (a.length + src.length) = z.drop src.length ++ c := by
    rw [List.append_assoc, ← List.drop_drop, List.drop_left, List.drop_append_of_le_length h]
  rw [h1, h2, List.append_assoc, List.append_assoc, List.append_assoc]

theorem mem_write_mid_of (a z c src : List Nat) (off : Nat) (ho : off = a.length)
    (h : src.length ≤ z.length) :
    mem_write (a ++ z ++ c) off src = .ok (a ++ src ++ z.drop src.length ++ c) := by
  subst ho
  exact mem_write_mid a z c src h

theorem memcpy_mid (a z c src : List Nat) (off n : Nat) (ho : off = a.length)
    (hs : n ≤ src.length) (hz : n ≤ z.length) :
    memcpy (a ++ z ++ c) off src n = .ok (a ++ src.take n ++ z.drop n ++ c) := by
  unfold memcpy
  rw [mem_read_ok _ _ _ (by omega)]
  simp only [List.drop_zero]
  show mem_write (a ++ z ++ c) off (src.take n) = _
  have hl : (src.take n).length = n := by simp; omega
  rw [mem_write_mid_of a z c (src.take n) off ho (by omega), hl]

theorem memcpy_src_oob (dst src : List Nat) (off n : Nat) (h : src.length < n) :
    memcpy dst off src n = .error .out_of_bounds := by
  unfold memcpy
  rw [mem_read_oob _ _ _ (by omega)]
  rfl

/-! ## The instant encoder -/

theorem tserialized_value_size_eq (inst : TInstant) (hrec : recognised inst.temptype)
    (hhdr : inst.temptype = .T_TGEOGPOINT → 4 ≤ inst.value.length) :
    tserialized_value_size inst = .ok (inst_value_width inst) := by
  unfold tserialized_value_size inst_value_width
  cases htt : inst.temptype with
  | T_TINT => rfl
  | T_TFLOAT => rfl
  | T_TBOOL => rfl
  | T_TTEXT => rfl
  | T_TGEOMPOINT => rfl
  | T_TGEOGPOINT =>
    simp only
    unfold VARSIZE
    rw [mem_read_ok _ _ _ (by have := hhdr htt; omega)]
    rfl
  | T_OTHER c => rw [htt] at hrec; exact absurd hrec (by simp [recognised])

theorem palloc0_TSERIALIZED_ok (size : Nat) (h1 : sizeof_TSERIALIZED ≤ size)
    (h2 : size ≤ MaxAllocSize) :
    palloc0_TSERIALIZED size = .ok
      { vl_len_ := 0, temptype := .T_OTHER 0, subtype := .ANYOTHER 0, flags := 0,
        data := List.replicate (size - sizeof_TSERIALIZED) 0 } := by
  unfold palloc0_TSERIALIZED palloc0
  have h3 : ¬ size > MaxAllocSize := by omega
  have h4 : ¬ size < sizeof_TSERIALIZED := by omega
  simp only [h3, if_false, h4]
  simp [bind, Except.bind, pure, Except.pure]

theorem tinstant_to_tserialized_eq (inst : TInstant) (hrec : recognised inst.temptype)
    (hhdr : inst.temptype = .T_TGEOGPOINT → 4 ≤ inst.value.length)
    (hsrc : inst_value_width inst ≤ (value_source inst.temptype inst).length)
    (hsz : 16 + inst_value_width inst ≤ MaxAllocSize) :
    tinstant_to_tserialized inst = .ok
      { vl_len_ := varsize_header (16 + inst_value_width inst),
        temptype := inst.temptype, subtype := inst.subtype, flags := inst.flags,
        data := timestamp_bytes inst.t
          ++ (value_source inst.temptype inst).take (inst_value_width inst) } := by
  unfold tinstant_to_tserialized
  rw [tserialized_value_size_eq inst hrec hhdr]
  have hw : size_t_wrap (sizeof_TSERIALIZED + sizeof_TimestampTz + inst_value_width inst)
      = 16 + inst_value_width inst := by
    unfold MaxAllocSize at hsz
    unfold size_t_wrap sizeof_TSERIALIZED sizeof_TimestampTz
    omega
  simp only [bind, Except.bind, hw]
  rw [palloc0_TSERIALIZED_ok _ (by unfold sizeof_TSERIALIZED; omega) hsz]
  simp only [SET_VARSIZE]
  have hrep : List.replicate (16 + inst_value_width inst - sizeof_TSERIALIZED) 0
      = [] ++ List.replicate 8 0 ++ List.replicate (inst_value_width inst) 0 := by
    have : 16 + inst_value_width inst - sizeof_TSERIALIZED = 8 + inst_value_width inst := by
      unfold sizeof_TSERIALIZED; omega
    rw [this, List.replicate_add]; rfl
  rw [hrep, memcpy_mid [] _ _ _ 0 sizeof_TimestampTz rfl
    (by simp [le_bytes_length, sizeof_TimestampTz]) (by simp [sizeof_TimestampTz])]
  have htake : (le_bytes 8 (to_size_t inst.t)).take sizeof_TimestampTz = timestamp_bytes inst.t := by
    unfold timestamp_bytes sizeof_TimestampTz
    rw [List.take_of_length_le (by rw [le_bytes_length])]
  have hdrop : (List.replicate 8 0).drop sizeof_TimestampTz = ([] : List Nat) := by
    simp [sizeof_TimestampTz]
  simp only [htake, hdrop, List.nil_append, List.append_nil]
  have hmid : ∀ src : List Nat, inst_value_width inst ≤ src.length →
      memcpy (timestamp_bytes inst.t ++ List.replicate (inst_value_width inst) 0) sizeof_TimestampTz
        src (inst_value_width inst)
      = .ok (timestamp_bytes inst.t ++ src.take (inst_value_width inst)) := by
    intro src hs
    have := memcpy_mid (timestamp_bytes inst.t) (List.replicate (inst_value_width inst) 0) []
      src sizeof_TimestampTz (inst_value_width inst)
      (by simp [timestamp_bytes, le_bytes_length, sizeof_TimestampTz]) hs (by simp)
    simpa using this
  unfold value_source at hsrc ⊢
  by_cases hg : inst.temptype = .T_TGEOMPOINT
  · simp only [hg, if_true] at hsrc ⊢
    rw [hmid _ hsrc]
    rfl
  · simp only [hg, if_false] at hsrc ⊢
    rw [hmid _ hsrc]
    rfl

/-! ## The sequence encoder -/

theorem bind_ok {α β : Type} (a : α) (f : α → Except Err β) : (Except.ok a >>= f) = f a := rfl

theorem bind_error {α β : Type} (e : Err) (f : α → Except Err β) :
    (Except.error e >>= f) = Except.error e := rfl

theorem pure_eq_ok {α : Type} (a : α) : (pure a : Except Err α) = Except.ok a := rfl

theorem TSEQUENCE_INST_N_drop (temp : TSequence) (i : Nat) (inst : TInstant)
    (rest : List TInstant) (h : temp.instants.drop i = inst :: rest) :
    TSEQUENCE_INST_N temp i = .ok inst ∧ temp.instants.drop (i + 1) = rest := by
  have hi : i < temp.instants.length := by
    by_contra hc
    rw [List.drop_of_length_le (by omega)] at h
    cases h
  have h1 := List.drop_eq_getElem_cons hi
  rw [h1] at h
  injection h with h2 h3
  refine ⟨?_, h3⟩
  unfold TSEQUENCE_INST_N
  rw [List.getElem?_eq_getElem hi, h2]

theorem tsequence_write_loop_eq (temp : TSequence) (is_varlength : Bool)
    (width : TInstant → Nat) (rest : List TInstant) :
    ∀ (i : Nat) (st : WriteState) (p z1 q z2 : List Nat),
      temp.instants.drop i = rest →
      st.data = p ++ z1 ++ q ++ z2 →
      st.t_offset = p.length →
      z1.length = 8 * rest.length →
      st.v_offset = p.length + z1.length + q.length →
      z2.length = widths_sum width rest →
      st.data.length < 2 ^ 64 →
      (is_varlength = true → ∀ inst ∈ rest, VARSIZE inst.value = .ok (width inst)) →
      (is_varlength = false → ∀ inst ∈ rest, width inst = st.v_size) →
      (∀ inst ∈ rest, width inst ≤ (value_source temp.temptype inst).length) →
      ∃ st2, tsequence_write_loop temp is_varlength rest.length i st = .ok st2
        ∧ st2.data = p ++ timestamps_block rest ++ q ++ values_block temp.temptype width rest
        ∧ st2.t_offset = st.t_offset + 8 * rest.length
        ∧ st2.v_offset = st.v_offset + widths_sum width rest := by
  induction rest with
  | nil =>
    intro i st p z1 q z2 _ hdata _ hz1 _ hz2 _ _ _ _
    refine ⟨st, rfl, ?_, by simp, by simp [widths_sum]⟩
    have e1 : z1 = [] := List.length_eq_zero.mp (by simpa using hz1)
    have e2 : z2 = [] := List.length_eq_zero.mp (by simpa [widths_sum] using hz2)
    simp [hdata, e1, e2, timestamps_block, values_block]
  | cons inst rest ih =>
    intro i st p z1 q z2 hdrop hdata hp hz1 hv hz2 hlen hvar hfix hsrc
    obtain ⟨hget, hdrop2⟩ := TSEQUENCE_INST_N_drop temp i inst rest hdrop
    simp only [List.length_cons] at hz1
    simp only [widths_sum] at hz2
    have hwsrc := hsrc inst (List.mem_cons_self _ _)
    have hvs : (if is_varlength = true then VARSIZE inst.value else pure st.v_size)
        = (.ok (width inst) : Except Err Nat) := by
      cases hb : is_varlength with
      | true => simpa using hvar hb inst (List.mem_cons_self _ _)
      | false =>
        have := hfix hb inst (List.mem_cons_self _ _)
        simp [this, pure, Except.pure]
    have hdl : st.data.length = p.length + z1.length + q.length + z2.length := by
      rw [hdata]; simp only [List.length_append]
    -- the timestamp write
    have hw1 : memcpy st.data st.t_offset (le_bytes 8 (to_size_t inst.t)) sizeof_TimestampTz
        = .ok (p ++ timestamp_bytes inst.t ++ z1.drop 8 ++ (q ++ z2)) := by
      have := memcpy_mid p z1 (q ++ z2) (le_bytes 8 (to_size_t inst.t)) st.t_offset 8 hp
        (by rw [le_bytes_length]) (by omega)
      rw [List.take_of_length_le (by rw [le_bytes_length])] at this
      rw [hdata, List.append_assoc (p ++ z1) q z2]
      exact this
    -- the value write
    have hw2 : memcpy (p ++ timestamp_bytes inst.t ++ z1.drop 8 ++ (q ++ z2)) st.v_offset
        (value_source temp.temptype inst) (width inst)
        = .ok (p ++ timestamp_bytes inst.t ++ z1.drop 8
            ++ (q ++ (value_source temp.temptype inst).take (width inst)) ++ z2.drop (width inst)) := by
      have := memcpy_mid (p ++ timestamp_bytes inst.t ++ z1.drop 8 ++ q) z2 []
        (value_source temp.temptype inst) st.v_offset (width inst)
        (by simp [timestamp_bytes, le_bytes_length]; omega) hwsrc (by omega)
      simp only [List.append_nil, List.append_assoc] at this ⊢
      exact this
    have hw2b : (if temp.temptype = meosType.T_TGEOMPOINT then
          memcpy (p ++ timestamp_bytes inst.t ++ z1.drop 8 ++ (q ++ z2)) st.v_offset
            (GS_POINT_PTR inst.value) (width inst)
        else
          memcpy (p ++ timestamp_bytes inst.t ++ z1.drop 8 ++ (q ++ z2)) st.v_offset
            inst.value (width inst))
        = .ok (p ++ timestamp_bytes inst.t ++ z1.drop 8
            ++ (q ++ (value_source temp.temptype inst).take (width inst)) ++ z2.drop (width inst)) := by
      rw [← hw2]
      unfold value_source
      split <;> rfl
    have ht : size_t_wrap (st.t_offset + sizeof_TimestampTz) = st.t_offset + 8 := by
      unfold size_t_wrap sizeof_TimestampTz
      omega
    have hvo : size_t_wrap (st.v_offset + width inst) = st.v_offset + width inst := by
      unfold size_t_wrap
      omega
    obtain ⟨st2, hrun, hd2, ht2, hv2⟩ := ih (i + 1)
      { data := p ++ timestamp_bytes inst.t ++ z1.drop 8
          ++ (q ++ (value_source temp.temptype inst).take (width inst)) ++ z2.drop (width inst),
        t_offset := st.t_offset + 8, v_offset := st.v_offset + width inst, v_size := width inst }
      (p ++ timestamp_bytes inst.t) (z1.drop 8)
      (q ++ (value_source temp.temptype inst).take (width inst)) (z2.drop (width inst))
      hdrop2 rfl (by simp [timestamp_bytes, le_bytes_length]; omega)
      (by simp; omega)
      (by simp [timestamp_bytes, le_bytes_length]; omega)
      (by simp; omega)
      (by simp [timestamp_bytes, le_bytes_length]; omega)
      (fun hb inst2 hm => hvar hb inst2 (List.mem_cons_of_mem _ hm))
      (fun hb inst2 hm => by
        show width inst2 = width inst
        rw [hfix hb inst2 (List.mem_cons_of_mem _ hm), hfix hb inst (List.mem_cons_self _ _)])
      (fun inst2 hm => hsrc inst2 (List.mem_cons_of_mem _ hm))
    refine ⟨st2, ?_, ?_, ?_, ?_⟩
    · simp only [List.length_cons, tsequence_write_loop, hget, bind_ok, hvs, hw1, hw2b,
        ht, hvo]
      exact hrun
    · rw [hd2]
      simp [timestamps_block, values_block, List.append_assoc]
    · rw [ht2]; simp only [List.length_cons]; omega
    · rw [hv2]; simp only [widths_sum]; omega

theorem VARSIZE_eq (value : List Nat) (h : 4 ≤ value.length) :
    VARSIZE value = .ok (declared_length value) := by
  unfold VARSIZE declared_length
  rw [mem_read_ok _ _ _ (by omega)]
  rfl

theorem declared_length_lt (value : List Nat) : declared_length value < 2 ^ 30 := by
  unfold declared_length header_varsize
  exact Nat.mod_lt _ (by norm_num)

theorem widths_sum_const (width : TInstant → Nat) (w : Nat) (l : List TInstant)
    (h : ∀ inst ∈ l, width inst = w) : widths_sum width l = l.length * w := by
  induction l with
  | nil => simp [widths_sum]
  | cons a l ih =>
    simp only [widths_sum, List.length_cons]
    rw [h a (List.mem_cons_self _ _), ih (fun x hx => h x (List.mem_cons_of_mem _ hx))]
    ring

theorem timestamps_block_length (l : List TInstant) :
    (timestamps_block l).length = 8 * l.length := by
  induction l with
  | nil => rfl
  | cons a l ih =>
    simp only [timestamps_block, List.length_append, List.length_cons, ih, timestamp_bytes,
      le_bytes_length]
    omega

theorem values_block_length (temptype : meosType) (width : TInstant → Nat) (l : List TInstant)
    (h : ∀ inst ∈ l, width inst ≤ (value_source temptype inst).length) :
    (values_block temptype width l).length = widths_sum width l := by
  induction l with
  | nil => rfl
  | cons a l ih =>
    simp only [values_block, widths_sum, List.length_append, List.length_take]
    rw [ih (fun x hx => h x (List.mem_cons_of_mem _ hx))]
    have := h a (List.mem_cons_self _ _)
    omega

theorem tsequence_size_loop_eq (temp : TSequence) (width : TInstant → Nat)
    (rest : List TInstant) :
    ∀ (i size : Nat),
      temp.instants.drop i = rest →
      (∀ inst ∈ rest, VARSIZE inst.value = .ok (width inst)) →
      size + widths_sum width rest < 2 ^ 64 →
      tsequence_size_loop temp rest.length i size = .ok (size + widths_sum width rest) := by
  induction rest with
  | nil => intro i size _ _ _; simp [tsequence_size_loop, widths_sum, pure_eq_ok]
  | cons inst rest ih =>
    intro i size hdrop hvar hlt
    obtain ⟨hget, hdrop2⟩ := TSEQUENCE_INST_N_drop temp i inst rest hdrop
    simp only [widths_sum] at hlt ⊢
    have hwrap : size_t_wrap (size + width inst) = size + width inst := by
      unfold size_t_wrap; omega
    simp only [List.length_cons, tsequence_size_loop, hget, bind_ok,
      hvar inst (List.mem_cons_self _ _), hwrap]
    rw [ih (i + 1) (size + width inst) hdrop2
      (fun x hx => hvar x (List.mem_cons_of_mem _ hx)) (by omega)]
    congr 1
    omega

theorem temptype_basetype_varlength_eq (temptype : meosType) (hrec : recognised temptype) :
    ∃ b, temptype_basetype_varlength temptype = .ok b
      ∧ (if temptype = meosType.T_TGEOMPOINT then false else b) = seq_is_varlength temptype := by
  cases temptype with
  | T_OTHER c => exact absurd hrec (by simp [recognised])
  | T_TINT => exact ⟨false, rfl, by simp [seq_is_varlength]⟩
  | T_TFLOAT => exact ⟨false, rfl, by simp [seq_is_varlength]⟩
  | T_TBOOL => exact ⟨false, rfl, by simp [seq_is_varlength]⟩
  | T_TTEXT => exact ⟨true, rfl, by simp [seq_is_varlength]⟩
  | T_TGEOMPOINT => exact ⟨true, rfl, by simp [seq_is_varlength]⟩
  | T_TGEOGPOINT => exact ⟨true, rfl, by simp [seq_is_varlength]⟩

theorem seq_value_width_varlength (temptype : meosType) (first_flags : Nat) (inst : TInstant)
    (h : seq_is_varlength temptype = true) :
    seq_value_width temptype first_flags inst = declared_length inst.value := by
  cases temptype <;> simp [seq_is_varlength] at h <;> rfl

theorem seq_value_width_fixed (first inst : TInstant)
    (h : seq_is_varlength first.temptype = false) :
    seq_value_width first.temptype first.flags inst = inst_value_width first := by
  unfold seq_value_width inst_value_width
  cases htt : first.temptype <;> simp [htt, seq_is_varlength] at h ⊢

/-- The sequence encoder on a sequence whose count field is its number of samples:
header, layout of the body and final cursors. -/
theorem tsequence_to_tserialized_run_eq (temp : TSequence) (first : TInstant)
    (rest : List TInstant)
    (hinst : temp.instants = first :: rest)
    (hcount : temp.count = (temp.instants.length : Int))
    (hrec : recognised temp.temptype)
    (hfirst : first.temptype = temp.temptype)
    (hhdr : seq_is_varlength temp.temptype = true → ∀ inst ∈ temp.instants, 4 ≤ inst.value.length)
    (hsrc : ∀ inst ∈ temp.instants,
      seq_value_width temp.temptype first.flags inst ≤ (value_source temp.temptype inst).length)
    (hsz : 12 + 8 * temp.instants.length
      + widths_sum (seq_value_width temp.temptype first.flags) temp.instants ≤ MaxAllocSize) :
    ∃ st, tsequence_to_tserialized_run temp = .ok
        ({ vl_len_ := varsize_header (12 + 8 * temp.instants.length
              + widths_sum (seq_value_width temp.temptype first.flags) temp.instants),
           temptype := temp.temptype, subtype := temp.subtype, flags := temp.flags,
           data := st.data }, st)
      ∧ st.data = le_bytes 4 (to_uint32 temp.count) ++ timestamps_block temp.instants
          ++ values_block temp.temptype (seq_value_width temp.temptype first.flags) temp.instants
      ∧ st.t_offset = 4 + 8 * temp.instants.length
      ∧ st.v_offset = 4 + 8 * temp.instants.length
          + widths_sum (seq_value_width temp.temptype first.flags) temp.instants := by
  have hmax : MaxAllocSize = 0x3fffffff := rfl
  set width := seq_value_width temp.temptype first.flags with hwidth
  set N := temp.instants.length with hN
  have hNpos : 1 ≤ N := by rw [hN, hinst]; simp
  have hcs : to_size_t temp.count = N := by
    rw [hcount]; exact to_size_t_natCast _ (by omega)
  have hct : temp.count.toNat = N := by rw [hcount]; simp [hN]
  have hget0 : TSEQUENCE_INST_N temp 0 = .ok first :=
    (TSEQUENCE_INST_N_drop temp 0 first rest (by simpa using hinst)).1
  have hfirst_mem : first ∈ temp.instants := by rw [hinst]; exact List.mem_cons_self _ _
  have hvs : tserialized_value_size first = .ok (inst_value_width first) :=
    tserialized_value_size_eq first (by rw [hfirst]; exact hrec) (fun hg => by
      apply hhdr _ first hfirst_mem
      rw [← hfirst, hg]; rfl)
  obtain ⟨b, hb, hvl⟩ := temptype_basetype_varlength_eq temp.temptype hrec
  have hsize0 : size_t_wrap (sizeof_TSERIALIZED + sizeof_int32
      + size_t_wrap (N * sizeof_TimestampTz)) = 12 + 8 * N := by
    unfold size_t_wrap sizeof_TSERIALIZED sizeof_int32 sizeof_TimestampTz; omega
  have hvoff : size_t_wrap (sizeof_int32 + size_t_wrap (N * sizeof_TimestampTz)) = 4 + 8 * N := by
    unfold size_t_wrap sizeof_int32 sizeof_TimestampTz; omega
  -- the size the allocation is made with
  have hsize : (if seq_is_varlength temp.temptype = true then
        tsequence_size_loop temp N 0 (12 + 8 * N)
      else
        pure (size_t_wrap (12 + 8 * N + size_t_wrap (N * inst_value_width first))))
      = Except.ok (12 + 8 * N + widths_sum width temp.instants) := by
    cases hv : seq_is_varlength temp.temptype with
    | true =>
      simp only [if_true]
      have := tsequence_size_loop_eq temp width temp.instants 0 (12 + 8 * N) rfl
        (fun inst hm => by
          rw [VARSIZE_eq _ (hhdr hv inst hm), hwidth, seq_value_width_varlength _ _ _ hv])
        (by omega)
      rw [← hN] at this
      exact this
    | false =>
      simp only [Bool.false_eq_true, if_false, pure_eq_ok]
      have hc : widths_sum width temp.instants = N * inst_value_width first :=
        widths_sum_const width _ _ (fun inst _ => by
          rw [hwidth, ← hfirst]
          exact seq_value_width_fixed first inst (by rw [hfirst]; exact hv))
      rw [hc] at hsz ⊢
      congr 1
      unfold size_t_wrap
      omega
  -- the buffer after the count is written
  have hrep : List.replicate (12 + 8 * N + widths_sum width temp.instants - sizeof_TSERIALIZED) 0
      = [] ++ List.replicate 4 0
        ++ (List.replicate (8 * N) 0 ++ List.replicate (widths_sum width temp.instants) 0) := by
    have : 12 + 8 * N + widths_sum width temp.instants - sizeof_TSERIALIZED
        = 4 + (8 * N + widths_sum width temp.instants) := by
      unfold sizeof_TSERIALIZED; omega
    rw [this, List.replicate_add, List.replicate_add]; rfl
  have hcw : memcpy (List.replicate (12 + 8 * N + widths_sum width temp.instants
        - sizeof_TSERIALIZED) 0) 0 (le_bytes 4 (to_uint32 temp.count)) sizeof_int32
      = .ok (le_bytes 4 (to_uint32 temp.count) ++ List.replicate (8 * N) 0 ++ []
          ++ List.replicate (widths_sum width temp.instants) 0) := by
    rw [hrep, memcpy_mid [] _ _ _ 0 sizeof_int32 rfl
      (by simp [le_bytes_length, sizeof_int32]) (by simp [sizeof_int32])]
    congr 1
    simp [sizeof_int32, List.take_of_length_le, le_bytes_length]
  obtain ⟨st, hrun, hd, ht, hv⟩ := tsequence_write_loop_eq temp (seq_is_varlength temp.temptype)
    width temp.instants 0
    { data := le_bytes 4 (to_uint32 temp.count) ++ List.replicate (8 * N) 0 ++ []
        ++ List.replicate (widths_sum width temp.instants) 0,
      t_offset := sizeof_int32, v_offset := 4 + 8 * N, v_size := inst_value_width first }
    (le_bytes 4 (to_uint32 temp.count)) (List.replicate (8 * N) 0) []
    (List.replicate (widths_sum width temp.instants) 0)
    rfl rfl (by simp [le_bytes_length, sizeof_int32]) (by simp [hN])
    (by simp [le_bytes_length])
    (by simp)
    (by simp [le_bytes_length]; omega)
    (fun hv inst hm => by
      rw [VARSIZE_eq _ (hhdr hv inst hm), hwidth, seq_value_width_varlength _ _ _ hv])
    (fun hv inst _ => by
      show width inst = inst_value_width first
      rw [hwidth, ← hfirst]
      exact seq_value_width_fixed first inst (by rw [hfirst]; exact hv))
    hsrc
  refine ⟨st, ?_, ?_, ?_, ?_⟩
  · unfold tsequence_to_tserialized_run
    simp only [hcs, hct, hsize0, hvoff, hget0, bind_ok, hvs, hb, hvl, hsize]
    rw [palloc0_TSERIALIZED_ok _ (by unfold sizeof_TSERIALIZED; omega) hsz]
    simp only [bind_ok, SET_VARSIZE, hcw]
    rw [← hN] at hrun
    rw [hrun]
    rfl
  · rw [hd]; simp
  · rw [ht]; simp [sizeof_int32, hN]
  · rw [hv]

/-! ## The decoders on fixed-width scalars -/

theorem read_int64_mid (a b c : List Nat) (off : Nat) (ho : off = a.length) (hb : b.length = 8) :
    read_int64 (a ++ b ++ c) off = .ok (to_int64 (le_value b)) := by
  unfold read_int64
  rw [mem_read_mid_of a b c off 8 ho hb.symm]
  rfl

theorem read_int32_mid (a b c : List Nat) (off : Nat) (ho : off = a.length) (hb : b.length = 4) :
    read_int32 (a ++ b ++ c) off = .ok (to_int32 (le_value b)) := by
  unfold read_int32
  rw [mem_read_mid_of a b c off 4 ho hb.symm]
  rfl

theorem read_double_mid (a b c : List Nat) (off : Nat) (ho : off = a.length) (hb : b.length = 8) :
    read_double (a ++ b ++ c) off = .ok (le_value b) := by
  unfold read_double
  rw [mem_read_mid_of a b c off 8 ho hb.symm]
  rfl

theorem read_bool_mid (a b c : List Nat) (off : Nat) (ho : off = a.length) (hb : b.length = 1) :
    read_bool (a ++ b ++ c) off = .ok (le_value b != 0) := by
  unfold read_bool
  rw [mem_read_mid_of a b c off 1 ho hb.symm]
  rfl

/-- One value read of the decoders on a fixed-width scalar. -/
theorem scalar_read_mid (temptype : meosType) (hfs : fixed_scalar temptype)
    (a b c : List Nat) (off : Nat) (ho : off = a.length) (hb : b.length = scalar_width temptype) :
    (match temptype with
      | .T_TINT => read_int32 (a ++ b ++ c) off >>= fun x => pure (Int32GetDatum x)
      | .T_TFLOAT => read_double (a ++ b ++ c) off >>= fun x => pure (Float8GetDatum x)
      | .T_TBOOL => read_bool (a ++ b ++ c) off >>= fun x => pure (BoolGetDatum x)
      | _ => Except.error Err.out_of_bounds)
    = Except.ok (scalar_datum temptype b) := by
  rcases hfs with h | h | h <;> subst h
  · simp only [read_int32_mid a b c off ho hb, bind_ok]; rfl
  · simp only [read_double_mid a b c off ho hb, bind_ok]; rfl
  · simp only [read_bool_mid a b c off ho hb, bind_ok]; rfl

theorem tserialized_to_tinstant_scalar (ts : TSERIALIZED) (tb vb tail : List Nat)
    (hfs : fixed_scalar ts.temptype) (hdata : ts.data = tb ++ vb ++ tail)
    (htb : tb.length = 8) (hvb : vb.length = scalar_width ts.temptype) :
    tserialized_to_tinstant ts = .ok (scalar_instant ts.temptype tb vb) := by
  unfold tserialized_to_tinstant
  have ht : read_int64 ts.data 0 = .ok (to_int64 (le_value tb)) := by
    have := read_int64_mid [] tb (vb ++ tail) 0 rfl htb
    rw [hdata, List.append_assoc]
    simpa using this
  have hv := scalar_read_mid ts.temptype hfs tb vb tail sizeof_TimestampTz
    (by rw [htb]; rfl) hvb
  rw [← hdata] at hv
  simp only [ht, bind_ok]
  rcases hfs with h | h | h <;> simp only [h] at hv ⊢ <;> simp only [hv, bind_ok] <;> rfl

/-- One iteration's value read of the sequence decoder on a fixed-width scalar. -/
theorem scalar_read_step (ts_addr : Nat) (ts : TSERIALIZED) (hasz : Bool) (v_offset : Nat)
    (hfs : fixed_scalar ts.temptype)
    (hb : v_offset + scalar_width ts.temptype ≤ ts.data.length)
    (hlen : v_offset + scalar_width ts.temptype < 2 ^ 64) :
    (match ts.temptype with
      | .T_TINT => do
        let x ← read_int32 ts.data v_offset
        pure (Int32GetDatum x, size_t_wrap (v_offset + sizeof_int32))
      | .T_TFLOAT => do
        let x ← read_double ts.data v_offset
        pure (Float8GetDatum x, size_t_wrap (v_offset + sizeof_double))
      | .T_TBOOL => do
        let x ← read_bool ts.data v_offset
        pure (BoolGetDatum x, size_t_wrap (v_offset + sizeof_bool))
      | .T_TTEXT => do
        let value := PointerGetDatum (ts.data.drop v_offset)
        let len ← VARSIZE (ts.data.drop v_offset)
        pure (value, size_t_wrap (v_offset + len))
      | .T_TGEOMPOINT => do
        let p := v_offset
        let x ← read_double ts.data p
        let y ← read_double ts.data (p + 8)
        let z ← (if hasz then read_double ts.data (p + 16) else pure 0)
        let g ← geopoint_make_fast x y z hasz (MEOS_FLAGS_GET_GEODETIC ts.flags) 0
        pure (PointerGetDatum g,
          size_t_wrap (v_offset + sizeof_double * (if hasz then 3 else 2)))
      | .T_TGEOGPOINT => do
        let value := PointerGetDatum (ts.data.drop v_offset)
        let len := VARSIZE_of_local_pointer
          (size_t_wrap (ts_addr + sizeof_TSERIALIZED + v_offset))
        pure (value, size_t_wrap (v_offset + len))
      | .T_OTHER c => throw (.unknown_temporal_type (.T_OTHER c)) : Except Err (Datum × Nat))
    = .ok (scalar_datum ts.temptype ((ts.data.drop v_offset).take (scalar_width ts.temptype)),
        v_offset + scalar_width ts.temptype) := by
  rcases hfs with h | h | h <;> simp only [h, scalar_width] at hb hlen ⊢
  · have hw : size_t_wrap (v_offset + sizeof_int32) = v_offset + 4 := by
      unfold size_t_wrap sizeof_int32; omega
    simp only [read_int32, mem_read_ok _ _ _ hb, bind_ok, pure_eq_ok, hw]; rfl
  · have hw : size_t_wrap (v_offset + sizeof_double) = v_offset + 8 := by
      unfold size_t_wrap sizeof_double; omega
    simp only [read_double, mem_read_ok _ _ _ hb, bind_ok, pure_eq_ok, hw]; rfl
  · have hw : size_t_wrap (v_offset + sizeof_bool) = v_offset + 1 := by
      unfold size_t_wrap sizeof_bool; omega
    simp only [read_bool, mem_read_ok _ _ _ hb, bind_ok, pure_eq_ok, hw]; rfl

/-- The instants the sequence decoder builds in `n` iterations from cursors
`t_offset` and `v_offset` over `data`. -/
theorem tserialized_read_loop_scalar (ts_addr : Nat) (ts : TSERIALIZED) (hasz : Bool)
    (hfs : fixed_scalar ts.temptype) :
    ∀ (n i : Nat) (st : ReadState),
      st.t_offset + 8 * n ≤ ts.data.length →
      st.v_offset + scalar_width ts.temptype * n ≤ ts.data.length →
      st.t_offset + 8 * n < 2 ^ 64 →
      st.v_offset + scalar_width ts.temptype * n < 2 ^ 64 →
      tserialized_read_loop ts_addr ts hasz n i st = .ok
        { instants := st.instants ++ (List.range n).map (fun k =>
            scalar_instant ts.temptype ((ts.data.drop (st.t_offset + 8 * k)).take 8)
              ((ts.data.drop (st.v_offset + scalar_width ts.temptype * k)).take
                (scalar_width ts.temptype))),
          t_offset := st.t_offset + 8 * n,
          v_offset := st.v_offset + scalar_width ts.temptype * n } := by
  intro n
  induction n with
  | zero => intro i st _ _ _ _; simp [tserialized_read_loop, pure_eq_ok]
  | succ n ih =>
    intro i st ht hv ht64 hv64
    have ht1 : read_int64 ts.data st.t_offset
        = .ok (to_int64 (le_value ((ts.data.drop st.t_offset).take 8))) := by
      unfold read_int64
      rw [mem_read_ok _ _ _ (by omega)]; rfl
    have hv1 := scalar_read_step ts_addr ts hasz st.v_offset hfs
      (by rw [Nat.mul_succ] at hv; omega) (by rw [Nat.mul_succ] at hv64; omega)
    have hw : size_t_wrap (st.t_offset + sizeof_TimestampTz) = st.t_offset + 8 := by
      unfold size_t_wrap sizeof_TimestampTz; omega
    rw [tserialized_read_loop]
    simp only [ht1, bind_ok, hv1, hw]
    rw [ih (i + 1) _ (by simp only; omega) (by simp only; rw [Nat.mul_succ] at hv; omega)
      (by simp only; omega) (by simp only; rw [Nat.mul_succ] at hv64; omega)]
    congr 1
    simp only [ReadState.mk.injEq]
    refine ⟨?_, by omega, by rw [Nat.mul_succ]; omega⟩
    rw [List.range_succ_eq_map, List.map_cons, List.map_map, List.append_assoc]
    congr 1
    simp only [List.singleton_append, Nat.mul_zero, Nat.add_zero]
    congr 1
    apply List.map_congr_left
    intro k _
    simp only [Function.comp, scalar_instant, Nat.mul_succ]
    have e1 : st.v_offset + scalar_width ts.temptype + scalar_width ts.temptype * k
        = st.v_offset + (scalar_width ts.temptype * k + scalar_width ts.temptype) := by omega
    have e2 : st.t_offset + 8 + 8 * k = st.t_offset + (8 * k + 8) := by omega
    rw [e1, e2]

theorem tserialized_to_tsequence_run_scalar (ts_addr : Nat) (ts : TSERIALIZED) (N : Nat)
    (hfs : fixed_scalar ts.temptype)
    (hc : read_int32 ts.data 0 = .ok (N : Int))
    (hN : 8 * N ≤ MaxAllocSize)
    (hlen : 4 + 8 * N + scalar_width ts.temptype * N ≤ ts.data.length) :
    tserialized_to_tsequence_run ts_addr ts = .ok ((N : Int),
      { instants := (List.range N).map (fun k =>
          scalar_instant ts.temptype ((ts.data.drop (4 + 8 * k)).take 8)
            ((ts.data.drop (4 + 8 * N + scalar_width ts.temptype * k)).take
              (scalar_width ts.temptype))),
        t_offset := 4 + 8 * N,
        v_offset := 4 + 8 * N + scalar_width ts.temptype * N }) := by
  have hmax : MaxAllocSize = 0x3fffffff := rfl
  unfold tserialized_to_tsequence_run
  have hs : to_size_t (N : Int) = N := to_size_t_natCast N (by omega)
  have hp : palloc (size_t_wrap (sizeof_pointer * N)) = .ok () := by
    unfold palloc
    have : size_t_wrap (sizeof_pointer * N) = 8 * N := by
      unfold size_t_wrap sizeof_pointer; omega
    rw [this, if_neg (by omega)]
  have hv : size_t_wrap (sizeof_int32 + size_t_wrap (N * sizeof_TimestampTz)) = 4 + 8 * N := by
    unfold size_t_wrap sizeof_int32 sizeof_TimestampTz; omega
  simp only [hc, bind_ok, hs, hp, hv, Int.toNat_ofNat]
  have hw : scalar_width ts.temptype ≤ 8 := by
    rcases hfs with h | h | h <;> rw [h] <;> decide
  have hwN : scalar_width ts.temptype * N ≤ 8 * N := Nat.mul_le_mul_right N hw
  rw [tserialized_read_loop_scalar ts_addr ts _ hfs N 0 _
    (by simp only [sizeof_int32]; omega) (by simp only; omega)
    (by simp only [sizeof_int32]; omega) (by simp only; omega)]
  rfl

theorem take_append_len (a b : List Nat) (n : Nat) (h : a.length = n) :
    (a ++ b).take n = a := by
  subst h; simp

theorem drop_append_len (a b : List Nat) (n m : Nat) (h : a.length = n) :
    (a ++ b).drop (n + m) = b.drop m := by
  subst h; rw [List.drop_append]

theorem timestamps_block_drop (l : List TInstant) (c : List Nat) :
    ∀ (k : Nat) (hk : k < l.length),
      ((timestamps_block l ++ c).drop (8 * k)).take 8 = timestamp_bytes (l.get ⟨k, hk⟩).t := by
  induction l with
  | nil => intro k hk; simp at hk
  | cons x xs ih =>
    intro k hk
    have hx : (timestamp_bytes x.t).length = 8 := by simp [timestamp_bytes, le_bytes_length]
    cases k with
    | zero =>
      simp only [timestamps_block, Nat.mul_zero, List.drop_zero, List.append_assoc]
      rw [take_append_len _ _ 8 hx]
      rfl
    | succ k =>
      have e : 8 * (k + 1) = 8 + 8 * k := by omega
      simp only [timestamps_block, List.append_assoc]
      rw [e, drop_append_len _ _ 8 _ hx]
      exact ih k (by simpa using hk)

theorem values_block_drop (temptype : meosType) (width : TInstant → Nat) (w : Nat)
    (l : List TInstant) (c : List Nat)
    (hw : ∀ inst ∈ l, width inst = w)
    (hsrc : ∀ inst ∈ l, w ≤ (value_source temptype inst).length) :
    ∀ (k : Nat) (hk : k < l.length),
      ((values_block temptype width l ++ c).drop (w * k)).take w
        = (value_source temptype (l.get ⟨k, hk⟩)).take w := by
  induction l with
  | nil => intro k hk; simp at hk
  | cons x xs ih =>
    intro k hk
    have hwx := hw x (List.mem_cons_self _ _)
    have hx : ((value_source temptype x).take w).length = w := by
      simp only [List.length_take]
      have := hsrc x (List.mem_cons_self _ _)
      omega
    cases k with
    | zero =>
      simp only [values_block, Nat.mul_zero, List.drop_zero, List.append_assoc, hwx]
      rw [take_append_len _ _ w hx]
      rfl
    | succ k =>
      have e : w * (k + 1) = w + w * k := by
        rw [Nat.mul_succ]; omega
      simp only [values_block, List.append_assoc, hwx]
      rw [e, drop_append_len _ _ w _ hx]
      exact ih (fun i hi => hw i (List.mem_cons_of_mem _ hi))
        (fun i hi => hsrc i (List.mem_cons_of_mem _ hi)) k (by simpa using hk)

theorem le_bytes_mod (w n : Nat) : le_bytes w (n % 256 ^ w) = le_bytes w n := by
  have h := le_bytes_le_value (le_bytes w n) (is_bytes_le_bytes w n)
  rw [le_bytes_length, le_value_le_bytes] at h
  exact h

theorem le_bytes_congr (w a b : Nat) (h : a % 256 ^ w = b % 256 ^ w) :
    le_bytes w a = le_bytes w b := by
  rw [← le_bytes_mod w a, ← le_bytes_mod w b, h]

theorem to_size_t_to_int32_mod (x : Nat) : to_size_t (to_int32 x) % 2 ^ 32 = x % 2 ^ 32 := by
  unfold to_size_t to_int32
  split
  · omega
  · omega

/-- The bytes of the datum the decoders build are the bytes it was read from. -/
theorem scalar_datum_bytes (temptype : meosType) (vb : List Nat)
    (hfs : fixed_scalar temptype) (hlen : vb.length = scalar_width temptype)
    (hb : is_bytes vb) (hbool : temptype = .T_TBOOL → vb = [0] ∨ vb = [1]) :
    (scalar_datum temptype vb).bytes (scalar_width temptype) = vb := by
  rcases hfs with h | h | h <;> subst h
  · simp only [scalar_datum, Int32GetDatum, Datum.bytes, scalar_width] at hlen ⊢
    rw [le_bytes_congr 4 _ (le_value vb) (by
      have := to_size_t_to_int32_mod (le_value vb)
      norm_num at this ⊢
      omega)]
    rw [← hlen]
    exact le_bytes_le_value vb hb
  · simp only [scalar_datum, Float8GetDatum, Datum.bytes, scalar_width] at hlen ⊢
    rw [← hlen]
    exact le_bytes_le_value vb hb
  · rcases hbool rfl with h | h <;> subst h <;> rfl

theorem timestamp_round_trip (t : Int) (h : int64_range t) :
    to_int64 (le_value (timestamp_bytes t)) = t := by
  unfold timestamp_bytes
  rw [le_value_le_bytes]
  have : to_size_t t % 256 ^ 8 = to_size_t t := Nat.mod_eq_of_lt (by
    have := to_size_t_lt t
    norm_num at this ⊢
    omega)
  rw [this]
  exact to_int64_to_size_t t h

/-- The view of the instant decoded from the bytes of a well-stored scalar sample. -/
theorem made_view_scalar_instant (temptype : meosType) (inst : TInstant)
    (hfs : fixed_scalar temptype) (hs : scalar_sample temptype inst) :
    made_view (scalar_width temptype)
      (scalar_instant temptype (timestamp_bytes inst.t) (inst.value.take (scalar_width temptype)))
    = (inst.t, temptype, inst.value.take (scalar_width temptype)) := by
  obtain ⟨ht, hl, hb, hbool⟩ := hs
  unfold made_view scalar_instant tinstant_make
  simp only
  rw [timestamp_round_trip _ ht, scalar_datum_bytes temptype _ hfs (by simp; omega) hb
    (fun h => by
      subst h
      simpa [scalar_width] using hbool rfl)]

/-! ## Fixed-width scalars through the codec -/

theorem fixed_scalar_recognised (temptype : meosType) (h : fixed_scalar temptype) :
    recognised temptype := by
  rcases h with h | h | h <;> subst h <;> simp [recognised]

theorem fixed_scalar_not_varlength (temptype : meosType) (h : fixed_scalar temptype) :
    seq_is_varlength temptype = false := by
  rcases h with h | h | h <;> subst h <;> rfl

theorem fixed_scalar_seq_width (temptype : meosType) (ff : Nat) (inst : TInstant)
    (h : fixed_scalar temptype) : seq_value_width temptype ff inst = scalar_width temptype := by
  rcases h with h | h | h <;> subst h <;> rfl

theorem fixed_scalar_inst_width (inst : TInstant) (h : fixed_scalar inst.temptype) :
    inst_value_width inst = scalar_width inst.temptype := by
  unfold inst_value_width
  rcases h with h | h | h <;> rw [h] <;> rfl

theorem fixed_scalar_source (temptype : meosType) (inst : TInstant) (h : fixed_scalar temptype) :
    value_source temptype inst = inst.value := by
  unfold value_source
  rcases h with h | h | h <;> subst h <;> simp

theorem scalar_width_le (temptype : meosType) : scalar_width temptype ≤ 8 := by
  cases temptype <;> simp [scalar_width]

theorem scalar_width_pos (temptype : meosType) (h : fixed_scalar temptype) :
    1 ≤ scalar_width temptype := by
  rcases h with h | h | h <;> subst h <;> simp [scalar_width]

/-- The samples the sequence decoder reads at its cursors from a body laid out as
count, timestamps block, values block. -/
theorem decode_layout (temptype : meosType) (width : TInstant → Nat) (l : List TInstant)
    (c4 tail : List Nat) (hfs : fixed_scalar temptype) (hc4 : c4.length = 4)
    (hw : ∀ inst ∈ l, width inst = scalar_width temptype)
    (hsrc : ∀ inst ∈ l, scalar_width temptype ≤ inst.value.length) :
    (List.range l.length).map (fun k =>
      scalar_instant temptype
        (((c4 ++ timestamps_block l ++ values_block temptype width l ++ tail).drop
          (4 + 8 * k)).take 8)
        (((c4 ++ timestamps_block l ++ values_block temptype width l ++ tail).drop
          (4 + 8 * l.length + scalar_width temptype * k)).take (scalar_width temptype)))
    = l.map (fun inst => scalar_instant temptype (timestamp_bytes inst.t)
        (inst.value.take (scalar_width temptype))) := by
  apply List.ext_getElem
  · simp
  · intro k h1 h2
    have hk : k < l.length := by simpa using h2
    simp only [List.getElem_map, List.getElem_range]
    have e1 : ((c4 ++ timestamps_block l ++ values_block temptype width l ++ tail).drop
        (4 + 8 * k)).take 8 = timestamp_bytes (l.get ⟨k, hk⟩).t := by
      rw [List.append_assoc, List.append_assoc, drop_append_len c4 _ 4 (8 * k) hc4]
      exact timestamps_block_drop l _ k hk
    have e2 : ((c4 ++ timestamps_block l ++ values_block temptype width l ++ tail).drop
        (4 + 8 * l.length + scalar_width temptype * k)).take (scalar_width temptype)
        = (l.get ⟨k, hk⟩).value.take (scalar_width temptype) := by
      rw [List.append_assoc (c4 ++ timestamps_block l),
        drop_append_len (c4 ++ timestamps_block l) _ (4 + 8 * l.length) _
          (by simp [hc4, timestamps_block_length])]
      have := values_block_drop temptype width (scalar_width temptype) l tail hw
        (fun inst hm => by rw [fixed_scalar_source temptype inst hfs]; exact hsrc inst hm) k hk
      rw [this, fixed_scalar_source temptype _ hfs]
    rw [e1, e2]
    rfl

/-- The sequence encoder on a sequence of fixed-width scalars. -/
theorem tsequence_to_tserialized_run_scalar (seq : TSequence)
    (hv : scalar_temporal (.sequence seq)) :
    ∃ st, tsequence_to_tserialized_run seq = .ok
        ({ vl_len_ := varsize_header
              (12 + (8 + scalar_width seq.temptype) * seq.instants.length),
           temptype := seq.temptype, subtype := seq.subtype, flags := seq.flags,
           data := st.data }, st)
      ∧ st.data = le_bytes 4 (to_uint32 seq.count) ++ timestamps_block seq.instants
          ++ values_block seq.temptype (seq_value_width seq.temptype (first_flags seq))
              seq.instants
      ∧ st.t_offset = 4 + 8 * seq.instants.length
      ∧ st.v_offset = 4 + 8 * seq.instants.length
          + scalar_width seq.temptype * seq.instants.length := by
  obtain ⟨_, hfs, hne, hcount, hall, hsz⟩ := hv
  obtain ⟨first, rest, hinst⟩ := List.exists_cons_of_ne_nil hne
  have hff : first_flags seq = first.flags := by unfold first_flags; rw [hinst]
  have hfm : first ∈ seq.instants := by rw [hinst]; exact List.mem_cons_self _ _
  have hws : widths_sum (seq_value_width seq.temptype first.flags) seq.instants
      = seq.instants.length * scalar_width seq.temptype :=
    widths_sum_const _ _ _ (fun inst _ => fixed_scalar_seq_width _ _ inst hfs)
  have hsz2 : 12 + 8 * seq.instants.length
      + widths_sum (seq_value_width seq.temptype first.flags) seq.instants
      = 12 + (8 + scalar_width seq.temptype) * seq.instants.length := by
    rw [hws]; ring
  obtain ⟨st, hrun, hd, ht, hvo⟩ := tsequence_to_tserialized_run_eq seq first rest hinst hcount
    (fixed_scalar_recognised _ hfs) (hall first hfm).1
    (fun h => by rw [fixed_scalar_not_varlength _ hfs] at h; cases h)
    (fun inst hm => by
      rw [fixed_scalar_seq_width _ _ inst hfs, fixed_scalar_source _ inst hfs]
      exact (hall inst hm).2.2.1)
    (by rw [hsz2]; exact hsz)
  refine ⟨st, ?_, ?_, ?_, ?_⟩
  · rw [hrun, hsz2]
  · rw [hd, hff]
  · exact ht
  · rw [hvo, hws]; ring

theorem temporal_to_tserialized_instant (inst : TInstant) (hs : inst.subtype = .TINSTANT) :
    temporal_to_tserialized (.instant inst)
      = (tinstant_to_tserialized inst >>= fun result => pure (some result)) := by
  unfold temporal_to_tserialized
  simp only [Temporal.subtype, hs, Temporal.asTInstant, bind_ok]

theorem temporal_to_tserialized_sequence (seq : TSequence) (hs : seq.subtype = .TSEQUENCE) :
    temporal_to_tserialized (.sequence seq)
      = (tsequence_to_tserialized seq >>= fun result => pure (some result)) := by
  unfold temporal_to_tserialized
  simp only [Temporal.subtype, hs, Temporal.asTSequence, bind_ok]

/-- The buffer the encoder returns for an Instant of a fixed-width scalar. -/
theorem encode_scalar_instant (inst : TInstant) (hv : scalar_temporal (.instant inst)) :
    temporal_to_tserialized (.instant inst) = .ok (some
      { vl_len_ := varsize_header (16 + scalar_width inst.temptype),
        temptype := inst.temptype, subtype := inst.subtype, flags := inst.flags,
        data := timestamp_bytes inst.t ++ inst.value.take (scalar_width inst.temptype) }) := by
  obtain ⟨hsub, hfs, _, hl, _, _⟩ := hv
  have hmax : MaxAllocSize = 0x3fffffff := rfl
  have hw := scalar_width_le inst.temptype
  rw [temporal_to_tserialized_instant inst hsub,
    tinstant_to_tserialized_eq inst (fixed_scalar_recognised _ hfs)
      (fun h => by rcases hfs with h2 | h2 | h2 <;> rw [h2] at h <;> cases h)
      (by rw [fixed_scalar_inst_width inst hfs, fixed_scalar_source _ inst hfs]; exact hl)
      (by rw [fixed_scalar_inst_width inst hfs]; omega)]
  rw [fixed_scalar_inst_width inst hfs, fixed_scalar_source _ inst hfs]
  rfl

/-- The buffer the encoder returns for a Sequence of fixed-width scalars. -/
theorem encode_scalar_sequence (seq : TSequence) (hv : scalar_temporal (.sequence seq)) :
    temporal_to_tserialized (.sequence seq) = .ok (some
      { vl_len_ := varsize_header (12 + (8 + scalar_width seq.temptype) * seq.instants.length),
        temptype := seq.temptype, subtype := seq.subtype, flags := seq.flags,
        data := le_bytes 4 (to_uint32 seq.count) ++ timestamps_block seq.instants
          ++ values_block seq.temptype (seq_value_width seq.temptype (first_flags seq))
              seq.instants }) := by
  obtain ⟨st, hrun, hd, _, _⟩ := tsequence_to_tserialized_run_scalar seq hv
  rw [temporal_to_tserialized_sequence seq hv.1]
  unfold tsequence_to_tserialized
  rw [hrun, ← hd]
  rfl

theorem count_round_trip (N : Nat) (rest : List Nat) (h : N < 2 ^ 31) :
    read_int32 (le_bytes 4 (to_uint32 (N : Int)) ++ rest) 0 = .ok (N : Int) := by
  have := read_int32_mid [] (le_bytes 4 (to_uint32 (N : Int))) rest 0 rfl (le_bytes_length _ _)
  simp only [List.nil_append] at this
  rw [this, le_value_le_bytes]
  have h2 : to_uint32 (N : Int) % 256 ^ 4 = to_uint32 (N : Int) := Nat.mod_eq_of_lt (by
    have := to_uint32_lt (N : Int)
    norm_num at this ⊢
    omega)
  rw [h2, to_int32_to_uint32 _ (by constructor <;> omega)]

theorem scalar_sequence_count_lt (seq : TSequence) (hv : scalar_temporal (.sequence seq)) :
    8 * seq.instants.length ≤ MaxAllocSize ∧ seq.instants.length < 2 ^ 31 := by
  obtain ⟨_, hfs, _, _, _, hsz⟩ := hv
  have hmax : MaxAllocSize = 0x3fffffff := rfl
  have : (8 + scalar_width seq.temptype) * seq.instants.length
      = 8 * seq.instants.length + scalar_width seq.temptype * seq.instants.length := by ring
  constructor <;> omega

/-- Decoding the encoding of a Sequence of fixed-width scalars. -/
theorem decode_scalar_sequence (ts_addr : Nat) (seq : TSequence)
    (hv : scalar_temporal (.sequence seq)) (n : Nat) :
    tserialized_to_tsequence_run ts_addr
      { vl_len_ := n, temptype := seq.temptype, subtype := seq.subtype, flags := seq.flags,
        data := le_bytes 4 (to_uint32 seq.count) ++ timestamps_block seq.instants
          ++ values_block seq.temptype (seq_value_width seq.temptype (first_flags seq))
              seq.instants }
      = .ok ((seq.instants.length : Int),
        { instants := seq.instants.map (fun inst => scalar_instant seq.temptype
            (timestamp_bytes inst.t) (inst.value.take (scalar_width seq.temptype))),
          t_offset := 4 + 8 * seq.instants.length,
          v_offset := 4 + 8 * seq.instants.length
            + scalar_width seq.temptype * seq.instants.length }) := by
  obtain ⟨hN1, hN2⟩ := scalar_sequence_count_lt seq hv
  obtain ⟨_, hfs, _, hcount, hall, _⟩ := hv
  have hsrcv : ∀ inst ∈ seq.instants, scalar_width seq.temptype ≤ inst.value.length :=
    fun inst hm => (hall inst hm).2.2.1
  have hwv : ∀ inst ∈ seq.instants,
      seq_value_width seq.temptype (first_flags seq) inst = scalar_width seq.temptype :=
    fun inst _ => fixed_scalar_seq_width _ _ inst hfs
  have hlenv : (values_block seq.temptype (seq_value_width seq.temptype (first_flags seq))
      seq.instants).length = seq.instants.length * scalar_width seq.temptype := by
    rw [values_block_length _ _ _ (fun inst hm => by
      rw [hwv inst hm, fixed_scalar_source _ inst hfs]; exact hsrcv inst hm)]
    exact widths_sum_const _ _ _ hwv
  rw [tserialized_to_tsequence_run_scalar ts_addr _ seq.instants.length hfs
    (by simp only [hcount, List.append_assoc]; exact count_round_trip _ _ hN2) hN1
    (by
      simp only [List.length_append, le_bytes_length, timestamps_block_length, hlenv]
      rw [Nat.mul_comm (scalar_width seq.temptype)])]
  simp only
  have := decode_layout seq.temptype (seq_value_width seq.temptype (first_flags seq))
    seq.instants (le_bytes 4 (to_uint32 seq.count)) [] hfs (le_bytes_length _ _) hwv hsrcv
  simp only [List.append_nil] at this
  rw [this]

/-! ## C1: round trip of fixed-width scalars -/

/-- C1. For every Instant and every non-empty Sequence `v` of base type Integer,
Float or Boolean, `temporal_to_tserialized` returns a buffer, and
`tserialized_to_temporal` of that buffer (wherever it lies) returns a value of the
same shape whose samples have, index by index and in order, the timestamp, the base
type and the value bytes of the samples of `v`; a decoded Sequence has the sample
count of `v` and is built with the interpolation mode held in the flags of `v`. -/
theorem round_trip_fixed_width (v : Temporal) (hv : scalar_temporal v) :
    ∃ b, temporal_to_tserialized v = .ok (some b)
      ∧ ∀ ts_addr, ∃ m, tserialized_to_temporal ts_addr b = .ok (some m) ∧ same_samples v m := by
  cases v with
  | sequenceset ss => exact absurd hv (by simp [scalar_temporal])
  | instant inst =>
    refine ⟨_, encode_scalar_instant inst hv, fun ts_addr => ?_⟩
    obtain ⟨hsub, hfs, hsamp⟩ := hv
    refine ⟨.instant (scalar_instant inst.temptype (timestamp_bytes inst.t)
      (inst.value.take (scalar_width inst.temptype))), ?_, ?_⟩
    · unfold tserialized_to_temporal
      simp only [hsub]
      rw [tserialized_to_tinstant_scalar _ (timestamp_bytes inst.t)
        (inst.value.take (scalar_width inst.temptype)) [] hfs (by simp)
        (by simp [timestamp_bytes, le_bytes_length])
        (by simp only [List.length_take]; have := hsamp.2.1; omega)]
      rfl
    · exact made_view_scalar_instant inst.temptype inst hfs hsamp
  | sequence seq =>
    refine ⟨_, encode_scalar_sequence seq hv, fun ts_addr => ?_⟩
    have hrun := decode_scalar_sequence ts_addr seq hv
      (varsize_header (12 + (8 + scalar_width seq.temptype) * seq.instants.length))
    obtain ⟨hsub, hfs, _, hcount, hall, _⟩ := hv
    refine ⟨.sequence (tsequence_make_free
      (seq.instants.map (fun inst => scalar_instant seq.temptype
        (timestamp_bytes inst.t) (inst.value.take (scalar_width seq.temptype))))
      (seq.instants.length : Int) true true (MEOS_FLAGS_GET_INTERP seq.flags) false), ?_, ?_⟩
    · unfold tserialized_to_temporal
      simp only [hsub] at hrun ⊢
      unfold tserialized_to_tsequence
      rw [hrun]
      rfl
    · refine ⟨?_, by simp [tsequence_make_free], by simp [tsequence_make_free, hcount], rfl⟩
      simp only [tsequence_make_free, List.map_map]
      apply List.map_congr_left
      intro inst hm
      simp only [Function.comp]
      rw [made_view_scalar_instant seq.temptype inst hfs (hall inst hm).2]
      unfold sample_view
      rw [(hall inst hm).1]

/-- Witness of C1 at the Integer sequence `[(100,5),(200,7),(300,9)]` and at the Float
instant 3.5 @ 1000000. -/
theorem round_trip_fixed_width_witness :
    (scalar_temporal (.sequence int_sequence)
      ∧ ∃ b, temporal_to_tserialized (.sequence int_sequence) = .ok (some b)
        ∧ ∀ ts_addr, ∃ m, tserialized_to_temporal ts_addr b = .ok (some m)
          ∧ same_samples (.sequence int_sequence) m)
    ∧ (scalar_temporal (.instant float_instant)
      ∧ ∃ b, temporal_to_tserialized (.instant float_instant) = .ok (some b)
        ∧ ∀ ts_addr, ∃ m, tserialized_to_temporal ts_addr b = .ok (some m)
          ∧ same_samples (.instant float_instant) m) :=
  ⟨⟨by decide, round_trip_fixed_width (.sequence int_sequence) (by decide)⟩,
   ⟨by decide, round_trip_fixed_width (.instant float_instant) (by decide)⟩⟩

/-! ## The encoder on every recognised base type -/

/-- The buffer the encoder returns for an encodable Instant. -/
theorem encode_instant (inst : TInstant) (hv : encodable (.instant inst)) :
    temporal_to_tserialized (.instant inst) = .ok (some
      { vl_len_ := varsize_header (16 + inst_value_width inst),
        temptype := inst.temptype, subtype := inst.subtype, flags := inst.flags,
        data := timestamp_bytes inst.t
          ++ (value_source inst.temptype inst).take (inst_value_width inst) }) := by
  obtain ⟨hsub, hrec, hhdr, hsrc, hsz⟩ := hv
  rw [temporal_to_tserialized_instant inst hsub,
    tinstant_to_tserialized_eq inst hrec hhdr hsrc hsz]
  rfl

/-- The run of the sequence encoder on an encodable Sequence. -/
theorem encode_sequence_run (seq : TSequence) (hv : encodable (.sequence seq)) :
    ∃ st, tsequence_to_tserialized_run seq = .ok
        ({ vl_len_ := varsize_header (12 + 8 * seq.instants.length
              + widths_sum (seq_value_width seq.temptype (first_flags seq)) seq.instants),
           temptype := seq.temptype, subtype := seq.subtype, flags := seq.flags,
           data := st.data }, st)
      ∧ st.data = le_bytes 4 (to_uint32 seq.count) ++ timestamps_block seq.instants
          ++ values_block seq.temptype (seq_value_width seq.temptype (first_flags seq))
              seq.instants
      ∧ st.t_offset = 4 + 8 * seq.instants.length
      ∧ st.v_offset = 4 + 8 * seq.instants.length
          + widths_sum (seq_value_width seq.temptype (first_flags seq)) seq.instants := by
  obtain ⟨_, hrec, hne, hcount, htypes, hhdr, hsrc, hsz⟩ := hv
  obtain ⟨first, rest, hinst⟩ := List.exists_cons_of_ne_nil hne
  have hff : first_flags seq = first.flags := by unfold first_flags; rw [hinst]
  rw [hff] at hsrc hsz ⊢
  exact tsequence_to_tserialized_run_eq seq first rest hinst hcount hrec
    (htypes first (by rw [hinst]; exact List.mem_cons_self _ _)) hhdr hsrc hsz

theorem encode_sequence (seq : TSequence) (hv : encodable (.sequence seq)) :
    temporal_to_tserialized (.sequence seq) = .ok (some
      { vl_len_ := varsize_header (12 + 8 * seq.instants.length
            + widths_sum (seq_value_width seq.temptype (first_flags seq)) seq.instants),
        temptype := seq.temptype, subtype := seq.subtype, flags := seq.flags,
        data := le_bytes 4 (to_uint32 seq.count) ++ timestamps_block seq.instants
          ++ values_block seq.temptype (seq_value_width seq.temptype (first_flags seq))
              seq.instants }) := by
  obtain ⟨st, hrun, hd, _, _⟩ := encode_sequence_run seq hv
  rw [temporal_to_tserialized_sequence seq hv.1]
  unfold tsequence_to_tserialized
  rw [hrun, ← hd]
  rfl

/-! ## C2: length invariant -/

/-- C2. For every Instant and every non-empty Sequence `v` of a recognised base type,
`temporal_to_tserialized` returns a buffer whose declared length equals the number
of bytes it occupies.  For an Instant that length is 8 + 8 + the value width and the
body is the timestamp followed by the value.  For a Sequence of N samples it is
8 + 4 + 8 N + the sum of the value widths, the timestamp cursor ends at body offset
4 + 8 N, the value cursor ends at the end of the body, and the body is exactly the
count (4 bytes), the timestamps (8 N bytes) and the values (the sum of the widths),
each byte written once. -/
theorem length_invariant (v : Temporal) (hv : encodable v) :
    ∃ b, temporal_to_tserialized v = .ok (some b)
      ∧ b.varsize = b.physical_size
      ∧ match v with
        | .instant inst =>
          b.physical_size = 8 + 8 + inst_value_width inst
            ∧ b.data = timestamp_bytes inst.t
                ++ (value_source inst.temptype inst).take (inst_value_width inst)
            ∧ (timestamp_bytes inst.t).length = 8
            ∧ ((value_source inst.temptype inst).take (inst_value_width inst)).length
                = inst_value_width inst
        | .sequence seq =>
          ∃ st, tsequence_to_tserialized_run seq = .ok (b, st)
            ∧ b.physical_size = 8 + 4 + 8 * seq.instants.length
                + widths_sum (seq_value_width seq.temptype (first_flags seq)) seq.instants
            ∧ st.t_offset = 4 + 8 * seq.instants.length
            ∧ st.v_offset = b.data.length
            ∧ b.data = le_bytes 4 (to_uint32 seq.count) ++ timestamps_block seq.instants
                ++ values_block seq.temptype (seq_value_width seq.temptype (first_flags seq))
                    seq.instants
            ∧ (le_bytes 4 (to_uint32 seq.count)).length = 4
            ∧ (timestamps_block seq.instants).length = 8 * seq.instants.length
            ∧ (values_block seq.temptype (seq_value_width seq.temptype (first_flags seq))
                seq.instants).length
                = widths_sum (seq_value_width seq.temptype (first_flags seq)) seq.instants
        | .sequenceset _ => False := by
  cases v with
  | sequenceset ss => exact absurd hv (by simp [encodable])
  | instant inst =>
    refine ⟨_, encode_instant inst hv, ?_⟩
    obtain ⟨_, _, _, hsrc, hsz⟩ := hv
    have hl : ((value_source inst.temptype inst).take (inst_value_width inst)).length
        = inst_value_width inst := by
      simp only [List.length_take]; omega
    have ht : (timestamp_bytes inst.t).length = 8 := by simp [timestamp_bytes, le_bytes_length]
    refine ⟨?_, ?_, rfl, ht, hl⟩
    · simp only [TSERIALIZED.varsize, TSERIALIZED.physical_size, List.length_append, hl, ht,
        sizeof_TSERIALIZED]
      rw [header_varsize_varsize_header _ hsz]
      omega
    · simp only [TSERIALIZED.physical_size, List.length_append, hl, ht, sizeof_TSERIALIZED]
      omega
  | sequence seq =>
    refine ⟨_, encode_sequence seq hv, ?_⟩
    obtain ⟨st, hrun, hd, ht, hvo⟩ := encode_sequence_run seq hv
    obtain ⟨_, _, _, _, _, _, hsrc, hsz⟩ := hv
    have hlv := values_block_length seq.temptype
      (seq_value_width seq.temptype (first_flags seq)) seq.instants hsrc
    have hlt := timestamps_block_length seq.instants
    have hlc : (le_bytes 4 (to_uint32 seq.count)).length = 4 := le_bytes_length _ _
    refine ⟨?_, st, ?_, ?_, ht, ?_, rfl, hlc, hlt, hlv⟩
    · simp only [TSERIALIZED.varsize, TSERIALIZED.physical_size, List.length_append, hlv, hlt,
        hlc, sizeof_TSERIALIZED]
      rw [header_varsize_varsize_header _ hsz]
      omega
    · rw [hrun, hd]
    · simp only [TSERIALIZED.physical_size, List.length_append, hlv, hlt, hlc,
        sizeof_TSERIALIZED]
      omega
    · rw [hvo]
      simp only [List.length_append, hlv, hlt, hlc]

/-- Witness of C2 at the Text sequence `[(10,"ab"),(20,"hello")]`, whose values
have different widths. -/
theorem length_invariant_witness :
    encodable (.sequence text_sequence)
      ∧ ∃ b, temporal_to_tserialized (.sequence text_sequence) = .ok (some b)
        ∧ b.varsize = b.physical_size
        ∧ ∃ st, tsequence_to_tserialized_run text_sequence = .ok (b, st)
          ∧ b.physical_size = 8 + 4 + 8 * 2 + (6 + 9)
          ∧ st.t_offset = 4 + 8 * 2
          ∧ st.v_offset = b.data.length := by
  refine ⟨by decide, ?_⟩
  obtain ⟨b, h1, h2, st, h3, h4, h5, h6, _⟩ :=
    length_invariant (.sequence text_sequence) (by decide)
  exact ⟨b, h1, h2, st, h3, h4, h5, h6⟩

/-! ## C3: layout of an encoded Instant -/

/-- C3. For every Instant of base type Integer, Float or Boolean whose value holds
at least the `w` bytes of the scalar (`w` = 4, 8, 1), `temporal_to_tserialized`
returns exactly: the envelope declaring length header size + 8 + `w`, with the base
type tag and flags of the instant and the Instant shape tag, then the timestamp as
8 bytes, then the value as `w` bytes.  A Float instant declares header size + 16. -/
theorem instant_layout (inst : TInstant) (hsub : inst.subtype = .TINSTANT)
    (hfs : fixed_scalar inst.temptype) (hl : scalar_width inst.temptype ≤ inst.value.length) :
    ∃ b, temporal_to_tserialized (.instant inst) = .ok (some b)
      ∧ b.varsize = sizeof_TSERIALIZED + 8 + scalar_width inst.temptype
      ∧ b.temptype = inst.temptype ∧ b.subtype = .TINSTANT ∧ b.flags = inst.flags
      ∧ b.data = le_bytes 8 (to_size_t inst.t) ++ inst.value.take (scalar_width inst.temptype)
      ∧ (le_bytes 8 (to_size_t inst.t)).length = 8
      ∧ (inst.value.take (scalar_width inst.temptype)).length = scalar_width inst.temptype
      ∧ (scalar_width .T_TINT = 4 ∧ scalar_width .T_TFLOAT = 8 ∧ scalar_width .T_TBOOL = 1)
      ∧ (inst.temptype = .T_TFLOAT → b.varsize = sizeof_TSERIALIZED + 16) := by
  have hmax : MaxAllocSize = 0x3fffffff := rfl
  have hw := scalar_width_le inst.temptype
  have henc : encodable (.instant inst) := by
    refine ⟨hsub, fixed_scalar_recognised _ hfs, ?_, ?_, ?_⟩
    · intro h; rcases hfs with h2 | h2 | h2 <;> rw [h2] at h <;> cases h
    · rw [fixed_scalar_inst_width inst hfs, fixed_scalar_source _ inst hfs]; exact hl
    · rw [fixed_scalar_inst_width inst hfs]; omega
  have hvs : header_varsize (varsize_header (16 + scalar_width inst.temptype))
      = sizeof_TSERIALIZED + 8 + scalar_width inst.temptype := by
    rw [header_varsize_varsize_header _ (by omega)]
    unfold sizeof_TSERIALIZED; omega
  refine ⟨_, encode_instant inst henc, ?_, rfl, hsub, rfl, ?_, le_bytes_length _ _, ?_,
    ⟨rfl, rfl, rfl⟩, ?_⟩
  · simp only [TSERIALIZED.varsize, fixed_scalar_inst_width inst hfs]
    exact hvs
  · simp only [fixed_scalar_inst_width inst hfs, fixed_scalar_source _ inst hfs]
    rfl
  · simp only [List.length_take]; omega
  · intro hf
    simp only [TSERIALIZED.varsize, fixed_scalar_inst_width inst hfs]
    rw [hvs, hf]
    rfl

/-- Witness of C3 at the Float instant 3.5 @ 1000000: header, then `1000000` as an
8-byte integer, then the eight bytes of `3.5`. -/
theorem instant_layout_witness :
    ∃ b, temporal_to_tserialized (.instant float_instant) = .ok (some b)
      ∧ b.varsize = 8 + 16
      ∧ b.temptype = .T_TFLOAT ∧ b.subtype = .TINSTANT ∧ b.flags = 0
      ∧ b.data = [0x40, 0x42, 0x0F, 0, 0, 0, 0, 0] ++ [0, 0, 0, 0, 0, 0, 0x0C, 0x40] := by
  obtain ⟨b, h1, _, h3, h4, h5, h6, _, _, _, h10⟩ :=
    instant_layout float_instant (by decide) (by decide) (by decide)
  exact ⟨b, h1, h10 rfl, h3, h4, h5, h6⟩

/-! ## C4: layout of an encoded Sequence -/

theorem values_block_congr (temptype : meosType) (w1 w2 : TInstant → Nat) (l : List TInstant)
    (h : ∀ inst ∈ l, w1 inst = w2 inst) :
    values_block temptype w1 l = values_block temptype w2 l := by
  induction l with
  | nil => rfl
  | cons a l ih =>
    simp only [values_block]
    rw [h a (List.mem_cons_self _ _), ih (fun x hx => h x (List.mem_cons_of_mem _ hx))]

/-- C4. For every non-empty Sequence of N samples of base type Integer, Float or
Boolean (width `w` = 4, 8, 1), the body `tsequence_to_tserialized` writes is N as a
4-byte integer, then the N timestamps in sample order, 8 bytes each, then the N
values in sample order, `w` bytes each, with nothing between them.  Hence the i-th
timestamp lies at body offset 4 + 8 i, the values block starts at body offset
4 + 8 N (byte header size + 4 + 8 N of the buffer) and the i-th value lies at body
offset 4 + 8 N + w i. -/
theorem sequence_layout (seq : TSequence) (hv : encodable (.sequence seq))
    (hfs : fixed_scalar seq.temptype) :
    ∃ b, tsequence_to_tserialized seq = .ok b
      ∧ b.data = le_bytes 4 (to_uint32 (seq.instants.length : Int))
          ++ timestamps_block seq.instants
          ++ values_block seq.temptype (fun _ => scalar_width seq.temptype) seq.instants
      ∧ read_int32 b.data 0 = .ok (seq.instants.length : Int)
      ∧ b.data.length = 4 + 8 * seq.instants.length
          + scalar_width seq.temptype * seq.instants.length
      ∧ b.physical_size = sizeof_TSERIALIZED + b.data.length
      ∧ b.data.drop (4 + 8 * seq.instants.length)
          = values_block seq.temptype (fun _ => scalar_width seq.temptype) seq.instants
      ∧ ∀ (i : Nat) (hi : i < seq.instants.length),
          (b.data.drop (4 + 8 * i)).take 8 = le_bytes 8 (to_size_t (seq.instants.get ⟨i, hi⟩).t)
          ∧ (b.data.drop (4 + 8 * seq.instants.length + scalar_width seq.temptype * i)).take
              (scalar_width seq.temptype)
            = (seq.instants.get ⟨i, hi⟩).value.take (scalar_width seq.temptype) := by
  have hmax : MaxAllocSize = 0x3fffffff := rfl
  obtain ⟨st, hrun, hd, _, _⟩ := encode_sequence_run seq hv
  obtain ⟨_, _, _, hcount, _, _, hsrc, hsz⟩ := hv
  have hwv : ∀ inst ∈ seq.instants,
      seq_value_width seq.temptype (first_flags seq) inst = scalar_width seq.temptype :=
    fun inst _ => fixed_scalar_seq_width _ _ inst hfs
  have hvb := values_block_congr seq.temptype (seq_value_width seq.temptype (first_flags seq))
    (fun _ => scalar_width seq.temptype) seq.instants hwv
  have hsrc2 : ∀ inst ∈ seq.instants,
      scalar_width seq.temptype ≤ (value_source seq.temptype inst).length :=
    fun inst hm => by rw [← hwv inst hm]; exact hsrc inst hm
  have hlv : (values_block seq.temptype (fun _ => scalar_width seq.temptype)
      seq.instants).length = seq.instants.length * scalar_width seq.temptype := by
    rw [values_block_length _ _ _ hsrc2]
    exact widths_sum_const _ _ _ (fun _ _ => rfl)
  have hlt := timestamps_block_length seq.instants
  have hlc : (le_bytes 4 (to_uint32 (seq.instants.length : Int))).length = 4 :=
    le_bytes_length _ _
  rw [hvb, hcount] at hd
  rw [hd] at hrun
  refine ⟨_, by unfold tsequence_to_tserialized; rw [hrun]; rfl, rfl, ?_, ?_, rfl, ?_, ?_⟩
  · dsimp only
    rw [List.append_assoc]
    exact count_round_trip _ _ (by omega)
  · dsimp only
    simp only [List.length_append, hlc, hlt, hlv]
    ring
  · dsimp only
    have := drop_append_len (le_bytes 4 (to_uint32 (seq.instants.length : Int))
      ++ timestamps_block seq.instants)
      (values_block seq.temptype (fun _ => scalar_width seq.temptype) seq.instants)
      (4 + 8 * seq.instants.length) 0 (by simp [hlc, hlt])
    simpa using this
  · intro i hi
    dsimp only
    constructor
    · rw [List.append_assoc, drop_append_len _ _ 4 (8 * i) hlc]
      exact timestamps_block_drop seq.instants _ i hi
    · have := drop_append_len (le_bytes 4 (to_uint32 (seq.instants.length : Int))
        ++ timestamps_block seq.instants)
        (values_block seq.temptype (fun _ => scalar_width seq.temptype) seq.instants)
        (4 + 8 * seq.instants.length) (scalar_width seq.temptype * i) (by simp [hlc, hlt])
      rw [this]
      have h2 := values_block_drop seq.temptype (fun _ => scalar_width seq.temptype)
        (scalar_width seq.temptype) seq.instants [] (fun _ _ => rfl) hsrc2 i hi
      simp only [List.append_nil] at h2
      rw [h2, fixed_scalar_source _ _ hfs]

/-- Witness of C4 at the Integer sequence `[(100,5),(200,7),(300,9)]`: the body is
`3`, then `100, 200, 300` as 8-byte timestamps, then `5, 7, 9` as 4-byte integers. -/
theorem sequence_layout_witness :
    ∃ b, tsequence_to_tserialized int_sequence = .ok b
      ∧ b.data = [3, 0, 0, 0]
          ++ ([100, 0, 0, 0, 0, 0, 0, 0] ++ [200, 0, 0, 0, 0, 0, 0, 0] ++ [44, 1, 0, 0, 0, 0, 0, 0])
          ++ ([5, 0, 0, 0] ++ [7, 0, 0, 0] ++ [9, 0, 0, 0])
      ∧ b.data.drop (4 + 8 * 3) = [5, 0, 0, 0] ++ [7, 0, 0, 0] ++ [9, 0, 0, 0] := by
  obtain ⟨b, h1, h2, _, _, _, h6, _⟩ := sequence_layout int_sequence (by decide) (by decide)
  exact ⟨b, h1, h2, h6⟩

/-! ## C5, C6: the Sequence-Set paths -/

/-- C5 (the code at the failing input). Encoding the Integer Sequence-Set
`int_sequence_set` raises no error: `temporal_to_tserialized` returns the null
pointer. -/
theorem sequence_set_encode_returns_null :
    temporal_to_tserialized (.sequenceset int_sequence_set) = .ok none := by
  rfl

/-- C6 (the code at the failing input). Decoding a buffer tagged Sequence-Set
raises no error: `tserialized_to_temporal` returns the null pointer. -/
theorem sequence_set_decode_returns_null :
    tserialized_to_temporal 0 sequence_set_buffer = .ok none := by
  rfl

/-! ## C8: unrecognised tags on decode -/

/-- C8 (the code at the failing input). A Sequence-tagged buffer with an
unrecognised base type tag and count field 0 raises no error: the loop that holds
the check of the tag runs zero times and the decoder goes on to build a sequence of
zero instants. -/
theorem empty_unknown_sequence_decodes :
    tserialized_to_temporal 0 empty_unknown_sequence_buffer
      = .ok (some (.sequence (tsequence_make_free [] 0 true true 0 false))) := by
  rfl

/-! ## C9: unknown base type on encode -/

/-- C9. For every Instant whose base type tag is not recognised, and every Sequence
with a first sample whose samples carry an unrecognised base type tag,
`temporal_to_tserialized` raises the unknown-temporal-type error (the error of
`tserialized_value_size`, which precedes the allocation: the result is this error
whatever the size of the value); and for every temporal value whose shape tag is
unrecognised it raises the unknown-temporal-subtype error. -/
theorem unknown_type_fatal_on_encode (v : Temporal) (c : Nat) :
    (unknown_base_type v c →
      temporal_to_tserialized v = .error (.unknown_temporal_type (.T_OTHER c)))
    ∧ (v.subtype = .ANYOTHER c →
      temporal_to_tserialized v = .error (.unknown_temporal_subtype (.ANYOTHER c))) := by
  constructor
  · intro h
    cases v with
    | sequenceset ss => exact absurd h (by simp [unknown_base_type])
    | instant inst =>
      obtain ⟨hsub, htt⟩ := h
      rw [temporal_to_tserialized_instant inst hsub]
      unfold tinstant_to_tserialized tserialized_value_size
      simp only [htt]
      rfl
    | sequence seq =>
      obtain ⟨hsub, first, rest, hinst, htt⟩ := h
      rw [temporal_to_tserialized_sequence seq hsub]
      unfold tsequence_to_tserialized tsequence_to_tserialized_run
      have hget0 : TSEQUENCE_INST_N seq 0 = .ok first :=
        (TSEQUENCE_INST_N_drop seq 0 first rest (by simpa using hinst)).1
      have hvs : tserialized_value_size first = .error (.unknown_temporal_type (.T_OTHER c)) := by
        unfold tserialized_value_size
        simp only [htt]
        rfl
      simp only [hget0, bind_ok, hvs, bind_error]
  · intro h
    unfold temporal_to_tserialized
    simp only [h]
    rfl

/-- Witness of C9: an Instant and a three-sample Sequence of unrecognised base type
tag 77, and an Instant with unrecognised shape tag 9. -/
theorem unknown_type_fatal_on_encode_witness :
    temporal_to_tserialized (.instant { float_instant with temptype := .T_OTHER 77 })
      = .error (.unknown_temporal_type (.T_OTHER 77))
    ∧ temporal_to_tserialized (.sequence { int_sequence with
        temptype := .T_OTHER 77,
        instants := int_sequence.instants.map (fun i => { i with temptype := .T_OTHER 77 }) })
      = .error (.unknown_temporal_type (.T_OTHER 77))
    ∧ temporal_to_tserialized (.instant { float_instant with subtype := .ANYOTHER 9 })
      = .error (.unknown_temporal_subtype (.ANYOTHER 9)) :=
  ⟨(unknown_type_fatal_on_encode _ 77).1 ⟨rfl, rfl⟩,
   (unknown_type_fatal_on_encode _ 77).1 ⟨rfl, _, _, rfl, rfl⟩,
   (unknown_type_fatal_on_encode _ 9).2 rfl⟩

/-! ## C10: sample count without decoding -/

/-- C10. For every Instant `v`, `tserialized_num_instants` of its encoding is 1, and
for every non-empty Sequence `v` of N samples of a recognised base type it is N,
read from the 4-byte count field at the start of the body. -/
theorem num_instants_of_encoding (v : Temporal) (hv : encodable v) :
    ∃ b, temporal_to_tserialized v = .ok (some b)
      ∧ tserialized_num_instants b = .ok (sample_count v)
      ∧ (b.subtype = .TSEQUENCE → read_int32 b.data 0 = .ok (sample_count v)) := by
  have hmax : MaxAllocSize = 0x3fffffff := rfl
  cases v with
  | sequenceset ss => exact absurd hv (by simp [encodable])
  | instant inst =>
    refine ⟨_, encode_instant inst hv, ?_, ?_⟩
    · unfold tserialized_num_instants
      simp only [hv.1]
      rfl
    · intro h
      simp only [hv.1] at h
      cases h
  | sequence seq =>
    refine ⟨_, encode_sequence seq hv, ?_⟩
    obtain ⟨hsub, _, _, hcount, _, _, _, hsz⟩ := hv
    have hrd : read_int32 (le_bytes 4 (to_uint32 seq.count) ++ timestamps_block seq.instants
        ++ values_block seq.temptype (seq_value_width seq.temptype (first_flags seq))
            seq.instants) 0 = .ok (seq.instants.length : Int) := by
      rw [hcount, List.append_assoc]
      exact count_round_trip _ _ (by omega)
    refine ⟨?_, fun _ => hrd⟩
    unfold tserialized_num_instants
    simp only [hsub]
    exact hrd

/-- Witness of C10: the encoding of the Float instant counts 1 sample, that of the
Text sequence `[(10,"ab"),(20,"hello")]` counts 2. -/
theorem num_instants_of_encoding_witness :
    (∃ b, temporal_to_tserialized (.instant float_instant) = .ok (some b)
      ∧ tserialized_num_instants b = .ok 1)
    ∧ (∃ b, temporal_to_tserialized (.sequence text_sequence) = .ok (some b)
      ∧ tserialized_num_instants b = .ok 2) := by
  obtain ⟨b1, h1, h2, _⟩ := num_instants_of_encoding (.instant float_instant) (by decide)
  obtain ⟨b2, h3, h4, _⟩ := num_instants_of_encoding (.sequence text_sequence) (by decide)
  exact ⟨⟨b1, h1, h2⟩, ⟨b2, h3, h4⟩⟩

/-! ## C7: truncated buffers -/

/-- The sequence decoder on a body too short for its values: the read that crosses
the end of the bytes at hand is outside the object. -/
theorem tserialized_read_loop_short (ts_addr : Nat) (ts : TSERIALIZED) (hasz : Bool)
    (hfs : fixed_scalar ts.temptype) (hlen : ts.data.length < 2 ^ 64) :
    ∀ (n i : Nat) (st : ReadState),
      1 ≤ n →
      ts.data.length < st.v_offset + scalar_width ts.temptype * n →
      tserialized_read_loop ts_addr ts hasz n i st = .error .out_of_bounds := by
  intro n
  induction n with
  | zero => intro i st h _; omega
  | succ n ih =>
    intro i st _ hshort
    rw [tserialized_read_loop]
    by_cases ht : st.t_offset + 8 ≤ ts.data.length
    · have ht1 : read_int64 ts.data st.t_offset
          = .ok (to_int64 (le_value ((ts.data.drop st.t_offset).take 8))) := by
        unfold read_int64
        rw [mem_read_ok _ _ _ ht]; rfl
      simp only [ht1, bind_ok]
      by_cases hv : st.v_offset + scalar_width ts.temptype ≤ ts.data.length
      · have hv1 := scalar_read_step ts_addr ts hasz st.v_offset hfs hv (by omega)
        simp only [hv1, bind_ok]
        have hn : 1 ≤ n := by
          rcases Nat.eq_zero_or_pos n with h0 | h0
          · subst h0; omega
          · exact h0
        exact ih (i + 1) _ hn (by simp only; rw [Nat.mul_succ] at hshort; omega)
      · have hv2 : ts.data.length < st.v_offset + scalar_width ts.temptype := by omega
        rcases hfs with h | h | h <;> simp only [h, scalar_width] at hv2 ⊢
        · simp only [read_int32, mem_read_oob _ _ _ hv2, bind_error]
        · simp only [read_double, mem_read_oob _ _ _ hv2, bind_error]
        · simp only [read_bool, mem_read_oob _ _ _ hv2, bind_error]
    · have ht1 : read_int64 ts.data st.t_offset = .error .out_of_bounds := by
        unfold read_int64
        rw [mem_read_oob _ _ _ (by omega)]; rfl
      simp only [ht1, bind_error]

/-- The instant decoder on a body too short for its timestamp and value. -/
theorem tserialized_to_tinstant_short (ts : TSERIALIZED) (hfs : fixed_scalar ts.temptype)
    (hshort : ts.data.length < 8 + scalar_width ts.temptype) :
    tserialized_to_tinstant ts = .error .out_of_bounds := by
  unfold tserialized_to_tinstant
  by_cases ht : 0 + 8 ≤ ts.data.length
  · have ht1 : read_int64 ts.data 0
        = .ok (to_int64 (le_value ((ts.data.drop 0).take 8))) := by
      unfold read_int64
      rw [mem_read_ok _ _ _ ht]; rfl
    simp only [ht1, bind_ok]
    rcases hfs with h | h | h <;> simp only [h, scalar_width] at hshort ⊢
    · simp only [read_int32, mem_read_oob _ _ _ (show ts.data.length < sizeof_TimestampTz + 4 by
        unfold sizeof_TimestampTz; omega), bind_error]
    · simp only [read_double, mem_read_oob _ _ _ (show ts.data.length < sizeof_TimestampTz + 8 by
        unfold sizeof_TimestampTz; omega), bind_error]
    · simp only [read_bool, mem_read_oob _ _ _ (show ts.data.length < sizeof_TimestampTz + 1 by
        unfold sizeof_TimestampTz; omega), bind_error]
  · have ht1 : read_int64 ts.data 0 = .error .out_of_bounds := by
      unfold read_int64
      rw [mem_read_oob _ _ _ (by omega)]; rfl
    simp only [ht1, bind_error]

/-- The instant decoder on a body that holds at least a timestamp and a value. -/
theorem tserialized_to_tinstant_long (ts : TSERIALIZED) (hfs : fixed_scalar ts.temptype)
    (hlong : 8 + scalar_width ts.temptype ≤ ts.data.length) :
    tserialized_to_tinstant ts = .ok (scalar_instant ts.temptype (ts.data.take 8)
      ((ts.data.drop 8).take (scalar_width ts.temptype))) := by
  have h1 : ts.data = ts.data.take 8 ++ (ts.data.drop 8).take (scalar_width ts.temptype)
      ++ (ts.data.drop 8).drop (scalar_width ts.temptype) := by
    rw [List.append_assoc, List.take_append_drop, List.take_append_drop]
  exact tserialized_to_tinstant_scalar ts _ _ _ hfs h1 (by simp; omega) (by simp; omega)

/-- The sequence decoder never reads the envelope's length word. -/
theorem tserialized_read_loop_congr (ts_addr : Nat) (ts1 ts2 : TSERIALIZED) (hasz : Bool)
    (h1 : ts1.temptype = ts2.temptype) (h2 : ts1.flags = ts2.flags) (h3 : ts1.data = ts2.data) :
    ∀ (n i : Nat) (st : ReadState),
      tserialized_read_loop ts_addr ts1 hasz n i st
        = tserialized_read_loop ts_addr ts2 hasz n i st := by
  intro n
  induction n with
  | zero => intro i st; rfl
  | succ n ih =>
    intro i st
    rw [tserialized_read_loop, tserialized_read_loop]
    simp only [h1, h2, h3, ih]

/-- The decoder never reads the envelope's length word: its result is the same
whatever length the envelope declares. -/
theorem tserialized_to_temporal_ignores_length (ts_addr : Nat) (ts : TSERIALIZED) (n : Nat) :
    tserialized_to_temporal ts_addr { ts with vl_len_ := n }
      = tserialized_to_temporal ts_addr ts := by
  unfold tserialized_to_temporal tserialized_to_tsequence tserialized_to_tsequence_run
  simp only [tserialized_read_loop_congr ts_addr { ts with vl_len_ := n } ts _ rfl rfl rfl]
  rfl

theorem tserialized_to_tsequence_run_short (ts_addr : Nat) (ts : TSERIALIZED) (N : Nat)
    (hfs : fixed_scalar ts.temptype)
    (hc : read_int32 ts.data 0 = .ok (N : Int))
    (hN1 : 1 ≤ N) (hN : 8 * N ≤ MaxAllocSize)
    (hshort : ts.data.length < 4 + 8 * N + scalar_width ts.temptype * N) :
    tserialized_to_tsequence_run ts_addr ts = .error .out_of_bounds := by
  have hmax : MaxAllocSize = 0x3fffffff := rfl
  unfold tserialized_to_tsequence_run
  have hs : to_size_t (N : Int) = N := to_size_t_natCast N (by omega)
  have hp : palloc (size_t_wrap (sizeof_pointer * N)) = .ok () := by
    unfold palloc
    have : size_t_wrap (sizeof_pointer * N) = 8 * N := by
      unfold size_t_wrap sizeof_pointer; omega
    rw [this, if_neg (by omega)]
  have hv : size_t_wrap (sizeof_int32 + size_t_wrap (N * sizeof_TimestampTz)) = 4 + 8 * N := by
    unfold size_t_wrap sizeof_int32 sizeof_TimestampTz; omega
  have hw := scalar_width_le ts.temptype
  have hwN : scalar_width ts.temptype * N ≤ 8 * N := Nat.mul_le_mul_right N hw
  simp only [hc, bind_ok, hs, hp, hv, Int.toNat_ofNat]
  rw [tserialized_read_loop_short ts_addr ts _ hfs (by omega) N 0 _ hN1 (by simp only; omega)]
  rfl

theorem read_int32_short (mem : List Nat) (h : mem.length < 4) :
    read_int32 mem 0 = .error .out_of_bounds := by
  unfold read_int32
  rw [mem_read_oob _ _ _ (by omega)]; rfl

theorem take_append_ge (a b : List Nat) (n : Nat) (h : a.length ≤ n) :
    (a ++ b).take n = a ++ b.take (n - a.length) := by
  rw [List.take_append_eq_append_take, List.take_of_length_le h]

/-- C7 as amended. For every Instant and non-empty Sequence `v` of base type Integer,
Float or Boolean, with `b` its encoding and `k ≥ 1`: the buffer `b` without its last
`k` bytes is shorter than its envelope declares; decoding it when nothing readable
follows it performs a read outside the buffer (no error of the codec is raised);
decoding it when at least `k` other bytes follow it in memory, the cut lying within
the samples, returns a temporal value; and the result of decoding never depends on
the length the envelope declares. -/
theorem truncation_not_detected (v : Temporal) (hv : scalar_temporal v) (k : Nat) (hk : 1 ≤ k) :
    ∃ b, temporal_to_tserialized v = .ok (some b)
      ∧ (truncate_buffer k b).physical_size < (truncate_buffer k b).varsize
      ∧ (∀ ts_addr, tserialized_to_temporal ts_addr (truncate_buffer k b) = .error .out_of_bounds)
      ∧ (∀ ts_addr tail, k ≤ samples_size v → k ≤ tail.length →
          ∃ m, tserialized_to_temporal ts_addr (followed_by (truncate_buffer k b) tail)
            = .ok (some m))
      ∧ (∀ ts_addr tail n,
          tserialized_to_temporal ts_addr
              { followed_by (truncate_buffer k b) tail with vl_len_ := n }
            = tserialized_to_temporal ts_addr (followed_by (truncate_buffer k b) tail)) := by
  have hmax : MaxAllocSize = 0x3fffffff := rfl
  cases v with
  | sequenceset ss => exact absurd hv (by simp [scalar_temporal])
  | instant inst =>
    have henc := encode_scalar_instant inst hv
    obtain ⟨hsub, hfs, _, hl, _, _⟩ := hv
    have hw := scalar_width_le inst.temptype
    have hw1 := scalar_width_pos inst.temptype hfs
    have hlen : (timestamp_bytes inst.t
        ++ inst.value.take (scalar_width inst.temptype)).length
        = 8 + scalar_width inst.temptype := by
      simp only [List.length_append, List.length_take, timestamp_bytes, le_bytes_length]; omega
    refine ⟨_, henc, ?_, ?_, ?_, ?_⟩
    · simp only [truncate_buffer, TSERIALIZED.physical_size, TSERIALIZED.varsize,
        sizeof_TSERIALIZED, List.length_take, hlen]
      rw [header_varsize_varsize_header _ (by omega)]
      omega
    · intro ts_addr
      unfold tserialized_to_temporal
      simp only [truncate_buffer, hsub]
      rw [tserialized_to_tinstant_short _ hfs (by
        simp only [List.length_take, hlen]; omega)]
      rfl
    · intro ts_addr tail hk1 hk2
      simp only [samples_size] at hk1
      unfold tserialized_to_temporal
      simp only [truncate_buffer, followed_by, hsub]
      rw [tserialized_to_tinstant_long _ hfs (by
        simp only [List.length_append, List.length_take, hlen]; omega)]
      exact ⟨_, rfl⟩
    · intro ts_addr tail n
      exact tserialized_to_temporal_ignores_length ts_addr _ n
  | sequence seq =>
    have henc := encode_scalar_sequence seq hv
    obtain ⟨hN1, hN2⟩ := scalar_sequence_count_lt seq hv
    obtain ⟨hsub, hfs, hne, hcount, hall, hsz⟩ := hv
    have hw := scalar_width_le seq.temptype
    have hw1 := scalar_width_pos seq.temptype hfs
    have hpos : 1 ≤ seq.instants.length := by
      rcases Nat.eq_zero_or_pos seq.instants.length with h0 | h0
      · exact absurd (List.length_eq_zero.mp h0) hne
      · exact h0
    have hwv : ∀ inst ∈ seq.instants,
        seq_value_width seq.temptype (first_flags seq) inst = scalar_width seq.temptype :=
      fun inst _ => fixed_scalar_seq_width _ _ inst hfs
    have hlv : (values_block seq.temptype
        (seq_value_width seq.temptype (first_flags seq)) seq.instants).length
        = scalar_width seq.temptype * seq.instants.length := by
      rw [values_block_length _ _ _ (fun inst hm => by
        rw [hwv inst hm, fixed_scalar_source _ inst hfs]; exact (hall inst hm).2.2.1),
        widths_sum_const _ _ _ hwv, Nat.mul_comm]
    have hlen : (le_bytes 4 (to_uint32 seq.count) ++ timestamps_block seq.instants
        ++ values_block seq.temptype (seq_value_width seq.temptype (first_flags seq))
            seq.instants).length
        = 4 + 8 * seq.instants.length + scalar_width seq.temptype * seq.instants.length := by
      simp only [List.length_append, le_bytes_length, timestamps_block_length, hlv]
    have hmul : (8 + scalar_width seq.temptype) * seq.instants.length
        = 8 * seq.instants.length + scalar_width seq.temptype * seq.instants.length := by ring
    have hcnt : ∀ (m : Nat) (tail : List Nat), 4 ≤ m →
        read_int32 ((le_bytes 4 (to_uint32 seq.count) ++ timestamps_block seq.instants
          ++ values_block seq.temptype (seq_value_width seq.temptype (first_flags seq))
              seq.instants).take m ++ tail) 0 = .ok (seq.instants.length : Int) := by
      intro m tail hm
      rw [List.append_assoc, take_append_ge _ _ m (by rw [le_bytes_length]; exact hm),
        List.append_assoc, hcount]
      exact count_round_trip _ _ hN2
    refine ⟨_, henc, ?_, ?_, ?_, ?_⟩
    · simp only [truncate_buffer, TSERIALIZED.physical_size, TSERIALIZED.varsize,
        sizeof_TSERIALIZED, List.length_take, hlen]
      rw [header_varsize_varsize_header _ hsz]
      omega
    · intro ts_addr
      unfold tserialized_to_temporal tserialized_to_tsequence
      simp only [truncate_buffer, hsub, hlen]
      by_cases h4 : 4 ≤ 4 + 8 * seq.instants.length
          + scalar_width seq.temptype * seq.instants.length - k
      · rw [tserialized_to_tsequence_run_short ts_addr _ seq.instants.length hfs
          (by have := hcnt _ [] h4; simpa using this) hpos hN1
          (by simp only [List.length_take, hlen]; omega)]
        rfl
      · unfold tserialized_to_tsequence_run
        rw [read_int32_short _ (by simp only [List.length_take, hlen]; omega)]
        rfl
    · intro ts_addr tail hk1 hk2
      simp only [samples_size] at hk1
      unfold tserialized_to_temporal tserialized_to_tsequence
      simp only [truncate_buffer, followed_by, hsub, hlen]
      rw [tserialized_to_tsequence_run_scalar ts_addr _ seq.instants.length hfs
        (hcnt _ tail (by omega)) hN1
        (by simp only [List.length_append, List.length_take, hlen]; omega)]
      exact ⟨_, rfl⟩
    · intro ts_addr tail n
      exact tserialized_to_temporal_ignores_length ts_addr _ n

/-- C7, counterexample. The encoding of the Integer sequence `[(100,5),(200,7),(300,9)]`
without its last byte is shorter than its envelope declares (47 bytes against 48), and
decoding it where one other byte (here `1`) follows it in memory returns a sequence,
whose last value is built from that byte: no truncation error is raised.  Where
nothing readable follows it, the decoder reads outside the buffer, which is no error
raised by the codec either. -/
theorem truncated_buffer_decodes :
    temporal_to_tserialized (.sequence int_sequence) = .ok (some int_sequence_buffer)
      ∧ (truncate_buffer 1 int_sequence_buffer).physical_size = 47
      ∧ (truncate_buffer 1 int_sequence_buffer).varsize = 48
      ∧ tserialized_to_temporal 0 (followed_by (truncate_buffer 1 int_sequence_buffer) [1])
        = .ok (some (.sequence (tsequence_make_free
            [tinstant_make (.word 5) .T_TINT 100, tinstant_make (.word 7) .T_TINT 200,
              tinstant_make (.word 16777225) .T_TINT 300]
            3 true true 2 false)))
      ∧ tserialized_to_temporal 0 (truncate_buffer 1 int_sequence_buffer)
        = .error .out_of_bounds := by
  refine ⟨rfl, by decide, by decide, rfl, rfl⟩

/-- Witness of C7 as amended, at the Integer sequence `[(100,5),(200,7),(300,9)]` cut by
one byte. -/
theorem truncation_not_detected_witness :
    ∃ b, temporal_to_tserialized (.sequence int_sequence) = .ok (some b)
      ∧ (truncate_buffer 1 b).physical_size < (truncate_buffer 1 b).varsize
      ∧ (∀ ts_addr, tserialized_to_temporal ts_addr (truncate_buffer 1 b) = .error .out_of_bounds)
      ∧ ∃ m, tserialized_to_temporal 0 (followed_by (truncate_buffer 1 b) [1]) = .ok (some m) := by
  obtain ⟨b, h1, h2, h3, h4, _⟩ :=
    truncation_not_detected (.sequence int_sequence) (by decide) 1 (by decide)
  exact ⟨b, h1, h2, h3, h4 0 [1] (by decide) (by decide)⟩

/-! ## Unrecognised tags on decode: where the decoder does raise -/

/-- The decoder raises on an unrecognised shape tag; on an Instant-tagged buffer
with an unrecognised base type tag whose timestamp is readable; and on a
Sequence-tagged buffer with an unrecognised base type tag whose count field holds
an `N ≥ 1` that `palloc` accepts and whose first timestamp is readable.  A negative
count field makes `palloc` raise. -/
theorem decode_unknown_tags (ts_addr : Nat) (ts : TSERIALIZED) (c : Nat) :
    (ts.subtype = .ANYOTHER c →
      tserialized_to_temporal ts_addr ts = .error (.unknown_temporal_subtype (.ANYOTHER c)))
    ∧ (ts.subtype = .TINSTANT → ts.temptype = .T_OTHER c → 8 ≤ ts.data.length →
      tserialized_to_temporal ts_addr ts = .error (.unknown_temporal_type (.T_OTHER c)))
    ∧ (ts.subtype = .TSEQUENCE → ts.temptype = .T_OTHER c →
      ∀ N : Nat, read_int32 ts.data 0 = .ok (N : Int) → 1 ≤ N → 8 * N ≤ MaxAllocSize →
        12 ≤ ts.data.length →
        tserialized_to_temporal ts_addr ts = .error (.unknown_temporal_type (.T_OTHER c)))
    ∧ (ts.subtype = .TSEQUENCE →
      ∀ x : Int, read_int32 ts.data 0 = .ok x → x < 0 → -(2 : Int) ^ 31 ≤ x →
        tserialized_to_temporal ts_addr ts
          = .error (.invalid_alloc_size (size_t_wrap (sizeof_pointer * to_size_t x)))) := by
  have hmax : MaxAllocSize = 0x3fffffff := rfl
  refine ⟨?_, ?_, ?_, ?_⟩
  · intro h
    unfold tserialized_to_temporal
    simp only [h]
    rfl
  · intro hs ht hl
    unfold tserialized_to_temporal tserialized_to_tinstant
    have ht1 : read_int64 ts.data 0
        = .ok (to_int64 (le_value ((ts.data.drop 0).take 8))) := by
      unfold read_int64
      rw [mem_read_ok _ _ _ (by omega)]; rfl
    simp only [hs, ht1, bind_ok, ht]
    rfl
  · intro hs ht N hc hN1 hN hl
    obtain ⟨n, rfl⟩ : ∃ n, N = n + 1 := ⟨N - 1, by omega⟩
    unfold tserialized_to_temporal tserialized_to_tsequence tserialized_to_tsequence_run
    have hsz : to_size_t ((n + 1 : Nat) : Int) = n + 1 := to_size_t_natCast _ (by omega)
    have hp : palloc (size_t_wrap (sizeof_pointer * (n + 1))) = .ok () := by
      unfold palloc
      have : size_t_wrap (sizeof_pointer * (n + 1)) = 8 * (n + 1) := by
        unfold size_t_wrap sizeof_pointer; omega
      rw [this, if_neg (by omega)]
    have ht1 : read_int64 ts.data sizeof_int32
        = .ok (to_int64 (le_value ((ts.data.drop sizeof_int32).take 8))) := by
      unfold read_int64
      rw [mem_read_ok _ _ _ (by unfold sizeof_int32; omega)]; rfl
    simp only [hs, hc, bind_ok, hsz, hp, Int.toNat_ofNat]
    rw [tserialized_read_loop]
    simp only [ht1, bind_ok, ht]
    rfl
  · intro hs x hc hneg hlow
    unfold tserialized_to_temporal tserialized_to_tsequence tserialized_to_tsequence_run
    have hbig : size_t_wrap (sizeof_pointer * to_size_t x) > MaxAllocSize := by
      unfold size_t_wrap sizeof_pointer to_size_t
      omega
    simp only [hs, hc, bind_ok, palloc, if_pos hbig]
    rfl

/-! ## The point encoding -/

/-- The byte image `geopoint_make_fast` returns. -/
theorem geopoint_make_fast_eq (x y z : Nat) (hasz geodetic : Bool) (srid : Int) :
    geopoint_make_fast x y z hasz geodetic srid = .ok
      (le_bytes 4 (varsize_header (16 + 8 * (if hasz then 3 else 2)))
        ++ [((to_uint32 srid &&& 0x001F0000) >>> 16) % 256,
            ((to_uint32 srid &&& 0x0000FF00) >>> 8) % 256,
            (to_uint32 srid &&& 0x000000FF) % 256]
        ++ [0x40 + (if hasz then 1 else 0) + (if geodetic then 8 else 0)]
        ++ le_bytes 4 1 ++ le_bytes 4 1
        ++ le_bytes 8 x ++ le_bytes 8 y ++ (if hasz then le_bytes 8 z else [])) := by
  cases hasz <;> cases geodetic <;>
    simp [geopoint_make_fast, palloc0, MaxAllocSize, mem_write, memcpy, mem_read, le_bytes,
      sizeof_double, bind, Except.bind, pure, Except.pure, varsize_header, FLAGS_SET_Z,
      FLAGS_SET_GEODETIC, List.replicate] <;> decide

theorem and_shiftLeft_shiftRight (u m k : Nat) : (u &&& (m <<< k)) >>> k = (u >>> k) &&& m := by
  apply Nat.eq_of_testBit_eq
  intro i
  simp only [Nat.testBit_shiftRight, Nat.testBit_and, Nat.testBit_shiftLeft]
  simp

theorem masked_field (u k n : Nat) :
    (u &&& ((2 ^ n - 1) <<< k)) >>> k = (u / 2 ^ k) % 2 ^ n := by
  rw [and_shiftLeft_shiftRight, Nat.and_pow_two_sub_one_eq_mod, Nat.shiftRight_eq_div_pow]

theorem srid_byte0 (u : Nat) : ((u &&& 0x001F0000) >>> 16) % 256 = (u / 65536) % 32 := by
  have h := masked_field u 16 5
  have e : (2 ^ 5 - 1) <<< 16 = 0x001F0000 := by decide
  rw [e] at h
  rw [h]
  omega

theorem srid_byte1 (u : Nat) : ((u &&& 0x0000FF00) >>> 8) % 256 = (u / 256) % 256 := by
  have h := masked_field u 8 8
  have e : (2 ^ 8 - 1) <<< 8 = 0x0000FF00 := by decide
  rw [e] at h
  rw [h]
  omega

theorem srid_byte2 (u : Nat) : (u &&& 0x000000FF) % 256 = u % 256 := by
  have h := Nat.and_pow_two_sub_one_eq_mod u 8
  have e : 2 ^ 8 - 1 = 0x000000FF := by decide
  rw [e] at h
  rw [h]
  omega

theorem and_low21 (u : Nat) : u &&& 0x1FFFFF = u % 2 ^ 21 := by
  have h := Nat.and_pow_two_sub_one_eq_mod u 21
  have e : 2 ^ 21 - 1 = 0x1FFFFF := by decide
  rw [e] at h
  exact h

/-! ## C13: the widths of `tserialized_value_size` -/

/-- C13. For every sample with flags `f`, `tserialized_value_size` returns 4 for
Integer, 8 for Float, 1 for Boolean, (2 + hasZ(f)) * 8 for Euclidean Point and also
for Text (whatever length the text itself declares), the length the value declares
in its own header for Geodetic Point, and raises the unknown-temporal-type error for
every other base type tag; for Integer, Float, Boolean, Euclidean Point and Text the
result is one of 1, 4, 8, 16, 24. -/
theorem value_size_table (temp : TInstant) :
    (temp.temptype = .T_TINT → tserialized_value_size temp = .ok 4)
    ∧ (temp.temptype = .T_TFLOAT → tserialized_value_size temp = .ok 8)
    ∧ (temp.temptype = .T_TBOOL → tserialized_value_size temp = .ok 1)
    ∧ (temp.temptype = .T_TGEOMPOINT → tserialized_value_size temp
        = .ok ((2 + (if MEOS_FLAGS_GET_Z temp.flags then 1 else 0)) * 8))
    ∧ (temp.temptype = .T_TTEXT → tserialized_value_size temp
        = .ok ((2 + (if MEOS_FLAGS_GET_Z temp.flags then 1 else 0)) * 8))
    ∧ (temp.temptype = .T_TGEOGPOINT → tserialized_value_size temp = VARSIZE temp.value
        ∧ (4 ≤ temp.value.length →
            tserialized_value_size temp = .ok (declared_length temp.value)))
    ∧ (∀ c, temp.temptype = .T_OTHER c →
        tserialized_value_size temp = .error (.unknown_temporal_type (.T_OTHER c)))
    ∧ (temp.temptype ≠ .T_TGEOGPOINT → recognised temp.temptype →
        ∃ w, tserialized_value_size temp = .ok w ∧ w ∈ [1, 4, 8, 16, 24]) := by
  refine ⟨?_, ?_, ?_, ?_, ?_, ?_, ?_, ?_⟩
  · intro h; unfold tserialized_value_size; rw [h]; rfl
  · intro h; unfold tserialized_value_size; rw [h]; rfl
  · intro h; unfold tserialized_value_size; rw [h]; rfl
  · intro h; unfold tserialized_value_size; rw [h]
    simp only [sizeof_double, pure_eq_ok, Nat.mul_comm]
  · intro h; unfold tserialized_value_size; rw [h]
    simp only [sizeof_double, pure_eq_ok, Nat.mul_comm]
  · intro h
    have e : tserialized_value_size temp = VARSIZE temp.value := by
      unfold tserialized_value_size; rw [h]
    exact ⟨e, fun hl => by rw [e, VARSIZE_eq _ hl]⟩
  · intro c h; unfold tserialized_value_size; rw [h]; rfl
  · intro hg hrec
    unfold tserialized_value_size
    cases htt : temp.temptype with
    | T_TINT => exact ⟨4, rfl, by simp⟩
    | T_TFLOAT => exact ⟨8, rfl, by simp⟩
    | T_TBOOL => exact ⟨1, rfl, by simp⟩
    | T_TTEXT =>
      cases MEOS_FLAGS_GET_Z temp.flags
      · exact ⟨16, rfl, by simp⟩
      · exact ⟨24, rfl, by simp⟩
    | T_TGEOMPOINT =>
      cases MEOS_FLAGS_GET_Z temp.flags
      · exact ⟨16, rfl, by simp⟩
      · exact ⟨24, rfl, by simp⟩
    | T_TGEOGPOINT => exact absurd htt hg
    | T_OTHER c => rw [htt] at hrec; exact absurd hrec (by simp [recognised])

/-- Witness of C13: a Text sample whose text declares 6 bytes gets width 16, an
Integer sample 4, a Float sample 8, and a sample of unrecognised tag 77 raises. -/
theorem value_size_table_witness :
    tserialized_value_size (text_sample 10 [24, 0, 0, 0, 97, 98, 0, 0]) = .ok ((2 + 0) * 8)
    ∧ tserialized_value_size (int_sample 100 5) = .ok 4
    ∧ tserialized_value_size float_instant = .ok 8
    ∧ tserialized_value_size { float_instant with temptype := .T_OTHER 77 }
        = .error (.unknown_temporal_type (.T_OTHER 77)) :=
  ⟨(value_size_table (text_sample 10 [24, 0, 0, 0, 97, 98, 0, 0])).2.2.2.2.1 rfl,
   (value_size_table (int_sample 100 5)).1 rfl,
   (value_size_table float_instant).2.1 rfl,
   (value_size_table { float_instant with temptype := .T_OTHER 77 }).2.2.2.2.2.2.1 77 rfl⟩

/-! ## C16: layout of the point encoding -/

/-- C16. For every `x`, `y`, `z`, `hasz`, `geodetic` and `srid`, `geopoint_make_fast`
returns a buffer whose declared and actual length is 16 + 8 * (3 if `hasz` else 2);
whose flag byte (offset 7) is 0x40 plus the Z bit (1) when `hasz` plus the geodetic
bit (8) when `geodetic`, no other bit being set; whose bytes 8..11 hold the type 1 and
bytes 12..15 the point count 1; and whose bytes from offset 16 hold `x`, then `y`,
then `z` only when `hasz`.  Called with `srid = 0`, as the decoders do, it writes
three zero SRID bytes (offsets 4..6). -/
theorem point_encoding_layout (x y z : Nat) (hasz geodetic : Bool) (srid : Int) :
    (∃ g, geopoint_make_fast x y z hasz geodetic srid = .ok g
      ∧ g.length = 16 + 8 * (if hasz then 3 else 2)
      ∧ VARSIZE g = .ok (16 + 8 * (if hasz then 3 else 2))
      ∧ (g.drop 7).take 1 = [0x40 + (if hasz then 1 else 0) + (if geodetic then 8 else 0)]
      ∧ (0x40 + (if hasz then 1 else 0) + (if geodetic then 8 else 0))
          = 0x40 ||| (if hasz then 0x01 else 0) ||| (if geodetic then 0x08 else 0)
      ∧ (g.drop 8).take 4 = le_bytes 4 1
      ∧ (g.drop 12).take 4 = le_bytes 4 1
      ∧ (g.drop 16).take 8 = le_bytes 8 x
      ∧ (g.drop 24).take 8 = le_bytes 8 y
      ∧ g.drop 32 = (if hasz then le_bytes 8 z else []))
    ∧ (∃ g, geopoint_make_fast x y z hasz geodetic 0 = .ok g
      ∧ (g.drop 4).take 3 = [0, 0, 0]) := by
  constructor
  · refine ⟨_, geopoint_make_fast_eq x y z hasz geodetic srid, ?_⟩
    cases hasz <;> cases geodetic <;>
      simp [le_bytes, VARSIZE, mem_read, varsize_header, header_varsize, le_value, bind,
        Except.bind, pure, Except.pure]
  · refine ⟨_, geopoint_make_fast_eq x y z hasz geodetic 0, ?_⟩
    cases hasz <;> simp [le_bytes, to_uint32]

/-! ## C19: packing of the SRID -/

/-- C19. For every `srid`, the three SRID bytes `b0`, `b1`, `b2` that
`geopoint_make_fast` writes (offsets 4..6) satisfy `b0 ≤ 31` and
`b0 * 65536 + b1 * 256 + b2 = srid mod 2^21`, which is the 32-bit pattern of `srid`
AND `0x1FFFFF`; so the field gives `srid` back exactly if and only if
`0 ≤ srid < 2^21`. -/
theorem srid_packing (x y z : Nat) (hasz geodetic : Bool) (srid : Int) :
    ∃ g b0 b1 b2, geopoint_make_fast x y z hasz geodetic srid = .ok g
      ∧ (g.drop 4).take 3 = [b0, b1, b2]
      ∧ b0 ≤ 31 ∧ b1 ≤ 255 ∧ b2 ≤ 255
      ∧ ((b0 * 65536 + b1 * 256 + b2 : Nat) : Int) = srid % 2 ^ 21
      ∧ b0 * 65536 + b1 * 256 + b2 = to_uint32 srid &&& 0x1FFFFF
      ∧ (((b0 * 65536 + b1 * 256 + b2 : Nat) : Int) = srid ↔ 0 ≤ srid ∧ srid < 2 ^ 21) := by
  refine ⟨_, (to_uint32 srid / 65536) % 32, (to_uint32 srid / 256) % 256, to_uint32 srid % 256,
    geopoint_make_fast_eq x y z hasz geodetic srid, ?_, ?_, ?_, ?_, ?_, ?_, ?_⟩
  · rw [srid_byte0, srid_byte1, srid_byte2]
    cases hasz <;> simp [le_bytes]
  · omega
  · omega
  · omega
  · unfold to_uint32; omega
  · rw [and_low21]; omega
  · unfold to_uint32; omega

/-! ## C11: round trip of a Euclidean point -/

/-- The point `geopoint_make_fast` builds with SRID 0: sixteen bytes of header, type
and point count, then the ordinates. -/
theorem geopoint_make_fast_parts (x y z : Nat) (hasz geodetic : Bool) :
    ∃ hdr, geopoint_make_fast x y z hasz geodetic 0
        = .ok (hdr ++ (le_bytes 8 x ++ le_bytes 8 y ++ (if hasz then le_bytes 8 z else [])))
      ∧ hdr.length = 16
      ∧ (hdr.drop 4).take 3 = [0, 0, 0]
      ∧ (hdr.drop 7).take 1
          = [0x40 + (if hasz then 1 else 0) + (if geodetic then 8 else 0)] := by
  refine ⟨le_bytes 4 (varsize_header (16 + 8 * (if hasz then 3 else 2)))
      ++ [((to_uint32 0 &&& 0x001F0000) >>> 16) % 256,
          ((to_uint32 0 &&& 0x0000FF00) >>> 8) % 256,
          (to_uint32 0 &&& 0x000000FF) % 256]
      ++ [0x40 + (if hasz then 1 else 0) + (if geodetic then 8 else 0)]
      ++ le_bytes 4 1 ++ le_bytes 4 1, ?_, ?_, ?_, ?_⟩
  · rw [geopoint_make_fast_eq]
    simp only [List.append_assoc]
  · simp [le_bytes_length]
  · simp [le_bytes, to_uint32]
  · simp [le_bytes]

theorem read_double_ok (mem : List Nat) (off : Nat) (h : off + 8 ≤ mem.length) :
    read_double mem off = .ok (le_value ((mem.drop off).take 8)) := by
  unfold read_double
  rw [mem_read_ok _ _ _ h]; rfl

theorem read_int64_ok (mem : List Nat) (off : Nat) (h : off + 8 ≤ mem.length) :
    read_int64 mem off = .ok (to_int64 (le_value ((mem.drop off).take 8))) := by
  unfold read_int64
  rw [mem_read_ok _ _ _ h]; rfl

theorem le_bytes_le_value_chunk (l : List Nat) (off : Nat) (h : is_bytes l)
    (hl : off + 8 ≤ l.length) :
    le_bytes 8 (le_value ((l.drop off).take 8)) = (l.drop off).take 8 := by
  have hb : is_bytes ((l.drop off).take 8) :=
    fun b hb => h b (List.mem_of_mem_drop (List.mem_of_mem_take hb))
  have hlen : ((l.drop off).take 8).length = 8 := by
    simp only [List.length_take, List.length_drop]; omega
  have := le_bytes_le_value _ hb
  rw [hlen] at this
  exact this

/-- The ordinates the point decoder writes back are the ordinates it read. -/
theorem ordinates_rebuilt (ords : List Nat) (hasz : Bool) (hb : is_bytes ords)
    (hl : ords.length = (2 + (if hasz then 1 else 0)) * 8) :
    le_bytes 8 (le_value ((ords.drop 0).take 8)) ++ le_bytes 8 (le_value ((ords.drop 8).take 8))
      ++ (if hasz then le_bytes 8 (le_value ((ords.drop 16).take 8)) else []) = ords := by
  cases hasz
  · simp only [Bool.false_eq_true, if_false, Nat.add_zero] at hl ⊢
    rw [le_bytes_le_value_chunk ords 0 hb (by omega), le_bytes_le_value_chunk ords 8 hb (by omega)]
    simp only [List.drop_zero, List.append_nil]
    rw [List.take_of_length_le (l := ords.drop 8) (by simp only [List.length_drop]; omega)]
    exact List.take_append_drop 8 ords
  · simp only [if_true] at hl ⊢
    rw [le_bytes_le_value_chunk ords 0 hb (by omega), le_bytes_le_value_chunk ords 8 hb (by omega),
      le_bytes_le_value_chunk ords 16 hb (by omega)]
    simp only [List.drop_zero]
    rw [List.take_of_length_le (l := ords.drop 16) (by simp only [List.length_drop]; omega)]
    have h1 : ords.drop 16 = (ords.drop 8).drop 8 := by rw [List.drop_drop]
    rw [h1, List.append_assoc, List.take_append_drop 8 (ords.drop 8)]
    exact List.take_append_drop 8 ords

/-- The instant decoder on a body that holds a timestamp and the ordinates of a
point. -/
theorem tserialized_to_tinstant_point (ts : TSERIALIZED) (tb ords tail : List Nat)
    (htt : ts.temptype = .T_TGEOMPOINT) (hdata : ts.data = tb ++ ords ++ tail)
    (htb : tb.length = 8) (hl : ords.length = point_width ts.flags) (hb : is_bytes ords) :
    ∃ hdr, tserialized_to_tinstant ts
        = .ok (tinstant_make (PointerGetDatum (hdr ++ ords)) .T_TGEOMPOINT (to_int64 (le_value tb)))
      ∧ hdr.length = 16
      ∧ (hdr.drop 4).take 3 = [0, 0, 0]
      ∧ (hdr.drop 7).take 1 = [point_flag_byte ts.flags] := by
  have hw : point_width ts.flags = 16 ∨ point_width ts.flags = 24 := by
    unfold point_width; cases MEOS_FLAGS_GET_Z ts.flags <;> simp
  have hlen : ts.data.length = 8 + ords.length + tail.length := by
    rw [hdata]; simp only [List.length_append, htb]
  have hdrop : ∀ k, ts.data.drop (8 + k) = (ords ++ tail).drop k := by
    intro k
    rw [hdata, List.append_assoc, drop_append_len tb _ 8 k htb]
  have hchunk : ∀ k, k + 8 ≤ ords.length →
      (ts.data.drop (8 + k)).take 8 = (ords.drop k).take 8 := by
    intro k hk
    rw [hdrop k, List.drop_append_of_le_length (by omega),
      List.take_append_of_le_length (by simp only [List.length_drop]; omega)]
  obtain ⟨hdr, hg, h1, h2, h3⟩ := geopoint_make_fast_parts
    (le_value ((ords.drop 0).take 8)) (le_value ((ords.drop 8).take 8))
    (if MEOS_FLAGS_GET_Z ts.flags then le_value ((ords.drop 16).take 8) else 0)
    (MEOS_FLAGS_GET_Z ts.flags) (MEOS_FLAGS_GET_GEODETIC ts.flags)
  refine ⟨hdr, ?_, h1, h2, h3⟩
  have ht : read_int64 ts.data 0 = .ok (to_int64 (le_value tb)) := by
    have := read_int64_mid [] tb (ords ++ tail) 0 rfl htb
    rw [hdata, List.append_assoc]
    simpa using this
  have hx : read_double ts.data sizeof_TimestampTz = .ok (le_value ((ords.drop 0).take 8)) := by
    rw [read_double_ok _ _ (by unfold sizeof_TimestampTz; omega)]
    have := hchunk 0 (by omega)
    simp only [Nat.add_zero] at this
    rw [show sizeof_TimestampTz = 8 from rfl, this]
  have hy : read_double ts.data (sizeof_TimestampTz + 8)
      = .ok (le_value ((ords.drop 8).take 8)) := by
    rw [read_double_ok _ _ (by unfold sizeof_TimestampTz; omega)]
    rw [show sizeof_TimestampTz = 8 from rfl, hchunk 8 (by omega)]
  have hz : (if MEOS_FLAGS_GET_Z ts.flags = true then read_double ts.data (sizeof_TimestampTz + 16)
      else pure 0) = (.ok (if MEOS_FLAGS_GET_Z ts.flags then le_value ((ords.drop 16).take 8)
        else 0) : Except Err Nat) := by
    cases hzf : MEOS_FLAGS_GET_Z ts.flags
    · rfl
    · have h24 : ords.length = 24 := by rw [hl]; unfold point_width; rw [hzf]; rfl
      simp only [if_true]
      rw [read_double_ok _ _ (by unfold sizeof_TimestampTz; omega)]
      rw [show sizeof_TimestampTz = 8 from rfl, hchunk 16 (by omega)]
  have hords := ordinates_rebuilt ords (MEOS_FLAGS_GET_Z ts.flags) hb (by rw [hl]; rfl)
  have hzpart : (if MEOS_FLAGS_GET_Z ts.flags = true then
        le_bytes 8 (if MEOS_FLAGS_GET_Z ts.flags = true then le_value ((ords.drop 16).take 8)
          else 0)
      else [])
      = (if MEOS_FLAGS_GET_Z ts.flags = true then le_bytes 8 (le_value ((ords.drop 16).take 8))
        else []) := by
    cases MEOS_FLAGS_GET_Z ts.flags <;> rfl
  rw [hzpart, hords] at hg
  unfold tserialized_to_tinstant
  simp only [ht, bind_ok, htt, hx, hy, hz, hg]
  rfl

theorem point_sample_encodable (inst : TInstant) (hsub : inst.subtype = .TINSTANT)
    (hp : point_sample inst) :
    encodable (.instant inst) ∧ inst_value_width inst = point_width inst.flags
      ∧ value_source inst.temptype inst = GS_POINT_PTR inst.value := by
  obtain ⟨htt, _, hl, _⟩ := hp
  have hw : inst_value_width inst = point_width inst.flags := by
    unfold inst_value_width point_width
    rw [htt]
    simp only [Nat.mul_comm]
  have hs : value_source inst.temptype inst = GS_POINT_PTR inst.value := by
    unfold value_source; rw [htt]; simp
  have hmax : MaxAllocSize = 0x3fffffff := rfl
  have hw2 : point_width inst.flags ≤ 24 := by
    unfold point_width; cases MEOS_FLAGS_GET_Z inst.flags <;> simp
  have hrec : recognised inst.temptype := by rw [htt]; simp [recognised]
  have hgeog : inst.temptype = .T_TGEOGPOINT → 4 ≤ inst.value.length := by
    intro h; rw [htt] at h; cases h
  refine ⟨⟨hsub, hrec, hgeog, ?_, ?_⟩, hw, hs⟩
  · rw [hw, hs]; exact hl
  · rw [hw]; omega

/-- C11. For every Euclidean Point Instant `v` with has-Z flag `h`, whatever SRID
its geometry carries: the encoder returns a buffer whose body is the timestamp
followed by exactly the (2 + h) * 8 bytes of the raw ordinates (24 when `h` is set);
and the decoder, wherever the buffer lies, returns a Euclidean Point instant with
the timestamp of `v` whose geometry, rebuilt by `geopoint_make_fast`, holds the same
ordinate bytes after its 16 bytes of header, has the Z bit equal to `h` and the
geodetic bit of the envelope flags in its flag byte, and has three zero SRID
bytes. -/
theorem point_round_trip (inst : TInstant) (hsub : inst.subtype = .TINSTANT)
    (hp : point_sample inst) :
    ∃ b, temporal_to_tserialized (.instant inst) = .ok (some b)
      ∧ b.flags = inst.flags
      ∧ b.data = timestamp_bytes inst.t ++ ordinates inst
      ∧ (ordinates inst).length = (2 + (if MEOS_FLAGS_GET_Z inst.flags then 1 else 0)) * 8
      ∧ (MEOS_FLAGS_GET_Z inst.flags = true → (ordinates inst).length = 24)
      ∧ b.varsize = sizeof_TSERIALIZED + 8 + (ordinates inst).length
      ∧ ∀ ts_addr, ∃ hdr,
          tserialized_to_temporal ts_addr b = .ok (some (.instant
            (tinstant_make (PointerGetDatum (hdr ++ ordinates inst)) .T_TGEOMPOINT inst.t)))
          ∧ hdr.length = 16
          ∧ (hdr ++ ordinates inst).drop 16 = ordinates inst
          ∧ ((hdr ++ ordinates inst).drop 7).take 1
              = [0x40 + (if MEOS_FLAGS_GET_Z inst.flags then 1 else 0)
                  + (if MEOS_FLAGS_GET_GEODETIC b.flags then 8 else 0)]
          ∧ ((hdr ++ ordinates inst).drop 4).take 3 = [0, 0, 0] := by
  have hmax : MaxAllocSize = 0x3fffffff := rfl
  obtain ⟨henc, hw, hs⟩ := point_sample_encodable inst hsub hp
  have hb := encode_instant inst henc
  rw [hw, hs] at hb
  obtain ⟨htt, ht, hl, hbytes⟩ := hp
  have hlen : (ordinates inst).length = point_width inst.flags := by
    unfold ordinates; simp only [List.length_take]; omega
  have hw2 : point_width inst.flags ≤ 24 := by
    unfold point_width; cases MEOS_FLAGS_GET_Z inst.flags <;> simp
  refine ⟨_, hb, rfl, rfl, by rw [hlen]; rfl, ?_, ?_, fun ts_addr => ?_⟩
  · intro hz
    rw [hlen]; unfold point_width; rw [hz]; rfl
  · simp only [TSERIALIZED.varsize, hlen, sizeof_TSERIALIZED]
    rw [header_varsize_varsize_header _ (by omega)]
  · obtain ⟨hdr, hdec, h1, h2, h3⟩ := tserialized_to_tinstant_point
      { vl_len_ := varsize_header (16 + point_width inst.flags), temptype := inst.temptype,
        subtype := inst.subtype, flags := inst.flags,
        data := timestamp_bytes inst.t ++ (GS_POINT_PTR inst.value).take (point_width inst.flags) }
      (timestamp_bytes inst.t) (ordinates inst) [] htt (by simp [ordinates])
      (by simp [timestamp_bytes, le_bytes_length]) hlen hbytes
    rw [timestamp_round_trip _ ht] at hdec
    refine ⟨hdr, ?_, h1, ?_, ?_, ?_⟩
    · unfold tserialized_to_temporal
      simp only [hsub] at hdec ⊢
      rw [hdec]
      rfl
    · have := drop_append_len hdr (ordinates inst) 16 0 h1
      simpa using this
    · have e : ((hdr ++ ordinates inst).drop 7).take 1 = (hdr.drop 7).take 1 := by
        rw [List.drop_append_of_le_length (by omega),
          List.take_append_of_le_length (by simp only [List.length_drop]; omega)]
      rw [e, h3]
      rfl
    · have e : ((hdr ++ ordinates inst).drop 4).take 3 = (hdr.drop 4).take 3 := by
        rw [List.drop_append_of_le_length (by omega),
          List.take_append_of_le_length (by simp only [List.length_drop]; omega)]
      rw [e, h2]

/-- Witness of C11 at the 3D point `(1.0, 2.0, 3.0)` with SRID 4326: the value
occupies 24 bytes and the decoded geometry has SRID bytes 0. -/
theorem point_round_trip_witness :
    point_sample point_instant
    ∧ ∃ b, temporal_to_tserialized (.instant point_instant) = .ok (some b)
      ∧ b.data = timestamp_bytes 7 ++ point_xyz_4326.drop 16
      ∧ (point_xyz_4326.drop 4).take 3 = [0, 16, 230]
      ∧ ∃ hdr, tserialized_to_temporal 0 b = .ok (some (.instant
            (tinstant_make (PointerGetDatum (hdr ++ point_xyz_4326.drop 16)) .T_TGEOMPOINT 7)))
          ∧ ((hdr ++ point_xyz_4326.drop 16).drop 4).take 3 = [0, 0, 0] := by
  refine ⟨by decide, ?_⟩
  obtain ⟨b, h1, _, h3, _, _, _, h7⟩ := point_round_trip point_instant (by decide) (by decide)
  obtain ⟨hdr, h8, _, _, _, h12⟩ := h7 0
  exact ⟨b, h1, h3, by decide, hdr, h8, h12⟩

/-! ## C12: Text instants -/

/-- C12 (the code at the failing input). The Text instant `long_text_instant` holds
a text that declares 20 bytes; the encoder copies 16 bytes of it, the width of a 2D
point, and declares a buffer of 8 + 8 + 16 bytes: the last four characters are not
in the buffer, whose text header still declares 20 bytes. -/
theorem text_instant_copies_point_width :
    declared_length long_text_instant.value = 20
      ∧ temporal_to_tserialized (.instant long_text_instant) = .ok (some
          { vl_len_ := varsize_header (8 + 8 + 16), temptype := .T_TTEXT, subtype := .TINSTANT,
            flags := 0,
            data := [5, 0, 0, 0, 0, 0, 0, 0]
              ++ [80, 0, 0, 0, 104, 101, 108, 108, 111, 44, 32, 116, 101, 109, 112, 111] })
      ∧ tserialized_to_temporal 0
          { vl_len_ := varsize_header (8 + 8 + 16), temptype := .T_TTEXT, subtype := .TINSTANT,
            flags := 0,
            data := [5, 0, 0, 0, 0, 0, 0, 0]
              ++ [80, 0, 0, 0, 104, 101, 108, 108, 111, 44, 32, 116, 101, 109, 112, 111] }
        = .ok (some (.instant (tinstant_make
            (PointerGetDatum [80, 0, 0, 0, 104, 101, 108, 108, 111, 44, 32, 116, 101, 109, 112, 111])
            .T_TTEXT 5))) := by
  refine ⟨by decide, rfl, rfl⟩

/-! ## C15: Geodetic points in sequences -/

/-- C15 (the code at the failing input). The encoder writes the two 40-byte blobs of
`geog_sequence` at body offsets 20 and 60.  The decoder, reading the buffer at
address 4096, takes the first blob at offset 20 and then advances its value cursor
by 1031, the length spelled by the low bytes of the address of that blob
(4096 + 8 + 20 = 4124, shifted right by two bits): it takes the second value at
body offset 1051, beyond the 100 bytes of the body. -/
theorem geog_sequence_cursor_strays :
    temporal_to_tserialized (.sequence geog_sequence) = .ok (some geog_sequence_buffer)
      ∧ geog_sequence_buffer.data.length = 100
      ∧ (geog_sequence_buffer.data.drop 20).take 40 = point_xyz_4326
      ∧ (geog_sequence_buffer.data.drop 60).take 40 = point_xyz_4326
      ∧ declared_length point_xyz_4326 = 40
      ∧ tserialized_to_tsequence_run 4096 geog_sequence_buffer = .ok (2,
          { instants :=
              [tinstant_make (PointerGetDatum (geog_sequence_buffer.data.drop 20)) .T_TGEOGPOINT 1,
               tinstant_make (PointerGetDatum (geog_sequence_buffer.data.drop (20 + 1031)))
                 .T_TGEOGPOINT 2],
            t_offset := 20, v_offset := 20 + 1031 + 1288 })
      ∧ geog_sequence_buffer.data.drop (20 + 1031) = [] := by
  refine ⟨rfl, by decide, by decide, by decide, by decide, rfl, by decide⟩

/-! ## C18: the bounds of a sequence's period -/

theorem TSEQUENCE_INST_N_congr (temp1 temp2 : TSequence) (h : temp1.instants = temp2.instants)
    (i : Nat) : TSEQUENCE_INST_N temp1 i = TSEQUENCE_INST_N temp2 i := by
  unfold TSEQUENCE_INST_N; rw [h]

theorem tsequence_size_loop_congr (temp1 temp2 : TSequence)
    (h : temp1.instants = temp2.instants) :
    ∀ (n i size : Nat),
      tsequence_size_loop temp1 n i size = tsequence_size_loop temp2 n i size := by
  intro n
  induction n with
  | zero => intro i size; rfl
  | succ n ih =>
    intro i size
    rw [tsequence_size_loop, tsequence_size_loop]
    simp only [TSEQUENCE_INST_N_congr temp1 temp2 h, ih]

theorem tsequence_write_loop_congr (temp1 temp2 : TSequence) (is_varlength : Bool)
    (h : temp1.instants = temp2.instants) (htt : temp1.temptype = temp2.temptype) :
    ∀ (n i : Nat) (st : WriteState),
      tsequence_write_loop temp1 is_varlength n i st
        = tsequence_write_loop temp2 is_varlength n i st := by
  intro n
  induction n with
  | zero => intro i st; rfl
  | succ n ih =>
    intro i st
    rw [tsequence_write_loop, tsequence_write_loop]
    simp only [TSEQUENCE_INST_N_congr temp1 temp2 h, htt, ih]

/-- The sequence encoder reads neither bound of the period of its input. -/
theorem tsequence_to_tserialized_ignores_bounds (seq : TSequence) (lower_inc upper_inc : Bool) :
    tsequence_to_tserialized { seq with lower_inc := lower_inc, upper_inc := upper_inc }
      = tsequence_to_tserialized seq := by
  unfold tsequence_to_tserialized tsequence_to_tserialized_run
  simp only [TSEQUENCE_INST_N_congr { seq with lower_inc := lower_inc, upper_inc := upper_inc }
      seq rfl,
    tsequence_size_loop_congr { seq with lower_inc := lower_inc, upper_inc := upper_inc }
      seq rfl,
    tsequence_write_loop_congr { seq with lower_inc := lower_inc, upper_inc := upper_inc }
      seq _ rfl rfl]

/-- C18. The sequence encoder writes nothing that depends on the bounds of its
input's period: two sequences that differ only in the inclusivity of their bounds
have the same encoding.  Whenever the sequence decoder returns, it has built its
result with both bounds inclusive and normalization off.  Hence for the Integer
sequence `[(100,5),(200,7),(300,9)]`, whose upper bound is exclusive, the decoding of
the encoding has an inclusive upper bound. -/
theorem period_bounds_not_persisted :
    (∀ (seq : TSequence) (lower_inc upper_inc : Bool),
      tsequence_to_tserialized { seq with lower_inc := lower_inc, upper_inc := upper_inc }
        = tsequence_to_tserialized seq)
    ∧ (∀ (ts_addr : Nat) (ts : TSERIALIZED) (ms : MadeSequence),
      tserialized_to_tsequence ts_addr ts = .ok ms →
        ms.lower_inc = true ∧ ms.upper_inc = true ∧ ms.normalize = false)
    ∧ (∃ b ms, int_sequence.upper_inc = false
        ∧ tsequence_to_tserialized int_sequence = .ok b
        ∧ tserialized_to_tsequence 0 b = .ok ms
        ∧ ms.upper_inc ≠ int_sequence.upper_inc) := by
  refine ⟨tsequence_to_tserialized_ignores_bounds, ?_, ?_⟩
  · intro ts_addr ts ms h
    unfold tserialized_to_tsequence at h
    cases hr : tserialized_to_tsequence_run ts_addr ts with
    | error e => rw [hr] at h; cases h
    | ok r =>
      rw [hr] at h
      obtain ⟨count, st⟩ := r
      simp only [bind_ok, pure_eq_ok, Except.ok.injEq] at h
      subst h
      exact ⟨rfl, rfl, rfl⟩
  · refine ⟨int_sequence_buffer, tsequence_make_free
      [tinstant_make (.word 5) .T_TINT 100, tinstant_make (.word 7) .T_TINT 200,
        tinstant_make (.word 9) .T_TINT 300] 3 true true 2 false, rfl, rfl, rfl, by decide⟩

/-- Witness of C18: `int_sequence` with its bounds flipped has the encoding of
`int_sequence`, and the decoding of that encoding has both bounds inclusive. -/
theorem period_bounds_not_persisted_witness :
    tsequence_to_tserialized { int_sequence with lower_inc := false, upper_inc := true }
      = .ok int_sequence_buffer
    ∧ ∃ ms, tserialized_to_tsequence 0 int_sequence_buffer = .ok ms
        ∧ ms.lower_inc = true ∧ ms.upper_inc = true ∧ ms.normalize = false :=
  ⟨(period_bounds_not_persisted.1 int_sequence false true).trans rfl,
   _, rfl, period_bounds_not_persisted.2.1 0 int_sequence_buffer _ rfl⟩

/-! ## C14: Text sequences -/

theorem length_of_drop_eq (data : List Nat) (off : Nat) (a b : List Nat)
    (h : data.drop off = a ++ b) (ha : 1 ≤ a.length) :
    off + a.length + b.length = data.length := by
  have := congrArg List.length h
  simp only [List.length_drop, List.length_append] at this
  omega

theorem drop_of_drop_eq (data : List Nat) (off : Nat) (a b : List Nat)
    (h : data.drop off = a ++ b) : data.drop (off + a.length) = b := by
  rw [← List.drop_drop, h, List.drop_left]

theorem take_of_drop_eq (data : List Nat) (off n : Nat) (a b : List Nat)
    (h : data.drop off = a ++ b) (hn : n = a.length) : (data.drop off).take n = a := by
  rw [h, hn, List.take_left]

theorem declared_length_append (value rest : List Nat)
    (h : 4 ≤ declared_length value) (hl : declared_length value ≤ value.length) :
    declared_length (value.take (declared_length value) ++ rest) = declared_length value := by
  unfold declared_length
  congr 2
  have h4 : 4 ≤ (value.take (header_varsize (le_value (value.take 4)))).length := by
    unfold declared_length at h hl
    simp only [List.length_take]; omega
  rw [List.take_append_of_le_length h4, List.take_take]
  unfold declared_length at h
  congr 1
  omega

/-- The loop of the sequence decoder over Text values laid out back to back. -/
theorem tserialized_read_loop_text (ts_addr : Nat) (ts : TSERIALIZED) (hasz : Bool)
    (htt : ts.temptype = .T_TTEXT) (hlen : ts.data.length < 2 ^ 64) (rest : List TInstant) :
    ∀ (i : Nat) (st : ReadState) (tail1 tail2 : List Nat),
      ts.data.drop st.t_offset = timestamps_block rest ++ tail1 →
      ts.data.drop st.v_offset = values_block .T_TTEXT declared_width rest ++ tail2 →
      (∀ inst ∈ rest, stored_text inst) →
      tserialized_read_loop ts_addr ts hasz rest.length i st = .ok
        { instants := st.instants ++ text_instants_at ts.data st.v_offset rest,
          t_offset := st.t_offset + 8 * rest.length,
          v_offset := st.v_offset + widths_sum declared_width rest } := by
  induction rest with
  | nil =>
    intro i st _ _ _ _ _
    simp [tserialized_read_loop, text_instants_at, widths_sum, pure_eq_ok]
  | cons inst rest ih =>
    intro i st tail1 tail2 ht hv hwf
    obtain ⟨_, htr, h4, hl⟩ := hwf inst (List.mem_cons_self _ _)
    have hsrc : value_source .T_TTEXT inst = inst.value := by unfold value_source; simp
    simp only [timestamps_block, values_block, List.append_assoc, hsrc, declared_width] at ht hv
    have htb : (timestamp_bytes inst.t).length = 8 := by simp [timestamp_bytes, le_bytes_length]
    have hvb : (inst.value.take (declared_length inst.value)).length
        = declared_length inst.value := by
      simp only [List.length_take]; omega
    have hlt := length_of_drop_eq _ _ _ _ ht (by omega)
    have hlv := length_of_drop_eq _ _ _ _ hv (by omega)
    have ht1 : read_int64 ts.data st.t_offset = .ok inst.t := by
      rw [read_int64_ok _ _ (by omega), take_of_drop_eq _ _ 8 _ _ ht htb.symm,
        timestamp_round_trip _ htr]
    have hvs : VARSIZE (ts.data.drop st.v_offset) = .ok (declared_length inst.value) := by
      rw [VARSIZE_eq _ (by simp only [List.length_drop]; omega), hv,
        declared_length_append _ _ h4 hl]
    have hw1 : size_t_wrap (st.t_offset + sizeof_TimestampTz) = st.t_offset + 8 := by
      unfold size_t_wrap sizeof_TimestampTz; omega
    have hw2 : size_t_wrap (st.v_offset + declared_length inst.value)
        = st.v_offset + declared_length inst.value := by
      unfold size_t_wrap; omega
    have ht2 := drop_of_drop_eq _ _ _ _ ht
    have hv2 := drop_of_drop_eq _ _ _ _ hv
    rw [htb] at ht2
    rw [hvb] at hv2
    rw [List.length_cons, tserialized_read_loop]
    simp only [ht1, bind_ok, htt, hvs, hw1, hw2, pure_eq_ok]
    rw [ih (i + 1)
      { instants := st.instants
          ++ [tinstant_make (PointerGetDatum (ts.data.drop st.v_offset)) .T_TTEXT inst.t],
        t_offset := st.t_offset + 8, v_offset := st.v_offset + declared_length inst.value }
      tail1 tail2 ht2 hv2 (fun x hx => hwf x (List.mem_cons_of_mem _ hx))]
    simp only [text_instants_at, widths_sum, declared_width, List.append_assoc,
      List.singleton_append, PointerGetDatum, tinstant_make]
    congr 2
    · omega
    · omega

theorem values_block_drop_append (temptype : meosType) (width : TInstant → Nat)
    (l : List TInstant) (c : List Nat)
    (hsrc : ∀ inst ∈ l, width inst ≤ (value_source temptype inst).length) :
    ∀ i, (values_block temptype width l ++ c).drop (widths_sum width (l.take i))
      = values_block temptype width (l.drop i) ++ c := by
  induction l with
  | nil => intro i; simp [values_block, widths_sum]
  | cons x xs ih =>
    intro i
    cases i with
    | zero => simp [widths_sum]
    | succ i =>
      have hx : ((value_source temptype x).take (width x)).length = width x := by
        simp only [List.length_take]
        have := hsrc x (List.mem_cons_self _ _)
        omega
      simp only [List.take_succ_cons, List.drop_succ_cons, widths_sum, values_block,
        List.append_assoc]
      rw [drop_append_len _ _ (width x) _ hx]
      exact ih (fun y hy => hsrc y (List.mem_cons_of_mem _ hy)) i

theorem text_instants_at_length (data : List Nat) (l : List TInstant) :
    ∀ off, (text_instants_at data off l).length = l.length := by
  induction l with
  | nil => intro off; rfl
  | cons x xs ih => intro off; simp [text_instants_at, ih]

theorem text_instants_at_get (data : List Nat) (l : List TInstant) :
    ∀ (off i : Nat) (hi : i < l.length) (hm : i < (text_instants_at data off l).length),
      (text_instants_at data off l).get ⟨i, hm⟩
        = tinstant_make (PointerGetDatum (data.drop (off + widths_sum declared_width (l.take i))))
            .T_TTEXT (l.get ⟨i, hi⟩).t := by
  induction l with
  | nil => intro off i hi; simp at hi
  | cons x xs ih =>
    intro off i hi hm
    cases i with
    | zero => simp [text_instants_at, widths_sum]
    | succ i =>
      simp only [text_instants_at, List.get_cons_succ, List.take_succ_cons, widths_sum]
      rw [ih (off + declared_width x) i (by simpa using hi)]
      rw [Nat.add_assoc]

theorem stored_text_sequence_encodable (seq : TSequence) (hv : stored_text_sequence seq) :
    encodable (.sequence seq)
      ∧ seq_value_width seq.temptype (first_flags seq) = declared_width := by
  obtain ⟨hsub, htt, hne, hcount, hall, hsz⟩ := hv
  have hw : seq_value_width seq.temptype (first_flags seq) = declared_width := by
    rw [htt]; rfl
  have hsrc : ∀ inst, value_source seq.temptype inst = inst.value := by
    intro inst; unfold value_source; rw [htt]; simp
  refine ⟨⟨hsub, by rw [htt]; simp [recognised], hne, hcount,
    fun inst hm => by rw [htt]; exact (hall inst hm).1,
    fun _ inst hm => by have := hall inst hm; unfold stored_text at this; omega,
    fun inst hm => by rw [hw, hsrc]; exact (hall inst hm).2.2.2,
    by rw [hw]; exact hsz⟩, hw⟩

/-- The run of the sequence decoder on the encoding of a Text sequence. -/
theorem decode_text_sequence (ts_addr : Nat) (seq : TSequence)
    (hv : stored_text_sequence seq) (n : Nat) (sub : tempSubtype) :
    tserialized_to_tsequence_run ts_addr
      { vl_len_ := n, temptype := seq.temptype, subtype := sub, flags := seq.flags,
        data := le_bytes 4 (to_uint32 seq.count) ++ timestamps_block seq.instants
          ++ values_block seq.temptype declared_width seq.instants }
      = .ok ((seq.instants.length : Int),
        { instants := text_instants_at
            (le_bytes 4 (to_uint32 seq.count) ++ timestamps_block seq.instants
              ++ values_block seq.temptype declared_width seq.instants)
            (4 + 8 * seq.instants.length) seq.instants,
          t_offset := 4 + 8 * seq.instants.length,
          v_offset := 4 + 8 * seq.instants.length
            + widths_sum declared_width seq.instants }) := by
  have hmax : MaxAllocSize = 0x3fffffff := rfl
  obtain ⟨_, htt, _, hcount, hall, hsz⟩ := hv
  have hsrc : ∀ inst ∈ seq.instants,
      declared_width inst ≤ (value_source seq.temptype inst).length := by
    intro inst hm; unfold value_source; rw [htt]; simp only [reduceCtorEq, if_false]
    exact (hall inst hm).2.2.2
  have hlv := values_block_length seq.temptype declared_width seq.instants hsrc
  have hlt := timestamps_block_length seq.instants
  have hlc : (le_bytes 4 (to_uint32 seq.count)).length = 4 := le_bytes_length _ _
  have hN : seq.instants.length < 2 ^ 31 := by omega
  unfold tserialized_to_tsequence_run
  have hc : read_int32 (le_bytes 4 (to_uint32 seq.count) ++ timestamps_block seq.instants
      ++ values_block seq.temptype declared_width seq.instants) 0
      = .ok (seq.instants.length : Int) := by
    rw [hcount, List.append_assoc]
    exact count_round_trip _ _ hN
  have hs : to_size_t (seq.instants.length : Int) = seq.instants.length :=
    to_size_t_natCast _ (by omega)
  have hp : palloc (size_t_wrap (sizeof_pointer * seq.instants.length)) = .ok () := by
    unfold palloc
    have : size_t_wrap (sizeof_pointer * seq.instants.length) = 8 * seq.instants.length := by
      unfold size_t_wrap sizeof_pointer; omega
    rw [this, if_neg (by omega)]
  have hvo : size_t_wrap (sizeof_int32 + size_t_wrap (seq.instants.length * sizeof_TimestampTz))
      = 4 + 8 * seq.instants.length := by
    unfold size_t_wrap sizeof_int32 sizeof_TimestampTz; omega
  simp only [hc, bind_ok, hs, hp, hvo, Int.toNat_ofNat]
  have hloop := tserialized_read_loop_text ts_addr
    { vl_len_ := n, temptype := seq.temptype, subtype := sub, flags := seq.flags,
      data := le_bytes 4 (to_uint32 seq.count) ++ timestamps_block seq.instants
        ++ values_block seq.temptype declared_width seq.instants }
    (MEOS_FLAGS_GET_Z seq.flags) htt
    (by simp only [List.length_append, hlc, hlt, hlv]; omega)
    seq.instants 0
    { instants := [], t_offset := sizeof_int32, v_offset := 4 + 8 * seq.instants.length }
    (values_block seq.temptype declared_width seq.instants) []
    (by
      simp only [sizeof_int32]
      rw [List.append_assoc]
      have := drop_append_len (le_bytes 4 (to_uint32 seq.count))
        (timestamps_block seq.instants
          ++ values_block seq.temptype declared_width seq.instants) 4 0 hlc
      simpa using this)
    (by
      simp only
      have := drop_append_len (le_bytes 4 (to_uint32 seq.count) ++ timestamps_block seq.instants)
        (values_block seq.temptype declared_width seq.instants) (4 + 8 * seq.instants.length) 0
        (by simp [hlc, hlt])
      rw [htt] at this ⊢
      simpa using this)
    hall
  rw [hloop]
  simp only [sizeof_int32, pure_eq_ok, List.nil_append]
  rfl

/-- Where the `i`-th text of an encoded Text sequence lies: the bytes from its
declared offset on are the text, followed by the later texts. -/
theorem text_value_at (seq : TSequence) (hv : stored_text_sequence seq) (i : Nat)
    (hi : i < seq.instants.length) :
    (le_bytes 4 (to_uint32 seq.count) ++ timestamps_block seq.instants
        ++ values_block seq.temptype declared_width seq.instants).drop (declared_offset seq i)
      = (seq.instants.get ⟨i, hi⟩).value.take (declared_width (seq.instants.get ⟨i, hi⟩))
        ++ values_block seq.temptype declared_width (seq.instants.drop (i + 1)) := by
  obtain ⟨_, htt, _, _, hall, _⟩ := hv
  have hsrc : ∀ inst ∈ seq.instants,
      declared_width inst ≤ (value_source seq.temptype inst).length := by
    intro inst hm; unfold value_source; rw [htt]; simp only [reduceCtorEq, if_false]
    exact (hall inst hm).2.2.2
  unfold declared_offset
  rw [drop_append_len (le_bytes 4 (to_uint32 seq.count) ++ timestamps_block seq.instants)
    _ (4 + 8 * seq.instants.length) _ (by simp [le_bytes_length, timestamps_block_length])]
  have h := values_block_drop_append seq.temptype declared_width seq.instants [] hsrc i
  simp only [List.append_nil] at h
  rw [h, List.drop_eq_getElem_cons hi]
  simp only [values_block, List.get_eq_getElem]
  congr 2
  unfold value_source; rw [htt]; simp

/-- C14. For every non-empty Sequence of N Text samples whose texts declare lengths
L_0 .. L_(N-1): the encoder returns a buffer that declares
header size + 4 + 8 N + (L_0 + ... + L_(N-1)) bytes and whose body holds the i-th text
verbatim at offset 4 + 8 N + (L_0 + ... + L_(i-1)); the decoder, wherever the buffer
lies, returns a sequence of N instants, the i-th being built from the timestamp of
the i-th sample and the pointer to that same offset; so the i-th decoded
(timestamp, text) pair is the i-th pair of the input. -/
theorem text_sequence_round_trip (seq : TSequence) (hv : stored_text_sequence seq) :
    ∃ b, temporal_to_tserialized (.sequence seq) = .ok (some b)
      ∧ b.varsize = sizeof_TSERIALIZED + 4 + 8 * seq.instants.length
          + widths_sum declared_width seq.instants
      ∧ (∀ (i : Nat) (hi : i < seq.instants.length),
          (b.data.drop (declared_offset seq i)).take (declared_width (seq.instants.get ⟨i, hi⟩))
            = (seq.instants.get ⟨i, hi⟩).value.take (declared_width (seq.instants.get ⟨i, hi⟩)))
      ∧ ∀ ts_addr, ∃ ms, tserialized_to_temporal ts_addr b = .ok (some (.sequence ms))
          ∧ ms.instants.length = seq.instants.length
          ∧ (∀ (i : Nat) (hi : i < seq.instants.length) (hm : i < ms.instants.length),
              ms.instants.get ⟨i, hm⟩
                = tinstant_make (PointerGetDatum (b.data.drop (declared_offset seq i)))
                    .T_TTEXT (seq.instants.get ⟨i, hi⟩).t)
          ∧ ms.instants.map (fun m => (m.t, m.value.varlena))
              = seq.instants.map (fun inst => (inst.t, inst.value.take (declared_width inst))) := by
  obtain ⟨henc, hw⟩ := stored_text_sequence_encodable seq hv
  have hb := encode_sequence seq henc
  rw [hw] at hb
  have hat := text_value_at seq hv
  have hlen : ∀ (i : Nat) (hi : i < seq.instants.length),
      ((seq.instants.get ⟨i, hi⟩).value.take (declared_width (seq.instants.get ⟨i, hi⟩))).length
        = declared_width (seq.instants.get ⟨i, hi⟩) := by
    intro i hi
    have := (hv.2.2.2.2.1 _ (List.get_mem seq.instants i hi)).2.2.2
    simp only [List.length_take, declared_width]; omega
  refine ⟨_, hb, ?_, ?_, fun ts_addr => ?_⟩
  · simp only [TSERIALIZED.varsize, sizeof_TSERIALIZED]
    rw [header_varsize_varsize_header _ hv.2.2.2.2.2]
  · intro i hi
    simp only
    rw [hat i hi, take_append_len _ _ _ (hlen i hi)]
  · have hrun := decode_text_sequence ts_addr seq hv
      (varsize_header (12 + 8 * seq.instants.length + widths_sum declared_width seq.instants))
      seq.subtype
    have hget : ∀ (i : Nat) (hi : i < seq.instants.length)
        (hm : i < (text_instants_at (le_bytes 4 (to_uint32 seq.count)
          ++ timestamps_block seq.instants
          ++ values_block seq.temptype declared_width seq.instants)
          (4 + 8 * seq.instants.length) seq.instants).length),
        (text_instants_at (le_bytes 4 (to_uint32 seq.count) ++ timestamps_block seq.instants
          ++ values_block seq.temptype declared_width seq.instants)
          (4 + 8 * seq.instants.length) seq.instants).get ⟨i, hm⟩
          = tinstant_make (PointerGetDatum ((le_bytes 4 (to_uint32 seq.count)
              ++ timestamps_block seq.instants
              ++ values_block seq.temptype declared_width seq.instants).drop
                (declared_offset seq i))) .T_TTEXT (seq.instants.get ⟨i, hi⟩).t := by
      intro i hi hm
      rw [text_instants_at_get _ _ _ i hi hm]
      rfl
    refine ⟨tsequence_make_free (text_instants_at (le_bytes 4 (to_uint32 seq.count)
        ++ timestamps_block seq.instants
        ++ values_block seq.temptype declared_width seq.instants)
        (4 + 8 * seq.instants.length) seq.instants) (seq.instants.length : Int) true true
        (MEOS_FLAGS_GET_INTERP seq.flags) false, ?_, ?_, ?_, ?_⟩
    · unfold tserialized_to_temporal
      simp only [hv.1]
      unfold tserialized_to_tsequence
      simp only [hv.1] at hrun
      rw [hrun]
      rfl
    · simp [tsequence_make_free, text_instants_at_length]
    · intro i hi hm
      exact hget i hi hm
    · apply List.ext_getElem
      · simp [tsequence_make_free, text_instants_at_length]
      · intro i h1 h2
        have hi : i < seq.instants.length := by simpa using h2
        have hm : i < (text_instants_at (le_bytes 4 (to_uint32 seq.count)
            ++ timestamps_block seq.instants
            ++ values_block seq.temptype declared_width seq.instants)
            (4 + 8 * seq.instants.length) seq.instants).length := by
          rw [text_instants_at_length]; exact hi
        have hg := hget i hi hm
        rw [hat i hi] at hg
        simp only [List.get_eq_getElem] at hg
        simp only [tsequence_make_free, List.getElem_map, hg, tinstant_make, PointerGetDatum,
          Datum.varlena]
        have hst := hv.2.2.2.2.1 _ (List.get_mem seq.instants i hi)
        simp only [List.get_eq_getElem] at hst
        have hl := hlen i hi
        simp only [List.get_eq_getElem, declared_width] at hl
        simp only [declared_width]
        rw [declared_length_append _ _ hst.2.2.1 hst.2.2.2, take_append_len _ _ _ hl]

/-- Witness of C14 at the Text sequence `[(10,"ab"),(20,"hello")]`: the texts, of 6
and 9 bytes, lie at body offsets 20 and 26 of a buffer that declares 8 + 35 bytes. -/
theorem text_sequence_round_trip_witness :
    stored_text_sequence text_sequence
    ∧ ∃ b, temporal_to_tserialized (.sequence text_sequence) = .ok (some b)
      ∧ b.varsize = 8 + 4 + 8 * 2 + (6 + 9)
      ∧ (b.data.drop 20).take 6 = [24, 0, 0, 0, 97, 98]
      ∧ (b.data.drop 26).take 9 = [36, 0, 0, 0, 104, 101, 108, 108, 111]
      ∧ ∃ ms, tserialized_to_temporal 0 b = .ok (some (.sequence ms))
          ∧ ms.instants.map (fun m => (m.t, m.value.varlena))
              = [(10, [24, 0, 0, 0, 97, 98]), (20, [36, 0, 0, 0, 104, 101, 108, 108, 111])] := by
  refine ⟨by decide, ?_⟩
  obtain ⟨b, h1, h2, h3, h4⟩ := text_sequence_round_trip text_sequence (by decide)
  obtain ⟨ms, h5, _, _, h8⟩ := h4 0
  have e0 := h3 0 (by decide)
  have e1 := h3 1 (by decide)
  have w0 : declared_width (text_sequence.instants.get ⟨0, by decide⟩) = 6 := by decide
  have w1 : declared_width (text_sequence.instants.get ⟨1, by decide⟩) = 9 := by decide
  have o0 : declared_offset text_sequence 0 = 20 := by decide
  have o1 : declared_offset text_sequence 1 = 26 := by decide
  rw [w0, o0] at e0
  rw [w1, o1] at e1
  exact ⟨b, h1, h2, e0, e1, ms, h5, h8⟩

/-! ## C17: decoding an encoder output stays in bounds -/

/-- The loop of the sequence decoder over Euclidean points: with `8 n` bytes at the
timestamp cursor and `n` point widths at the value cursor it runs to its end. -/
theorem tserialized_read_loop_point (ts_addr : Nat) (ts : TSERIALIZED)
    (htt : ts.temptype = .T_TGEOMPOINT) :
    ∀ (n i : Nat) (st : ReadState),
      st.t_offset + 8 * n ≤ ts.data.length →
      st.v_offset + point_width ts.flags * n ≤ ts.data.length →
      st.t_offset + 8 * n < 2 ^ 64 →
      st.v_offset + point_width ts.flags * n < 2 ^ 64 →
      ∃ st2, tserialized_read_loop ts_addr ts (MEOS_FLAGS_GET_Z ts.flags) n i st = .ok st2
        ∧ st2.t_offset = st.t_offset + 8 * n
        ∧ st2.v_offset = st.v_offset + point_width ts.flags * n
        ∧ st2.instants.length = st.instants.length + n := by
  intro n
  induction n with
  | zero => intro i st _ _ _ _; exact ⟨st, rfl, rfl, rfl, rfl⟩
  | succ n ih =>
    intro i st ht hv ht64 hv64
    rw [Nat.mul_succ] at ht hv ht64 hv64
    have hpw : point_width ts.flags = 8 * (if MEOS_FLAGS_GET_Z ts.flags = true then 3 else 2) := by
      unfold point_width; cases MEOS_FLAGS_GET_Z ts.flags <;> rfl
    have hw16 : 16 ≤ point_width ts.flags := by
      unfold point_width; cases MEOS_FLAGS_GET_Z ts.flags <;> simp
    have ht1 := read_int64_ok ts.data st.t_offset (by omega)
    have hx := read_double_ok ts.data st.v_offset (by omega)
    have hy := read_double_ok ts.data (st.v_offset + 8) (by omega)
    have hz : ∃ z, (if MEOS_FLAGS_GET_Z ts.flags = true then read_double ts.data (st.v_offset + 16)
        else Except.ok 0) = (.ok z : Except Err Nat) := by
      cases hzf : MEOS_FLAGS_GET_Z ts.flags
      · exact ⟨0, rfl⟩
      · have h24 : point_width ts.flags = 24 := by unfold point_width; rw [hzf]; rfl
        exact ⟨_, by simp only [if_true]; exact read_double_ok ts.data (st.v_offset + 16) (by omega)⟩
    obtain ⟨z, hz⟩ := hz
    have hw1 : size_t_wrap (st.t_offset + sizeof_TimestampTz) = st.t_offset + 8 := by
      unfold size_t_wrap sizeof_TimestampTz; omega
    have hw2 : size_t_wrap (st.v_offset
        + sizeof_double * (if MEOS_FLAGS_GET_Z ts.flags = true then 3 else 2))
        = st.v_offset + point_width ts.flags := by
      rw [hpw] at hv64 ⊢
      unfold size_t_wrap sizeof_double; omega
    rw [tserialized_read_loop]
    simp only [ht1, bind_ok, htt, hx, hy, geopoint_make_fast_eq, pure_eq_ok, hw1, hw2, hz]
    generalize tinstant_make _ _ _ = m
    obtain ⟨st2, hrun, h1, h2, h3⟩ := ih (i + 1)
      { instants := st.instants ++ [m],
        t_offset := st.t_offset + 8, v_offset := st.v_offset + point_width ts.flags }
      (by simp only; omega) (by simp only; omega) (by simp only; omega) (by simp only; omega)
    refine ⟨st2, hrun, ?_, ?_, ?_⟩
    · rw [h1]; simp only; omega
    · rw [h2, Nat.mul_succ]; simp only; omega
    · rw [h3]; simp only [List.length_append, List.length_singleton]; omega

theorem tserialized_to_tsequence_run_point (ts_addr : Nat) (ts : TSERIALIZED) (N : Nat)
    (htt : ts.temptype = .T_TGEOMPOINT)
    (hc : read_int32 ts.data 0 = .ok (N : Int))
    (hN : 12 + (8 + point_width ts.flags) * N ≤ MaxAllocSize)
    (hlen : 4 + 8 * N + point_width ts.flags * N ≤ ts.data.length) :
    ∃ st, tserialized_to_tsequence_run ts_addr ts = .ok ((N : Int), st)
      ∧ st.t_offset = 4 + 8 * N
      ∧ st.v_offset = 4 + 8 * N + point_width ts.flags * N
      ∧ st.instants.length = N := by
  have hmax : MaxAllocSize = 0x3fffffff := rfl
  have hmul : (8 + point_width ts.flags) * N = 8 * N + point_width ts.flags * N := by ring
  unfold tserialized_to_tsequence_run
  have hs : to_size_t (N : Int) = N := to_size_t_natCast N (by omega)
  have hp : palloc (size_t_wrap (sizeof_pointer * N)) = .ok () := by
    unfold palloc
    have : size_t_wrap (sizeof_pointer * N) = 8 * N := by
      unfold size_t_wrap sizeof_pointer; omega
    rw [this, if_neg (by omega)]
  have hv : size_t_wrap (sizeof_int32 + size_t_wrap (N * sizeof_TimestampTz)) = 4 + 8 * N := by
    unfold size_t_wrap sizeof_int32 sizeof_TimestampTz; omega
  simp only [hc, bind_ok, hs, hp, hv, Int.toNat_ofNat]
  obtain ⟨st2, hrun, h1, h2, h3⟩ := tserialized_read_loop_point ts_addr ts htt N 0
    { instants := [], t_offset := sizeof_int32, v_offset := 4 + 8 * N }
    (by simp only [sizeof_int32]; omega) (by simp only; omega)
    (by simp only [sizeof_int32]; omega) (by simp only; omega)
  refine ⟨st2, by rw [hrun]; rfl, ?_, ?_, ?_⟩
  · rw [h1]; simp only [sizeof_int32]
  · rw [h2]
  · rw [h3]; simp

theorem point_sequence_encodable (seq : TSequence) (hv : point_temporal (.sequence seq)) :
    encodable (.sequence seq)
      ∧ (∀ inst ∈ seq.instants,
          seq_value_width seq.temptype (first_flags seq) inst = point_width seq.flags)
      ∧ widths_sum (seq_value_width seq.temptype (first_flags seq)) seq.instants
          = seq.instants.length * point_width seq.flags := by
  obtain ⟨hsub, htt, hne, hcount, hall, hsz⟩ := hv
  obtain ⟨first, rest, hinst⟩ := List.exists_cons_of_ne_nil hne
  have hfm : first ∈ seq.instants := by rw [hinst]; exact List.mem_cons_self _ _
  have hff : first_flags seq = first.flags := by unfold first_flags; rw [hinst]
  have hw : ∀ inst ∈ seq.instants,
      seq_value_width seq.temptype (first_flags seq) inst = point_width seq.flags := by
    intro inst _
    rw [htt, hff]
    unfold seq_value_width point_width
    simp only [(hall first hfm).2, Nat.mul_comm]
  have hws := widths_sum_const _ _ _ hw
  have hpw : ∀ inst ∈ seq.instants, point_width inst.flags = point_width seq.flags := by
    intro inst hm; unfold point_width; rw [(hall inst hm).2]
  have hmul : (8 + point_width seq.flags) * seq.instants.length
      = 8 * seq.instants.length + seq.instants.length * point_width seq.flags := by ring
  refine ⟨⟨hsub, by rw [htt]; simp [recognised], hne, hcount,
    fun inst hm => by rw [htt]; exact (hall inst hm).1.1,
    fun h => by rw [htt] at h; simp [seq_is_varlength] at h,
    fun inst hm => ?_, ?_⟩, hw, hws⟩
  · rw [hw inst hm, ← hpw inst hm]
    unfold value_source; rw [htt]; simp only [if_true]
    exact (hall inst hm).1.2.2.1
  · rw [hws]; omega

/-- C17. For every Instant and every non-empty Sequence `v` of base type Integer,
Float, Boolean or Euclidean Point, with `b` its encoding: `b` occupies exactly the
bytes its envelope declares, and decoding `b` alone, every read being checked against
those bytes, returns a temporal value, so no read leaves the declared length (the
out-of-range branch is not taken); for a Sequence of N samples the timestamp cursor
of the decoder ends at body offset 4 + 8 N and its value cursor at the end of the
body. -/
theorem decode_stays_in_bounds (v : Temporal) (hv : scalar_temporal v ∨ point_temporal v) :
    ∃ b, temporal_to_tserialized v = .ok (some b)
      ∧ b.physical_size = b.varsize
      ∧ ∀ ts_addr,
          (∃ m, tserialized_to_temporal ts_addr b = .ok (some m))
          ∧ tserialized_to_temporal ts_addr b ≠ .error .out_of_bounds
          ∧ ∀ seq, v = .sequence seq →
              ∃ count st, tserialized_to_tsequence_run ts_addr b = .ok (count, st)
                ∧ st.t_offset = 4 + 8 * seq.instants.length
                ∧ st.v_offset = b.data.length := by
  have hmax : MaxAllocSize = 0x3fffffff := rfl
  have key : ∃ b, temporal_to_tserialized v = .ok (some b)
      ∧ b.physical_size = b.varsize
      ∧ ∀ ts_addr,
          (∃ m, tserialized_to_temporal ts_addr b = .ok (some m))
          ∧ ∀ seq, v = .sequence seq →
              ∃ count st, tserialized_to_tsequence_run ts_addr b = .ok (count, st)
                ∧ st.t_offset = 4 + 8 * seq.instants.length
                ∧ st.v_offset = b.data.length := by
    rcases hv with hv | hv
    · -- fixed-width scalars
      cases v with
      | sequenceset ss => exact absurd hv (by simp [scalar_temporal])
      | instant inst =>
        have henc := encode_scalar_instant inst hv
        obtain ⟨hsub, hfs, _, hl, _, _⟩ := hv
        have hw := scalar_width_le inst.temptype
        have hlen : (timestamp_bytes inst.t
            ++ inst.value.take (scalar_width inst.temptype)).length
            = 8 + scalar_width inst.temptype := by
          simp only [List.length_append, List.length_take, timestamp_bytes, le_bytes_length]
          omega
        refine ⟨_, henc, ?_, fun ts_addr => ⟨?_, fun seq h => by cases h⟩⟩
        · simp only [TSERIALIZED.physical_size, TSERIALIZED.varsize, sizeof_TSERIALIZED, hlen]
          rw [header_varsize_varsize_header _ (by omega)]
          omega
        · unfold tserialized_to_temporal
          simp only [hsub]
          rw [tserialized_to_tinstant_long _ hfs (by simp only [hlen]; omega)]
          exact ⟨_, rfl⟩
      | sequence seq =>
        have henc := encode_scalar_sequence seq hv
        have hdec := fun ts_addr => decode_scalar_sequence ts_addr seq hv
          (varsize_header (12 + (8 + scalar_width seq.temptype) * seq.instants.length))
        obtain ⟨hsub, hfs, _, _, hall, hsz⟩ := hv
        have hwv : ∀ inst ∈ seq.instants,
            seq_value_width seq.temptype (first_flags seq) inst = scalar_width seq.temptype :=
          fun inst _ => fixed_scalar_seq_width _ _ inst hfs
        have hlv : (values_block seq.temptype
            (seq_value_width seq.temptype (first_flags seq)) seq.instants).length
            = scalar_width seq.temptype * seq.instants.length := by
          rw [values_block_length _ _ _ (fun inst hm => by
            rw [hwv inst hm, fixed_scalar_source _ inst hfs]; exact (hall inst hm).2.2.1),
            widths_sum_const _ _ _ hwv, Nat.mul_comm]
        have hlen : (le_bytes 4 (to_uint32 seq.count) ++ timestamps_block seq.instants
            ++ values_block seq.temptype (seq_value_width seq.temptype (first_flags seq))
                seq.instants).length
            = 4 + 8 * seq.instants.length + scalar_width seq.temptype * seq.instants.length := by
          simp only [List.length_append, le_bytes_length, timestamps_block_length, hlv]
        have hmul : (8 + scalar_width seq.temptype) * seq.instants.length
            = 8 * seq.instants.length + scalar_width seq.temptype * seq.instants.length := by
          ring
        refine ⟨_, henc, ?_, fun ts_addr => ⟨?_, fun seq2 h => ?_⟩⟩
        · simp only [TSERIALIZED.physical_size, TSERIALIZED.varsize, sizeof_TSERIALIZED, hlen]
          rw [header_varsize_varsize_header _ hsz]
          omega
        · unfold tserialized_to_temporal tserialized_to_tsequence
          have := hdec ts_addr
          simp only [hsub] at this ⊢
          rw [this]
          exact ⟨_, rfl⟩
        · injection h with h
          subst h
          refine ⟨_, _, hdec ts_addr, rfl, ?_⟩
          simp only [hlen]
    · -- Euclidean points
      cases v with
      | sequenceset ss => exact absurd hv (by simp [point_temporal])
      | instant inst =>
        obtain ⟨hsub, hp⟩ := hv
        obtain ⟨henc, hw, hs⟩ := point_sample_encodable inst hsub hp
        have hb := encode_instant inst henc
        rw [hw, hs] at hb
        obtain ⟨htt, _, hl, hbytes⟩ := hp
        have hlen : (ordinates inst).length = point_width inst.flags := by
          unfold ordinates; simp only [List.length_take]; omega
        have hw2 : point_width inst.flags ≤ 24 := by
          unfold point_width; cases MEOS_FLAGS_GET_Z inst.flags <;> simp
        have hlen2 : (timestamp_bytes inst.t
            ++ (GS_POINT_PTR inst.value).take (point_width inst.flags)).length
            = 8 + point_width inst.flags := by
          simp only [List.length_append, List.length_take, timestamp_bytes, le_bytes_length]
          omega
        refine ⟨_, hb, ?_, fun ts_addr => ⟨?_, fun seq h => by cases h⟩⟩
        · simp only [TSERIALIZED.physical_size, TSERIALIZED.varsize, sizeof_TSERIALIZED, hlen2]
          rw [header_varsize_varsize_header _ (by omega)]
          omega
        · obtain ⟨hdr, hdec, _, _, _⟩ := tserialized_to_tinstant_point
            { vl_len_ := varsize_header (16 + point_width inst.flags),
              temptype := inst.temptype, subtype := inst.subtype, flags := inst.flags,
              data := timestamp_bytes inst.t
                ++ (GS_POINT_PTR inst.value).take (point_width inst.flags) }
            (timestamp_bytes inst.t) (ordinates inst) [] htt (by simp [ordinates])
            (by simp [timestamp_bytes, le_bytes_length]) hlen hbytes
          unfold tserialized_to_temporal
          simp only [hsub] at hdec ⊢
          rw [hdec]
          exact ⟨_, rfl⟩
      | sequence seq =>
        obtain ⟨henc, hw, hws⟩ := point_sequence_encodable seq hv
        have hb := encode_sequence seq henc
        obtain ⟨hsub, htt, _, hcount, hall, hsz⟩ := hv
        have hmul : (8 + point_width seq.flags) * seq.instants.length
            = 8 * seq.instants.length + seq.instants.length * point_width seq.flags := by ring
        have hlv : (values_block seq.temptype
            (seq_value_width seq.temptype (first_flags seq)) seq.instants).length
            = seq.instants.length * point_width seq.flags := by
          rw [values_block_length _ _ _ henc.2.2.2.2.2.2.1, hws]
        have hlen : (le_bytes 4 (to_uint32 seq.count) ++ timestamps_block seq.instants
            ++ values_block seq.temptype (seq_value_width seq.temptype (first_flags seq))
                seq.instants).length
            = 4 + 8 * seq.instants.length + point_width seq.flags * seq.instants.length := by
          simp only [List.length_append, le_bytes_length, timestamps_block_length, hlv]
          rw [Nat.mul_comm (point_width seq.flags)]
        have hrun := fun ts_addr => tserialized_to_tsequence_run_point ts_addr
          { vl_len_ := varsize_header (12 + 8 * seq.instants.length
              + widths_sum (seq_value_width seq.temptype (first_flags seq)) seq.instants),
            temptype := seq.temptype, subtype := seq.subtype, flags := seq.flags,
            data := le_bytes 4 (to_uint32 seq.count) ++ timestamps_block seq.instants
              ++ values_block seq.temptype (seq_value_width seq.temptype (first_flags seq))
                  seq.instants }
          seq.instants.length htt
          (by
            simp only [hcount, List.append_assoc]
            exact count_round_trip _ _ (by omega))
          hsz (by simp only [hlen]; omega)
        refine ⟨_, hb, ?_, fun ts_addr => ⟨?_, fun seq2 h => ?_⟩⟩
        · simp only [TSERIALIZED.physical_size, TSERIALIZED.varsize, sizeof_TSERIALIZED, hlen]
          rw [header_varsize_varsize_header _ henc.2.2.2.2.2.2.2, hws]
          rw [Nat.mul_comm (point_width seq.flags)]
          omega
        · obtain ⟨st, h1, _, _, _⟩ := hrun ts_addr
          unfold tserialized_to_temporal tserialized_to_tsequence
          simp only [hsub] at h1 ⊢
          rw [h1]
          exact ⟨_, rfl⟩
        · injection h with h
          subst h
          obtain ⟨st, h1, h2, h3, _⟩ := hrun ts_addr
          refine ⟨_, st, h1, h2, ?_⟩
          rw [h3]
          simp only [hlen]
  obtain ⟨b, h1, h2, h3⟩ := key
  refine ⟨b, h1, h2, fun ts_addr => ⟨(h3 ts_addr).1, ?_, (h3 ts_addr).2⟩⟩
  obtain ⟨m, hm⟩ := (h3 ts_addr).1
  rw [hm]
  intro h
  cases h

/-- Witness of C17 at a two-sample 3D Euclidean Point sequence and at the Integer
sequence `[(100,5),(200,7),(300,9)]`. -/
theorem decode_stays_in_bounds_witness :
    (point_temporal (.sequence point_sequence)
      ∧ ∃ b, temporal_to_tserialized (.sequence point_sequence) = .ok (some b)
        ∧ b.physical_size = b.varsize
        ∧ ∃ count st, tserialized_to_tsequence_run 0 b = .ok (count, st)
          ∧ st.t_offset = 4 + 8 * 2 ∧ st.v_offset = b.data.length)
    ∧ (scalar_temporal (.sequence int_sequence)
      ∧ ∃ b, temporal_to_tserialized (.sequence int_sequence) = .ok (some b)
        ∧ ∃ m, tserialized_to_temporal 0 b = .ok (some m)) := by
  refine ⟨⟨by decide, ?_⟩, ⟨by decide, ?_⟩⟩
  · obtain ⟨b, h1, h2, h3⟩ :=
      decode_stays_in_bounds (.sequence point_sequence) (Or.inr (by decide))
    obtain ⟨count, st, h4, h5, h6⟩ := (h3 0).2.2 point_sequence rfl
    exact ⟨b, h1, h2, count, st, h4, h5, h6⟩
  · obtain ⟨b, h1, _, h3⟩ :=
      decode_stays_in_bounds (.sequence int_sequence) (Or.inl (by decide))
    exact ⟨b, h1, (h3 0).1⟩

end TSer
